import Mathlib

/-!
# go-cuddlymenu: the physics integrator, the tile map, the animation clock,
the autopilot, the loader and the render path

A shallow embedding of `src/menu/main.go` (`Game.Reset`, `Game.Update`,
`Game.integrate`, `Game.haveLanded`, `Game.autoPilotMovement`, the loader,
`Game.calculatePositions`, `Game.calculateBounce`, `Game.calculateFrame`,
`BuildScrollMap`), `src/menu/tiles.go` (`Animation.Current`, `TileSet.Tile`,
`NewTileMap`, `TileMap.Draw`, `TileMap.clip`), `src/menu/sine.go` (the
choreography index of `SineSprites.Draw`) and `src/menu/constants.go`.

Modelling conventions.

* `float64` fields (`Vec2.X`, `Vec2.Y`, `ThrustSpeed`, `FallingSpeed`, the
  clocks) are exact rationals.  Every constant the integrator adds or
  subtracts is a multiple of `0.5` and every position it produces from an
  integer start is a small integer, so on those values `float64` arithmetic
  is exact; NaN, infinities and rounding are outside the model.
* Go `int` values are `Int`.  `int(f)` truncates toward zero (`toInt`), the
  Go operators `/` and `%` on `int` are `Int.tdiv` and `Int.tmod`.
* A Go run-time panic (index out of range) is the result `none`.
* The package-level tables `cuddlyMap`, `demoScreens`, `scrollTextData` and
  `scrollerCharWidth` are not part of the sources at hand; each is a parameter
  of every function that reads it.  A text is the list of its runes.
* A method that assigns to the state returns the state it leaves; a method
  without an assignment to the state is a function of the state.
* Images are not modelled: a drawing operation is the list of the blits it
  issues.  `rand.Intn(100)` is an input of the tick that may call it.
-/

namespace CuddlyMenu

/-! ## constants.go -/

def tileSize : Int := 32
def dudeSize : Int := 64
def bounceSpeed : Int := 7
def scrollSpeed : Int := 8
def screenWidth : Int := 768
def screenHeight : Int := 536
def gameWidth : Int := screenWidth
def gameHeight : Int := 400
def scrollWidth : Int := screenWidth
def scrollHeight : Int := 80
def scrollOffsetX : Int := 0
def scrollOffsetY : Int := gameHeight + (screenHeight - gameHeight - scrollHeight) / 2
def scrollTileW : Int := 32
def scrollTileH : Int := 80
def autoPilotActivateDuration : Int := 60 * 60 * 2

/-- The tile id `floorTile` of `haveLanded`. -/
def floorTile : Int := 69

def bouncingAnimation : List Int := [0, 3, 5, 6, 5, 3, 0, 1, 2, 3, 2, 1, 0]

/-! ## Go primitives -/

/-- Go conversion `int(f)` of a float: truncation toward zero. -/
def toInt (q : ℚ) : Int := if 0 ≤ q then ⌊q⌋ else ⌈q⌉

/-- Go `math.Floor`. -/
def mathFloor (q : ℚ) : ℚ := ((⌊q⌋ : Int) : ℚ)

/-- Go slice indexing `s[i]`: `none` is the index-out-of-range panic. -/
def goIndex {α : Type} (s : List α) (i : Int) : Option α :=
  if i < 0 then none else s[i.toNat]?

/-- Go 64-bit `int` wrap-around of an exact integer result. -/
def wrapInt64 (x : Int) : Int := (x + 2 ^ 63) % 2 ^ 64 - 2 ^ 63

/-! ## tiles.go: the animation clock -/

structure Animation where
  Duration : ℚ
  Indices : List Int
  Loop : Bool
deriving DecidableEq, Repr

/-- Go `math.Mod(x, y)`: `x - y * trunc(x / y)`, of the sign of `x`.  The
result for `y = 0` (NaN in Go) is outside the model. -/
def mathMod (x y : ℚ) : ℚ := x - y * ((toInt (x / y) : Int) : ℚ)

/-- The position of `Indices` that `Animation.Current` reads when the list is
not empty and the duration is positive: the last one for a finished
non-looping animation (line 25), otherwise the `frame` of lines 27-34. -/
def Animation.framePos (a : Animation) (t : ℚ) : Int :=
  let ct : ℚ := max 0 t
  if !a.Loop ∧ ct ≥ a.Duration then (a.Indices.length : Int) - 1
  else
    let ct1 : ℚ := if a.Loop then mathMod ct a.Duration else ct
    let cp : ℚ := min (ct1 / a.Duration) 1
    let frame : Int := toInt (mathFloor ((a.Indices.length : ℚ) * cp))
    if frame ≥ (a.Indices.length : Int) then (a.Indices.length : Int) - 1 else frame

/-- `Animation.Current` of tiles.go; `none` is an index-out-of-range panic. -/
def Animation.Current (a : Animation) (t : ℚ) : Option Int :=
  if a.Indices.length = 0 then some 0
  else if a.Duration ≤ 0 then goIndex a.Indices 0
  else goIndex a.Indices (a.framePos t)

/-! ## Data model (main.go, tiles.go) -/

structure Vec2 where
  X : ℚ
  Y : ℚ
deriving DecidableEq, Repr

structure Model where
  Position : Vec2
  Direction : Int
  Moving : Bool
  Thrusting : Bool
  JustLanded : Int
  BounceDisplacement : Int
  ThrustSpeed : ℚ
  FallingSpeed : ℚ
  CurrentFrame : Int
  ScrollerPosition : Int
deriving DecidableEq, Repr

structure AutoPilot where
  ActivateIn : Int
  DontThrustForAwhile : Int
  TimeSinceLastThrust : Int
  WaitToLoad : Int
  NowLoadScreen : Bool
  Stuck : Bool
  KeepWalkingForAwhile : Int
  NextScreen : Int
deriving DecidableEq, Repr

structure LoaderState where
  Active : Bool
  ScreenName : String
  Timer : Int
deriving DecidableEq, Repr

/-- The geometry of a `TileSet`; the images themselves are not modelled,
`Tiles` holds one handle per tile. -/
structure TileSet where
  Tiles : List Nat
  TileW : Int
  TileH : Int
  Columns : Int
deriving DecidableEq, Repr

structure TileMap where
  Data : List (List Int)
  Tiles : TileSet
  WidthPx : Int
  HeightPx : Int
deriving DecidableEq, Repr

/-- `NewTileMap` of tiles.go. -/
def NewTileMap (data : List (List Int)) (tiles : TileSet) : TileMap :=
  let w : Int :=
    match data with
    | [] => 0
    | row :: _ => (row.length : Int) * tiles.TileW
  let h : Int := (data.length : Int) * tiles.TileH
  { Data := data, Tiles := tiles, WidthPx := w, HeightPx := h }

structure DudeAnimations where
  MoveRight : Animation
  MoveLeft : Animation
  ThrustRight : Animation
  ThrustLeft : Animation
deriving DecidableEq, Repr

/-- The simulation part of `Game`: the fields read or written by `Reset`,
`Update`, `integrate`, the autopilot and the position and frame queries of
the render path. -/
structure Game where
  mapLevel : TileMap
  scrollerLevel : TileMap
  scrollerLength : Int
  animations : DudeAnimations
  model : Model
  autoPilot : AutoPilot
  loading : LoaderState
  thrustOff : Int
  simTime : ℚ
  carebearTime : ℚ
deriving DecidableEq, Repr

/-- `Game.Reset`: the model, the autopilot, the loader and the clocks get
their initial values; the maps are kept. -/
def Game.Reset (g : Game) : Game :=
  { g with
    model :=
      { Position := { X := 320, Y := 450 }
        Direction := 1
        Moving := false
        Thrusting := false
        JustLanded := 0
        BounceDisplacement := 0
        ThrustSpeed := 0
        FallingSpeed := 0
        CurrentFrame := 6
        ScrollerPosition := 0 }
    autoPilot :=
      { ActivateIn := autoPilotActivateDuration
        DontThrustForAwhile := 0
        TimeSinceLastThrust := 200
        WaitToLoad := 80
        NowLoadScreen := false
        Stuck := false
        KeepWalkingForAwhile := 0
        NextScreen := 0 }
    loading := { Active := false, ScreenName := "", Timer := 0 }
    thrustOff := 0
    simTime := 0
    carebearTime := 0 }

/-! ## The landing query -/

/-- `Game.haveLanded` of main.go.  The result `none` is an index-out-of-range
panic; the `||` of the source is short-circuit, so `row[x+1]` is read only
when `row[x]` is not the floor tile. -/
def haveLanded (cuddlyMap : List (List Int)) (m : Model) : Option Bool :=
  if cuddlyMap.length = 0 then some false
  else
    let x := (toInt m.Position.X).tdiv tileSize
    let y := (toInt m.Position.Y).tdiv tileSize
    if y + 2 ≥ (cuddlyMap.length : Int) ∨ y < 0 then some false
    else do
      let row0 ← goIndex cuddlyMap 0
      if x < 0 ∨ x + 1 ≥ (row0.length : Int) then pure false
      else if (toInt m.Position.Y).tmod tileSize ≠ 0 then pure false
      else do
        let row ← goIndex cuddlyMap (y + 2)
        let a ← goIndex row x
        if a = floorTile then pure true
        else do
          let b ← goIndex row (x + 1)
          if b = floorTile then pure true
          else if x < (row.length : Int) - 2 then do
            let c ← goIndex row (x + 2)
            if c = floorTile then pure true else pure false
          else pure false

/-! ## The integrator, block by block -/

/-- Lines 336-338: the bounce countdown. -/
def bounceStep (m : Model) : Model :=
  if m.BounceDisplacement > 0 then
    { m with BounceDisplacement := m.BounceDisplacement - 1 }
  else m

/-- Lines 340-352: horizontal movement. -/
def horizontalStep (left right : Bool) (m : Model) : Model :=
  let m1 :=
    if left && !right then
      { m with Position := { m.Position with X := m.Position.X - (bounceSpeed : ℚ) }
               Direction := 0, Moving := true }
    else m
  let m2 :=
    if right && !left then
      { m1 with Position := { m1.Position with X := m1.Position.X + (bounceSpeed : ℚ) }
                Direction := 1, Moving := true }
    else m1
  if !right && !left then { m2 with Moving := false } else m2

/-- Lines 354-368: the thrust step. -/
def thrustStep (thrust : Bool) (m : Model) : Model :=
  if thrust then
    let m1 := { m with Thrusting := true }
    let m2 := if m1.ThrustSpeed ≤ 0 then { m1 with ThrustSpeed := 3 } else m1
    let m3 := if m2.ThrustSpeed < 8 then { m2 with ThrustSpeed := m2.ThrustSpeed + 1 } else m2
    { m3 with FallingSpeed := 0 }
  else
    let m1 := { m with Thrusting := false }
    if m1.Position.Y < (tileSize : ℚ) then { m1 with ThrustSpeed := 0 } else m1

/-- Lines 370-374: gravity. -/
def gravityStep (m : Model) : Model :=
  if m.ThrustSpeed ≤ 0 ∧ m.JustLanded ≠ 1 then
    if m.FallingSpeed < (bounceSpeed : ℚ) then
      { m with FallingSpeed := m.FallingSpeed + 1 / 2 }
    else m
  else m

/-- Lines 377-384: the body of the descent loop. -/
def descentBody (cuddlyMap : List (List Int)) (m : Model) : Option Model := do
  let landed ← haveLanded cuddlyMap m
  if !landed then
    pure { m with Position := { m.Position with Y := m.Position.Y + 1 }, JustLanded := 0 }
  else if m.JustLanded < 1 then
    pure { m with JustLanded := 1
                  BounceDisplacement := (bouncingAnimation.length : Int)
                  ThrustSpeed := 0 }
  else pure m

/-- The trip count of the descent loop, `int(math.Floor(m.FallingSpeed))+1`;
the body never writes `FallingSpeed`, so the bound is the same at every
test of the loop condition. -/
def descentCount (m : Model) : Int := toInt (mathFloor m.FallingSpeed) + 1

/-- The body run `n` times. -/
def descentIter (cuddlyMap : List (List Int)) : Nat → Model → Option Model
  | 0, m => some m
  | n + 1, m => do
    let m1 ← descentBody cuddlyMap m
    descentIter cuddlyMap n m1

/-- Lines 376-385: `for i := 0; i < int(math.Floor(m.FallingSpeed))+1; i++`. -/
def descentLoop (cuddlyMap : List (List Int)) (m : Model) : Option Model :=
  descentIter cuddlyMap (descentCount m).toNat m

/-- Lines 387-392: the ascent step; it reads `g.thrustOff`. -/
def ascentStep (thrustOff : Int) (m : Model) : Model :=
  let m1 := if m.ThrustSpeed > 0 then { m with ThrustSpeed := m.ThrustSpeed - 1 / 2 } else m
  if m1.ThrustSpeed > 0 ∧ thrustOff = 0 then
    { m1 with Position := { m1.Position with Y := m1.Position.Y - mathFloor m1.ThrustSpeed } }
  else m1

/-- Lines 394-411: the bounds clamp, on the model and on `g.thrustOff`; the
result is the clamped model and the new `thrustOff`. -/
def clampStep (heightPx : Int) (thrustOff : Int) (m : Model) : Model × Int :=
  let mapHeight : Int := heightPx - (tileSize - 4)
  let m1 :=
    if m.Position.X < ((9 * tileSize : Int) : ℚ) then
      { m with Position := { m.Position with X := ((9 * tileSize : Int) : ℚ) } }
    else m
  let m2 :=
    if m1.Position.Y < 0 then { m1 with Position := { m1.Position with Y := 0 } } else m1
  let t2 : Int := if m1.Position.Y < 0 then 10 else thrustOff
  let m3 :=
    if t2 > 0 then { m2 with Position := { m2.Position with Y := m2.Position.Y + 2 } } else m2
  let t3 : Int := if t2 > 0 then t2 - 1 else t2
  let m4 :=
    if m3.Position.X ≥ ((455 * tileSize : Int) : ℚ) then
      { m3 with Position := { m3.Position with X := ((455 * tileSize : Int) : ℚ) } }
    else m3
  let m5 :=
    if m4.Position.Y ≥ ((mapHeight - dudeSize : Int) : ℚ) then
      { m4 with Position := { m4.Position with Y := ((mapHeight - dudeSize : Int) : ℚ) } }
    else m4
  (m5, t3)

/-- Line 413: the scroller accumulator. -/
def scrollStep (m : Model) : Model :=
  { m with ScrollerPosition := wrapInt64 (m.ScrollerPosition + scrollSpeed) }

/-- The model as the descent loop finds it: after the bounce countdown, the
horizontal move, the thrust step and gravity. -/
def beforeDescent (left right thrust : Bool) (m : Model) : Model :=
  gravityStep (thrustStep thrust (horizontalStep left right (bounceStep m)))

/-- `Game.integrate` of main.go. -/
def integrate (cuddlyMap : List (List Int)) (g : Game) (left right thrust : Bool) :
    Option Game := do
  let m ← descentLoop cuddlyMap (beforeDescent left right thrust g.model)
  let m1 := ascentStep g.thrustOff m
  let c := clampStep g.mapLevel.HeightPx g.thrustOff m1
  pure { g with model := scrollStep c.1, thrustOff := c.2 }

/-- One control input of a tick. -/
structure Input where
  left : Bool
  right : Bool
  thrust : Bool
deriving DecidableEq, Repr

/-- Successive `integrate` calls, one per input. -/
def integrateAll (cuddlyMap : List (List Int)) : List Input → Game → Option Game
  | [], g => some g
  | i :: rest, g => do
    let g1 ← integrate cuddlyMap g i.left i.right i.thrust
    integrateAll cuddlyMap rest g1

/-- `n` successive calls `integrate(false, false, false)`. -/
def idleTicks (cuddlyMap : List (List Int)) : Nat → Game → Option Game
  | 0, g => some g
  | n + 1, g => do
    let g1 ← idleTicks cuddlyMap n g
    integrate cuddlyMap g1 false false false

/-- The map table with every row as long as the first one. -/
def Rectangular (cuddlyMap : List (List Int)) : Prop :=
  ∀ row ∈ cuddlyMap, row.length = (cuddlyMap.headD []).length

instance (cuddlyMap : List (List Int)) : Decidable (Rectangular cuddlyMap) := by
  unfold Rectangular; infer_instance

/-- The tile set of the level map: `NewTileSet(assets.Tiles, tileSize, tileSize)`
has tile width and height `tileSize`.  Its tile table and column count come
from the sheet image, which is outside the model; `integrate` reads neither. -/
def mapTiles : TileSet := { Tiles := [], TileW := tileSize, TileH := tileSize, Columns := 1 }

/-- The tile set of the scroller: `NewTileSet(assets.Chrome, scrollTileW,
scrollTileH)`; its tile table comes from the sheet image like that of
`mapTiles`. -/
def scrollTiles : TileSet :=
  { Tiles := [], TileW := scrollTileW, TileH := scrollTileH, Columns := 1 }

/-- The simulation state `NewGame` builds around a map table and the scroller
row `scrollMap` (the value of `BuildScrollMap(scrollTextData)`): the level map
is `NewTileMap(cuddlyMap, g.mapTiles)`, the scroller map is the one-row map
`NewTileMap([][]int{scrollMap}, g.scrollTiles)`, `scrollerLength` is
`len(scrollMap) * scrollTileW`, the four animations of the character, then
`Reset`. -/
def NewGame (cuddlyMap : List (List Int)) (scrollMap : List Int) : Game :=
  Game.Reset
    { mapLevel := NewTileMap cuddlyMap mapTiles
      scrollerLevel := NewTileMap [scrollMap] scrollTiles
      scrollerLength := (scrollMap.length : Int) * scrollTileW
      animations :=
        { MoveRight := { Duration := 35 / 100, Indices := [2, 3, 4, 5, 6, 7, 8, 9], Loop := true }
          MoveLeft :=
            { Duration := 35 / 100, Indices := [12, 13, 14, 15, 16, 17, 18, 19], Loop := true }
          ThrustRight := { Duration := 75 / 1000, Indices := [0, 1], Loop := true }
          ThrustLeft := { Duration := 75 / 1000, Indices := [10, 11], Loop := true } }
      model :=
        { Position := { X := 0, Y := 0 }, Direction := 0, Moving := false, Thrusting := false
          JustLanded := 0, BounceDisplacement := 0, ThrustSpeed := 0, FallingSpeed := 0
          CurrentFrame := 0, ScrollerPosition := 0 }
      autoPilot :=
        { ActivateIn := 0, DontThrustForAwhile := 0, TimeSinceLastThrust := 0, WaitToLoad := 0
          NowLoadScreen := false, Stuck := false, KeepWalkingForAwhile := 0, NextScreen := 0 }
      loading := { Active := false, ScreenName := "", Timer := 0 }
      thrustOff := 0
      simTime := 0
      carebearTime := 0 }


/-! ## tiles.go: the tile set and the tile map -/

/-- What `TileSet.Tile` returns: the whole sheet image `t.Image`, or the tile
image with a given handle. -/
inductive ImageRef where
  | sheet : ImageRef
  | tile : Nat → ImageRef
deriving DecidableEq, Repr

/-- `TileSet.Tile` of tiles.go; `none` is an index-out-of-range panic. -/
def TileSet.Tile (t : TileSet) (index : Int) : Option ImageRef :=
  if t.Tiles.length = 0 then some ImageRef.sheet
  else
    let index1 : Int := if index < 0 then 0 else index
    let index2 : Int :=
      if index1 ≥ (t.Tiles.length : Int) then index1.tmod (t.Tiles.length : Int) else index1
    (goIndex t.Tiles index2).map ImageRef.tile

/-- `TileMap.clip` of tiles.go. -/
def TileMap.clip (m : TileMap) (offsetX offsetY viewW viewH : Int) : Int × Int :=
  let maxX0 : Int := m.WidthPx - viewW
  let maxX : Int := if maxX0 < 0 then 0 else maxX0
  let maxY0 : Int := m.HeightPx - viewH
  let maxY : Int := if maxY0 < 0 then 0 else maxY0
  let offsetX1 : Int := if offsetX < 0 then 0 else if offsetX > maxX then maxX else offsetX
  let offsetY1 : Int := if offsetY < 0 then 0 else if offsetY > maxY then maxY else offsetY
  (offsetX1, offsetY1)

/-! ## tiles.go: drawing the tile map -/

/-- One `dst.DrawImage(tile, &op)` issued by `TileMap.Draw`: the image, the
translation `(x, y)` of `op.GeoM`, and the map cell `(mapY, mapX)` the tile
index was read from. -/
structure Blit where
  mapY : Int
  mapX : Int
  img : ImageRef
  x : Int
  y : Int
deriving DecidableEq, Repr

/-- The loop indices `(y, x)` of `TileMap.Draw` (lines 128-137) that reach the
body: `y` below `tilesY`, `x` below `tilesX`, in loop order, without the ones
the two `continue` tests skip. -/
def TileMap.drawWindow (maxX maxY startX startY tilesX tilesY : Int) : List (Int × Int) :=
  (List.range tilesY.toNat).flatMap fun y =>
    if startY + (y : Int) < 0 ∨ startY + (y : Int) ≥ maxY then []
    else
      (List.range tilesX.toNat).flatMap fun x =>
        if startX + (x : Int) < 0 ∨ startX + (x : Int) ≥ maxX then [] else [((y : Int), (x : Int))]

/-- The body of the loops of `TileMap.Draw` (lines 138-141) at the loop
indices `yx = (y, x)`. -/
def TileMap.blit (m : TileMap) (startX startY offX offY dstX dstY : Int) (yx : Int × Int) :
    Option Blit := do
  let row ← goIndex m.Data (startY + yx.1)
  let v ← goIndex row (startX + yx.2)
  let tile ← m.Tiles.Tile v
  pure { mapY := startY + yx.1, mapX := startX + yx.2, img := tile
         x := dstX + yx.2 * m.Tiles.TileW - offX, y := dstY + yx.1 * m.Tiles.TileH - offY }

/-- A body run in order over a list of loop indices; the first panic ends the
run. -/
def blitAll {α β : Type} (f : α → Option β) : List α → Option (List β)
  | [] => some []
  | a :: l => do
    let b ← f a
    let bs ← blitAll f l
    pure (b :: bs)

/-- `TileMap.Draw` of tiles.go, as the list of the blits it issues.  A tile
map always has its tile set here, so the test `m.Tiles == nil` is not
modelled; a zero tile size makes the integer divisions of lines 118-123
panic. -/
def TileMap.Draw (m : TileMap) (offsetX offsetY dstX dstY viewW viewH : Int) :
    Option (List Blit) :=
  if m.Data.length = 0 then some []
  else
    let o := m.clip offsetX offsetY viewW viewH
    if m.Tiles.TileW = 0 ∨ m.Tiles.TileH = 0 then none
    else
      let startX : Int := o.1.tdiv m.Tiles.TileW
      let startY : Int := o.2.tdiv m.Tiles.TileH
      let offX : Int := o.1.tmod m.Tiles.TileW
      let offY : Int := o.2.tmod m.Tiles.TileH
      let tilesX : Int := viewW.tdiv m.Tiles.TileW + 2
      let tilesY : Int := viewH.tdiv m.Tiles.TileH + 2
      let maxY : Int := (m.Data.length : Int)
      match goIndex m.Data 0 with
      | none => none
      | some row0 =>
        blitAll (m.blit startX startY offX offY dstX dstY)
          (TileMap.drawWindow (row0.length : Int) maxY startX startY tilesX tilesY)

/-! ## main.go: drawing the scroller -/

/-- The scroller part of `Game.drawScene` (lines 495-498): the blits of the
scroller map, drawn at the horizontal offset
`ScrollerPosition % scrollerLength`. -/
def Game.drawScroller (g : Game) : Option (List Blit) :=
  if g.scrollerLength > 0 then
    g.scrollerLevel.Draw (g.model.ScrollerPosition.tmod g.scrollerLength) 0
      scrollOffsetX scrollOffsetY scrollWidth scrollHeight
  else some []

/-- The horizontal offset `TileMap.Draw` works with when `Game.drawScene`
draws the scroller: the requested offset after the `m.clip` of line 117, from
which the first column and the sub-tile remainder are taken. -/
def Game.scrollerOffset (g : Game) : Int :=
  (g.scrollerLevel.clip (g.model.ScrollerPosition.tmod g.scrollerLength) 0
    scrollWidth scrollHeight).1

/-! ## main.go: the autopilot -/

structure DemoScreen where
  X : Int
  Y : Int
  Name : String
deriving DecidableEq, Repr

structure movement where
  left : Bool
  right : Bool
  thrust : Bool
deriving DecidableEq, Repr

/-- Go `x &^ mask` (bit clear) on `int`. -/
def andNot (x mask : Int) : Int := Int.land x (Int.not mask)

/-- Lines 261-269 of `autoPilotMovement`: the point the autopilot steers
toward; `none` is the index-out-of-range panic of an empty screen table. -/
def autoPilotTarget (demoScreens : List DemoScreen) (nextScreen : Int) : Option Vec2 :=
  let screen : Int :=
    if nextScreen < 0 ∨ nextScreen ≥ (demoScreens.length : Int) then 0 else nextScreen
  do
    let d ← goIndex demoScreens screen
    pure { X := ((d.X * tileSize + 64 : Int) : ℚ), Y := ((d.Y * tileSize + 64 : Int) : ℚ) }

/-- Lines 279-285 of `autoPilotMovement`: stuck detection. -/
def stuckStep (ap : AutoPilot) (onLevel : Bool) (currentY : Int) (target : Vec2) : AutoPilot :=
  let ap1 :=
    if onLevel = true ∧ andNot currentY 0x1f < andNot (toInt target.Y) 0xf ∧ currentY < 550 then
      { ap with Stuck := true, KeepWalkingForAwhile := 30 }
    else ap
  if currentY ≥ 550 then { ap1 with Stuck := false } else ap1

/-- Lines 287-315 of `autoPilotMovement`: the synthesized movement, from the
autopilot state after stuck detection. -/
def steerStep (ap : AutoPilot) (m : Model) (onLevel : Bool) (target : Vec2)
    (currentX targetX : Int) : AutoPilot × movement :=
  if ap.Stuck then
    let left : Bool := m.Direction = 0
    let right : Bool := !(m.Direction = 0 : Bool)
    let ap1 :=
      if !onLevel then
        let ap2 := { ap with KeepWalkingForAwhile := ap.KeepWalkingForAwhile - 1 }
        if ap2.KeepWalkingForAwhile ≤ 0 then { ap2 with Stuck := false } else ap2
      else ap
    (ap1, { left := left, right := right, thrust := false })
  else
    let ap1 := if currentX = targetX then { ap with WaitToLoad := ap.WaitToLoad - 1 } else ap
    let ap2 := if ap1.WaitToLoad ≤ 0 then { ap1 with NowLoadScreen := true } else ap1
    let right : Bool := currentX < targetX
    let left : Bool := currentX > targetX
    let thrust : Bool := m.Position.Y > target.Y ∧ ap2.DontThrustForAwhile < 70
    (ap2, { left := left, right := right, thrust := thrust })

/-- Lines 317-328 of `autoPilotMovement`: the two free-running timers; `rnd`
is the value of `rand.Intn(100)`. -/
def timerStep (ap : AutoPilot) (rnd : Int) : AutoPilot :=
  let ap1 :=
    if ap.TimeSinceLastThrust > 0 then
      { ap with TimeSinceLastThrust := ap.TimeSinceLastThrust - 1 }
    else ap
  let ap2 :=
    if ap1.TimeSinceLastThrust ≤ 0 then { ap1 with TimeSinceLastThrust := rnd + 100 } else ap1
  let ap3 :=
    if ap2.DontThrustForAwhile > 0 then
      { ap2 with DontThrustForAwhile := ap2.DontThrustForAwhile - 1 }
    else ap2
  if ap3.DontThrustForAwhile ≤ 0 then { ap3 with DontThrustForAwhile := 100 } else ap3

/-- `Game.autoPilotMovement` of main.go; `rnd` is the value `rand.Intn(100)`
returns if the call draws one. -/
def autoPilotMovement (cuddlyMap : List (List Int)) (demoScreens : List DemoScreen) (g : Game)
    (rnd : Int) : Option (Game × movement) := do
  let target ← autoPilotTarget demoScreens g.autoPilot.NextScreen
  let currentX : Int := andNot (toInt g.model.Position.X) 0xf
  let targetX : Int := andNot (toInt target.X) 0xf
  let currentY : Int := toInt g.model.Position.Y
  let onLevel ← haveLanded cuddlyMap g.model
  let ap1 := stuckStep g.autoPilot onLevel currentY target
  let r := steerStep ap1 g.model onLevel target currentX targetX
  pure ({ g with autoPilot := timerStep r.1 rnd }, r.2)

/-! ## main.go: the loader and the update tick -/

/-- `Game.advanceAutoPilot` of main.go. -/
def Game.advanceAutoPilot (demoScreens : List DemoScreen) (g : Game) : Game :=
  let next : Int := g.autoPilot.NextScreen + 1
  let next1 : Int := if next ≥ (demoScreens.length : Int) - 1 then 0 else next
  { g with autoPilot := { g.autoPilot with NextScreen := next1 } }

/-- `Game.startLoading` of main.go (the audio player is not modelled). -/
def Game.startLoading (demoScreens : List DemoScreen) (g : Game) (name : String) : Game :=
  let g1 := { g with loading := { Active := true, ScreenName := name, Timer := 120 } }
  let g2 := { g1 with autoPilot := { g1.autoPilot with NowLoadScreen := false, WaitToLoad := 80 } }
  g2.advanceAutoPilot demoScreens

/-- `Game.handleLoad` of main.go: the first door of the table whose box holds
the character's tile starts the loading. -/
def Game.handleLoad (demoScreens : List DemoScreen) (g : Game) (load : Bool) : Game :=
  if !load ∨ g.loading.Active then g
  else
    let pX : Int := (toInt g.model.Position.X).tdiv tileSize
    let pY : Int := (toInt g.model.Position.Y).tdiv tileSize
    match demoScreens.find? (fun t => pX ≥ t.X ∧ pX ≤ t.X + 3 ∧ pY ≥ t.Y ∧ pY < t.Y + 3) with
    | some t => g.startLoading demoScreens t.Name
    | none => g

/-- `Game.updateLoading` of main.go (the audio player is not modelled). -/
def Game.updateLoading (g : Game) : Game :=
  let g1 := { g with loading := { g.loading with Timer := g.loading.Timer - 1 } }
  if g1.loading.Timer > 0 then g1
  else
    { g1 with loading := { g1.loading with Active := false }
              autoPilot := { g1.autoPilot with NowLoadScreen := false, WaitToLoad := 80 } }

/-- The signals of one update tick: the just-pressed state of the reset key,
the five values of `readInput`, and the value `rand.Intn(100)` would return. -/
structure RawInput where
  resetKey : Bool
  left : Bool
  right : Bool
  thrust : Bool
  load : Bool
  anyKey : Bool
  rnd : Int
deriving DecidableEq, Repr

/-- Lines 202-216 of `Game.Update`: the activation countdown and the choice
between the raw input and the autopilot's; the result is the game, the
movement `integrate` is called with, and the load signal `handleLoad` is
called with. -/
def Game.control (cuddlyMap : List (List Int)) (demoScreens : List DemoScreen) (g : Game)
    (inp : RawInput) : Option (Game × movement × Bool) :=
  let g1 : Game :=
    if inp.anyKey then
      { g with autoPilot := { g.autoPilot with ActivateIn := autoPilotActivateDuration } }
    else { g with autoPilot := { g.autoPilot with ActivateIn := g.autoPilot.ActivateIn - 1 } }
  if g1.autoPilot.ActivateIn ≤ 0 then do
    let r ← autoPilotMovement cuddlyMap demoScreens g1 inp.rnd
    pure (r.1, r.2, if r.1.autoPilot.NowLoadScreen then true else inp.load)
  else
    pure (g1, { left := inp.left, right := inp.right, thrust := inp.thrust }, inp.load)

/-- `Game.Update` of main.go (the CRT toggle is presentation state outside
the model). -/
def Game.Update (cuddlyMap : List (List Int)) (demoScreens : List DemoScreen) (g : Game)
    (inp : RawInput) : Option Game :=
  let g0 : Game := if inp.resetKey then g.Reset else g
  if g0.loading.Active then some g0.updateLoading
  else do
    let r ← g0.control cuddlyMap demoScreens inp
    let g3 ← integrate cuddlyMap r.1 r.2.1.left r.2.1.right r.2.1.thrust
    let g4 : Game :=
      { g3 with carebearTime := g3.carebearTime + 1 / 60, simTime := g3.simTime + 1 / 60 }
    pure (g4.handleLoad demoScreens r.2.2)

/-- Successive update ticks, one per input. -/
def updateAll (cuddlyMap : List (List Int)) (demoScreens : List DemoScreen) :
    List RawInput → Game → Option Game
  | [], g => some g
  | i :: rest, g => do
    let g1 ← g.Update cuddlyMap demoScreens i
    updateAll cuddlyMap demoScreens rest g1

/-! ## main.go: the position and frame queries of the render path -/

/-- Go `math.Round`: the nearest integer, halves away from zero. -/
def mathRound (q : ℚ) : ℚ :=
  if 0 ≤ q then ((⌊q + 1 / 2⌋ : Int) : ℚ) else -((⌊-q + 1 / 2⌋ : Int) : ℚ)

/-- `Game.calculateBounce` of main.go; `none` is an index-out-of-range
panic. -/
def Game.calculateBounce (g : Game) : Option ℚ :=
  if bouncingAnimation.length = 0 then some 0
  else
    let idx : Int := (bouncingAnimation.length : Int) - g.model.BounceDisplacement - 1
    if idx < 0 ∨ idx ≥ (bouncingAnimation.length : Int) then some 0
    else do
      let b ← goIndex bouncingAnimation idx
      let bounce : ℚ := (b : ℚ)
      let falling : ℚ := if g.model.FallingSpeed < 3 then 3 else g.model.FallingSpeed
      pure (bounce * ((falling / (bounceSpeed : ℚ)) * (9 / 10)))

/-- The camera of `Game.calculatePositions` on one axis (lines 526-537 for X,
539-550 for Y): the screen position of the character and the map offset, from
the rounded position `dudePos`, the map size `mapSize` and the view size
`gameSize`. -/
def cameraAxis (dudePos mapSize gameSize : Int) : Int × Int :=
  if dudePos ≤ gameSize.tdiv 2 - dudeSize.tdiv 2 then (dudePos, 0)
  else if dudePos > mapSize - gameSize.tdiv 2 - dudeSize.tdiv 2 then
    (gameSize - (mapSize - dudePos), mapSize - gameSize)
  else (gameSize.tdiv 2 - dudeSize.tdiv 2, dudePos - (gameSize.tdiv 2 - dudeSize.tdiv 2))

/-- `Game.calculatePositions` of main.go: `(mapX, mapY, dudeScreenX,
dudeScreenY, bounce)`.  The function works on a copy `m := g.model`. -/
def Game.calculatePositions (g : Game) : Option (Int × Int × ℚ × ℚ × ℚ) :=
  let m : Model := g.model
  let dudePosX : Int := toInt (mathRound m.Position.X)
  let dudePosY : Int := toInt (mathRound m.Position.Y)
  let mapWidth : Int := g.mapLevel.WidthPx
  let mapHeight : Int := g.mapLevel.HeightPx - (tileSize - 4)
  let ax : Int × Int := cameraAxis dudePosX mapWidth gameWidth
  let ay : Int × Int := cameraAxis dudePosY mapHeight gameHeight
  do
    let bounce ← g.calculateBounce
    pure (ax.2, ay.2, ((ax.1 : Int) : ℚ), ((ay.1 : Int) : ℚ), bounce)

/-- `Game.calculateFrame` of main.go: the state it leaves and the frame it
returns; `none` is an index-out-of-range panic of `Animation.Current`. -/
def Game.calculateFrame (g : Game) : Option (Game × Int) :=
  let frame : Int := g.model.CurrentFrame
  if g.model.Thrusting then do
    let frame1 ←
      if g.model.Direction < 1 then g.animations.ThrustLeft.Current g.simTime
      else g.animations.ThrustRight.Current g.simTime
    pure (g, frame1)
  else if g.model.Moving then do
    let frame1 ←
      if g.model.Direction < 1 then g.animations.MoveLeft.Current g.simTime
      else g.animations.MoveRight.Current g.simTime
    pure ({ g with model := { g.model with CurrentFrame := frame1 } }, frame1)
  else
    let idle : Int := frame.tmod 10
    if g.model.Direction < 1 then some (g, idle + 10) else some (g, idle)

/-- The level part of `Game.drawScene` (lines 502-504): the blits of the level
map, drawn at the camera offset of `calculatePositions`. -/
def Game.drawLevel (g : Game) : Option (List Blit) := do
  let p ← g.calculatePositions
  g.mapLevel.Draw p.1 p.2.1 0 0 gameWidth gameHeight

/-! ## main.go: the scroller row -/

/-- The run `BuildScrollMap` appends for one glyph (lines 680-682): the tile
indices `p*3 + j` for `j` from 0 below `blocks`. -/
def scrollRun (p blocks : Int) : List Int :=
  (List.range blocks.toNat).map fun (j : Nat) => p * 3 + (j : Int)

/-- `BuildScrollMap` of main.go on the runes of the text, with the table
`scrollerCharWidth` as a parameter; `none` is an index-out-of-range panic. -/
def BuildScrollMap (scrollerCharWidth : List Int) (text : List Char) : Option (List Int) :=
  let clean : List Char := text.filter fun r => !(r.toNat = 10 ∨ r.toNat = 13)
  let rec loop : List Char → List Int → Option (List Int)
    | [], result => some result
    | r :: rest, result =>
      let p0 : Int := (r.toNat : Int) - 32
      let p : Int := if p0 < 0 ∨ p0 ≥ (scrollerCharWidth.length : Int) then 0 else p0
      match goIndex scrollerCharWidth p with
      | none => none
      | some blocks => loop rest (result ++ scrollRun p blocks)
  loop clean []

/-! ## sine.go: the choreography index -/

def animationCount : Int := 7
def animationDuration : ℚ := 8
def scrollDuration : ℚ := 1

/-- The value of `animation` in `SineSprites.Draw` (lines 26-43) at the
elapsed time `t`. -/
def SineSprites.animation (t : ℚ) : Int :=
  let cycle : ℚ := animationDuration + scrollDuration * 2
  let maxTime : ℚ := (animationCount : ℚ) * cycle
  let t1 : ℚ := if t ≥ maxTime then mathMod t maxTime else t
  let t2 : ℚ := t1 + scrollDuration
  (toInt (mathFloor ((t2 - scrollDuration) / cycle))).tmod animationCount

/-- The `switch` of `sineSpritePoint`: the number `k` of the function
`sineFunc k` it calls for the index `animation`. -/
def sineSpritePoint (animation : Int) : Nat :=
  if animation = 0 then 0
  else if animation = 1 then 1
  else if animation = 2 then 2
  else if animation = 3 then 3
  else if animation = 4 then 4
  else if animation = 5 then 5
  else 6

/-! ## Specification-side definitions -/

/-- The landing condition on the truncated pixel coordinates `xi`, `yi`, as
`haveLanded` tests it on a rectangular map. -/
def LandCond (cuddlyMap : List (List Int)) (xi yi : ℤ) : Prop :=
  0 ≤ yi.tdiv tileSize ∧ 0 ≤ xi.tdiv tileSize ∧
  xi.tdiv tileSize + 1 < ((cuddlyMap.headD []).length : ℤ) ∧ yi.tmod tileSize = 0 ∧
  ∃ row, cuddlyMap[(yi.tdiv tileSize + 2).toNat]? = some row ∧
    (row[(xi.tdiv tileSize).toNat]? = some floorTile ∨
     row[(xi.tdiv tileSize + 1).toNat]? = some floorTile ∨
     row[(xi.tdiv tileSize + 2).toNat]? = some floorTile)

/-- The landing condition in the words of the specification, at the pixel
position `(X, Y)` with tile column `x = X / 32` and tile row `y = Y / 32`:
`Y` is a multiple of the tile size and row `y + 2` exists and holds the floor
tile at column `x`, or at column `x + 1`, or at column `x + 2` when that
column exists. -/
def LandingSpec (cuddlyMap : List (List Int)) (X Y : ℕ) : Prop :=
  Y % 32 = 0 ∧
  ∃ row, cuddlyMap[Y / 32 + 2]? = some row ∧
    (row[X / 32]? = some floorTile ∨ row[X / 32 + 1]? = some floorTile ∨
     row[X / 32 + 2]? = some floorTile)

/-- The thrust speed after the thrust step in the words of the
specification: `3` from a speed that is zero or negative, otherwise one more,
capped at `8`. -/
def thrustSpeedSpec (prev : ℚ) : ℚ := if prev ≤ 0 then 3 else min (prev + 1) 8

/-- The model `m` moved to the position `(X, Y)`. -/
def Model.at (m : Model) (X Y : ℚ) : Model := { m with Position := { X := X, Y := Y } }

/-- The model after the landing branch of the loop body (lines 381-383). -/
def Model.land (m : Model) : Model :=
  { m with JustLanded := 1, BounceDisplacement := (bouncingAnimation.length : Int)
           ThrustSpeed := 0 }

/-- The model after `k` passes through the falling branch of the loop body
(lines 378-379), for `k > 0`. -/
def Model.fall (m : Model) (k : ℕ) : Model :=
  { m with Position := { X := m.Position.X, Y := m.Position.Y + (k : ℚ) }, JustLanded := 0 }

/-- A multiple of one half. -/
def HalfInt (q : ℚ) : Prop := ∃ k : ℤ, q = (k : ℚ) / 2

/-- The speed invariant of the integrator, with `ub` the bound on the thrust
speed (`8` between calls, `8.5` inside a call after the thrust step): both
speeds are multiples of one half, `0 ≤ ThrustSpeed ≤ ub`,
`0 ≤ FallingSpeed ≤ bounceSpeed`, and a positive thrust speed goes with a
zero falling speed. -/
def SpeedInv (ub : ℚ) (m : Model) : Prop :=
  HalfInt m.ThrustSpeed ∧ HalfInt m.FallingSpeed ∧
  0 ≤ m.ThrustSpeed ∧ m.ThrustSpeed ≤ ub ∧
  0 ≤ m.FallingSpeed ∧ m.FallingSpeed ≤ (bounceSpeed : ℚ) ∧
  (0 < m.ThrustSpeed → m.FallingSpeed = 0)

/-- The floor bound of the clamp block, `mapHeight - dudeSize` with
`mapHeight = HeightPx - (tileSize - 4)`. -/
def floorBound (g : Game) : ℚ := ((g.mapLevel.HeightPx - (tileSize - 4) - dudeSize : ℤ) : ℚ)

/-- A state with no thrust left, outside the ceiling cooldown, inside the
horizontal band `[9 * tileSize, 455 * tileSize]` and not above the top. -/
def AtRest (g : Game) : Prop :=
  g.model.ThrustSpeed = 0 ∧ g.thrustOff = 0 ∧
  (288 : ℚ) ≤ g.model.Position.X ∧ g.model.Position.X ≤ 14560 ∧ 0 ≤ g.model.Position.Y

/-- The landing schedule of a run of ticks without input from `g`: after each
of the first `T - 1` ticks (and at the start) `JustLanded` is 0, and `j` ticks
after tick `T` `JustLanded` is 1 and `BounceDisplacement` is
`len(bouncingAnimation) - j`, or 0 once that is negative. -/
def LandsAfter (cuddlyMap : List (List Int)) (g : Game) (T : ℕ) : Prop :=
  (∀ n, n < T → ∃ a, idleTicks cuddlyMap n g = some a ∧ a.model.JustLanded = 0) ∧
  (∀ j : ℕ, ∃ a, idleTicks cuddlyMap (T + j) g = some a ∧ a.model.JustLanded = 1 ∧
    a.model.BounceDisplacement = max ((bouncingAnimation.length : ℤ) - (j : ℤ)) 0)

/-- A character in free fall without thrust at the integer position `(X, Y)`,
at or above the landing position `(X, YL)`, in the game built on the map
table. -/
def Falling (cuddlyMap : List (List Int)) (g : Game) (X Y YL : ℤ) : Prop :=
  AtRest g ∧ g.mapLevel = NewTileMap cuddlyMap mapTiles ∧
  g.model.JustLanded = 0 ∧ g.model.BounceDisplacement = 0 ∧
  g.model.Position = { X := (X : ℚ), Y := (Y : ℚ) } ∧ Y ≤ YL ∧
  haveLanded cuddlyMap (g.model.at (X : ℚ) (YL : ℚ)) = some true

/-- A character standing on a landing position with the landing recorded. -/
def Standing (cuddlyMap : List (List Int)) (g : Game) : Prop :=
  AtRest g ∧ g.model.JustLanded = 1 ∧ haveLanded cuddlyMap g.model = some true ∧
  g.model.Position.Y ≤ floorBound g

/-- The value `x` clamped into `[lo, hi]`. -/
def clampInt (x lo hi : Int) : Int := max lo (min x hi)

/-- The tile `TileSet.Tile` selects in the words of the specification: the
one at position `index mod n` of a table of length `n`. -/
def tileSpec (t : TileSet) (index : Int) : Option ImageRef :=
  (t.Tiles[(index % (t.Tiles.length : Int)).toNat]?).map ImageRef.tile

/-- The remainder `t mod d` of exact arithmetic, in `[0, d)` for `d > 0`. -/
def fmod (t d : ℚ) : ℚ := t - d * ((⌊t / d⌋ : Int) : ℚ)

/-- An update tick on which no key is down: `readInput` reports `anyKey` false,
so neither the load key nor the reset key is pressed. -/
def Quiet (inp : RawInput) : Prop :=
  inp.anyKey = false ∧ inp.resetKey = false ∧ inp.load = false

/-- The pixel centre of the box of 4 by 3 tiles anchored at the door `d`. -/
def doorCentre (d : DemoScreen) : Vec2 :=
  { X := ((32 * d.X + 64 : Int) : ℚ), Y := ((32 * d.Y + 48 : Int) : ℚ) }

/-- The bounds of the autopilot's screen index: from the first table entry to
the one before the last. -/
def NextScreenInv (demoScreens : List DemoScreen) (g : Game) : Prop :=
  0 ≤ g.autoPilot.NextScreen ∧ g.autoPilot.NextScreen ≤ (demoScreens.length : Int) - 2

/-- The tile `(pX, pY)` lies inside the box of 4 columns by 3 rows anchored at
the door `d`. -/
def InDoorBox (d : DemoScreen) (pX pY : Int) : Prop :=
  d.X ≤ pX ∧ pX < d.X + 4 ∧ d.Y ≤ pY ∧ pY < d.Y + 3

instance (d : DemoScreen) (pX pY : Int) : Decidable (InDoorBox d pX pY) := by
  unfold InDoorBox; infer_instance

/-- The door `d` is the first one of the table, in table order, whose box
holds the tile `(pX, pY)`. -/
def FirstDoor (demoScreens : List DemoScreen) (pX pY : Int) (d : DemoScreen) : Prop :=
  InDoorBox d pX pY ∧
    ∃ before after, demoScreens = before ++ d :: after ∧ ∀ e ∈ before, ¬InDoorBox e pX pY

/-- The characters `BuildScrollMap` strips: line feed (code 10) and carriage
return (code 13). -/
def IsNewline (c : Char) : Prop := c.toNat = 10 ∨ c.toNat = 13

instance (c : Char) : Decidable (IsNewline c) := by
  unfold IsNewline; infer_instance

/-- The glyph `p = code(c) - 32` of a character, 0 when that is outside the
width table `w`. -/
def glyphIndex (w : List Int) (c : Char) : Int :=
  if (c.toNat : Int) - 32 < 0 ∨ (c.toNat : Int) - 32 ≥ (w.length : Int) then 0
  else (c.toNat : Int) - 32

/-- The width `w[p]` of the glyph of a character. -/
def glyphWidth (w : List Int) (c : Char) : Int := w.getD (glyphIndex w c).toNat 0

/-- The run of a character in the words of the specification: nothing for a
newline, otherwise `[3p, 3p + 1, ..., 3p + w[p] - 1]`. -/
def glyphRun (w : List Int) (c : Char) : List Int :=
  if IsNewline c then []
  else (List.range (glyphWidth w c).toNat).map fun (j : Nat) => 3 * glyphIndex w c + (j : Int)

/-! ## Test data -/

/-- A rectangular test map of 20 rows and 16 columns: all cells empty except
row 18, a full row of floor tiles. -/
def demoMap : List (List Int) :=
  List.replicate 18 (List.replicate 16 0) ++ [List.replicate 16 floorTile, List.replicate 16 0]

/-- The game `NewGame` builds around the test map. -/
def demoGame : Game := NewGame demoMap []

/-- A three-row, one-column map whose only cell of row 2 is a floor tile. -/
def narrowMap : List (List Int) := [[0], [0], [floorTile]]

/-- A map whose last row is shorter than the first one. -/
def raggedMap : List (List Int) := [[0, 0], [0, 0], []]

/-- The test game with the `Moving` flag set, as a tick with one direction
pressed leaves it. -/
def movingGame : Game := { demoGame with model := { demoGame.model with Moving := true } }

/-- Three ticks of input: thrust, then left with thrust, then nothing. -/
def demoInputs : List Input :=
  [{ left := false, right := false, thrust := true },
   { left := true, right := false, thrust := true },
   { left := false, right := false, thrust := false }]

/-- A rectangular map of 6 rows and 12 columns whose rows 2 and 3 hold floor
tiles in columns 0 to 2 only: a ledge left of the playable band. -/
def ledgeMap : List (List Int) :=
  [List.replicate 12 0, List.replicate 12 0,
   [floorTile, floorTile, floorTile, 0, 0, 0, 0, 0, 0, 0, 0, 0],
   [floorTile, floorTile, floorTile, 0, 0, 0, 0, 0, 0, 0, 0, 0],
   List.replicate 12 0, List.replicate 12 0]

/-- The game on `ledgeMap` with the character at rest at the pixel position
`(0, 0)`, left of the playable band. -/
def ledgeGame : Game :=
  { NewGame ledgeMap [] with model := (NewGame ledgeMap []).model.at 0 0 }

/-- A tile set with a table of three tiles. -/
def threeTiles : TileSet := { Tiles := [10, 11, 12], TileW := 32, TileH := 32, Columns := 3 }

/-- A tile map of 1024 by 640 pixels (its data are not read by `clip`). -/
def wideMap : TileMap :=
  { Data := [], Tiles := threeTiles, WidthPx := 1024, HeightPx := 640 }

/-- The looping clock of the specification's example: duration 1, indices
`[0, 1, 2, 3]`. -/
def loopClock : Animation := { Duration := 1, Indices := [0, 1, 2, 3], Loop := true }

/-- The clamping clock of the specification's example: duration 1, indices
`[0, 1]`, no loop. -/
def onceClock : Animation := { Duration := 1, Indices := [0, 1], Loop := false }

/-- A scroller row of 32 tiles, 1024 pixels long. -/
def demoScrollMap : List Int := List.replicate 32 0

/-- The test game with the scroller row `demoScrollMap`, 125 ticks after
Reset: the scroller accumulator stands at `125 * 8 = 1000`. -/
def scrollGame : Game :=
  { NewGame demoMap demoScrollMap with
    model := { (NewGame demoMap demoScrollMap).model with ScrollerPosition := 1000 } }

/-- A tile map of 3 rows and 4 columns with tiles of 32 by 32 pixels. -/
def smallMap : TileMap := NewTileMap [[1, 2, 3, 4], [5, 6, 7, 8], [9, 10, 11, 12]] threeTiles

/-- A screen table of two doors and the closing entry. -/
def apScreens : List DemoScreen :=
  [{ X := 10, Y := 5, Name := "A" }, { X := 20, Y := 5, Name := "B" },
   { X := 0, Y := 0, Name := "end" }]

/-- The test game as its first autopilot call leaves it: the timer
`DontThrustForAwhile` restarted at 100, `TimeSinceLastThrust` at 199. -/
def apGame : Game :=
  { demoGame with
    autoPilot :=
      { demoGame.autoPilot with DontThrustForAwhile := 100, TimeSinceLastThrust := 199 } }

/-- An input with no key down. -/
def quietInput : RawInput :=
  { resetKey := false, left := false, right := false, thrust := false, load := false
    anyKey := false, rnd := 0 }

/-- A rectangular level of 20 rows and 32 columns, 1024 by 640 pixels. -/
def wideLevel : List (List Int) := List.replicate 20 (List.replicate 32 0)

/-- The game `NewGame` builds around `wideLevel`. -/
def wideGame : Game := NewGame wideLevel []

/-- A width table of three glyphs, of widths 1, 2 and 3. -/
def demoWidths : List Int := [1, 2, 3]

/-! ## Go primitives: facts -/

theorem toInt_natCast (n : ℕ) : toInt (n : ℚ) = (n : ℤ) := by
  simp [toInt]

theorem toInt_intCast (n : ℤ) : toInt (n : ℚ) = n := by
  unfold toInt
  split <;> simp

theorem goIndex_of_lt {α : Type} (s : List α) (i : ℤ) (h0 : 0 ≤ i) (h1 : i < s.length) :
    ∃ a, goIndex s i = some a ∧ a ∈ s ∧ s[i.toNat]? = some a := by
  have hlt : i.toNat < s.length := by omega
  refine ⟨s[i.toNat], ?_, List.getElem_mem _, ?_⟩
  · simp [goIndex, not_lt.mpr h0, List.getElem?_eq_getElem hlt]
  · exact List.getElem?_eq_getElem hlt

/-! ## The landing query on a rectangular map -/

theorem haveLanded_rect (cuddlyMap : List (List Int)) (hrect : Rectangular cuddlyMap)
    (m : Model) :
    ∃ b, haveLanded cuddlyMap m = some b ∧
      (b = true ↔ LandCond cuddlyMap (toInt m.Position.X) (toInt m.Position.Y)) := by
  unfold haveLanded LandCond
  generalize toInt m.Position.X = xi
  generalize toInt m.Position.Y = yi
  generalize xi.tdiv tileSize = x
  generalize yi.tdiv tileSize = y
  by_cases hlen : cuddlyMap.length = 0
  · refine ⟨false, by simp [hlen], ?_⟩
    have : cuddlyMap = [] := List.length_eq_zero.mp hlen
    subst this
    simp
  · simp only [hlen, if_false]
    by_cases hy : y + 2 ≥ (cuddlyMap.length : ℤ) ∨ y < 0
    · refine ⟨false, by simp [hy], ?_⟩
      simp only [Bool.false_eq_true, false_iff]
      rintro ⟨h0, -, -, -, row, hrow, -⟩
      have := List.getElem?_eq_some_iff.mp hrow
      obtain ⟨hlt, -⟩ := this
      omega
    · simp only [hy, if_false]
      push_neg at hy
      obtain ⟨hy2, hy0⟩ := hy
      obtain ⟨row0, hrow0, hmem0, hget0⟩ := goIndex_of_lt cuddlyMap 0 le_rfl (by omega)
      have hhead : cuddlyMap.headD [] = row0 := by
        cases cuddlyMap with
        | nil => simp at hlen
        | cons a t => simpa using hget0
      rw [hhead]
      simp only [hrow0, Option.bind_eq_bind, Option.some_bind]
      by_cases hx : x < 0 ∨ x + 1 ≥ (row0.length : ℤ)
      · refine ⟨false, by simp [hx], ?_⟩
        simp only [Bool.false_eq_true, false_iff]
        rintro ⟨-, h1, h2, -⟩
        omega
      · simp only [hx, if_false]
        push_neg at hx
        obtain ⟨hx0, hx1⟩ := hx
        by_cases hmod : yi.tmod tileSize ≠ 0
        · refine ⟨false, by simp [hmod], ?_⟩
          simp only [Bool.false_eq_true, false_iff]
          rintro ⟨-, -, -, h, -⟩
          exact hmod h
        · simp only [hmod, if_false]
          push_neg at hmod
          obtain ⟨row, hrow, hmem, hget⟩ := goIndex_of_lt cuddlyMap (y + 2) (by omega) hy2
          have hrl : row.length = row0.length := by
            have := hrect row hmem
            rw [hhead] at this
            exact this
          obtain ⟨a, ha, -, hga⟩ := goIndex_of_lt row x hx0 (by omega)
          obtain ⟨b, hb, -, hgb⟩ := goIndex_of_lt row (x + 1) (by omega) (by omega)
          simp only [hrow, ha, hb, Option.some_bind, hget, Option.some.injEq, exists_eq_left',
            hga, hgb]
          by_cases h1 : a = floorTile
          · exact ⟨true, by simp [h1], by simp [h1, hy0, hx0, hx1, hmod]⟩
          · by_cases h2 : b = floorTile
            · exact ⟨true, by simp [h1, h2], by simp [h2, hy0, hx0, hx1, hmod]⟩
            · by_cases h3 : x < (row.length : ℤ) - 2
              · obtain ⟨c, hc, -, hgc⟩ := goIndex_of_lt row (x + 2) (by omega) (by omega)
                by_cases h4 : c = floorTile
                · exact ⟨true, by simp [h1, h2, h3, hc, h4], by simp [hgc, h4, hy0, hx0, hx1, hmod]⟩
                · exact ⟨false, by simp [h1, h2, h3, hc, h4],
                    by simp [hgc, h1, h2, h4, hy0, hx0, hx1, hmod]⟩
              · have hnone : row[(x + 2).toNat]? = none := by
                  apply List.getElem?_eq_none
                  omega
                exact ⟨false, by simp [h1, h2, h3], by simp [hnone, h1, h2, hy0, hx0, hx1, hmod]⟩


theorem haveLanded_congr (cuddlyMap : List (List Int)) (m m1 : Model)
    (h : m.Position = m1.Position) : haveLanded cuddlyMap m = haveLanded cuddlyMap m1 := by
  unfold haveLanded
  rw [h]

/-! ## The blocks of the integrator: facts -/

theorem clampStep_X (H t : ℤ) (m : Model) :
    (288 : ℚ) ≤ (clampStep H t m).1.Position.X ∧ (clampStep H t m).1.Position.X ≤ 14560 := by
  unfold clampStep
  simp only [tileSize, dudeSize]
  norm_num
  split_ifs <;> simp_all <;> linarith

theorem clampStep_Y (H t : ℤ) (m : Model) (hH : 92 ≤ H) :
    (0 : ℚ) ≤ (clampStep H t m).1.Position.Y ∧
      (clampStep H t m).1.Position.Y ≤ ((H - 28 - 64 : ℤ) : ℚ) := by
  have hq : (92 : ℚ) ≤ (H : ℚ) := by exact_mod_cast hH
  unfold clampStep
  simp only [tileSize, dudeSize]
  norm_num
  split_ifs <;> simp_all <;> first | linarith | (constructor <;> linarith)

theorem descentBody_cases (cuddlyMap : List (List Int)) (m m1 : Model)
    (h : descentBody cuddlyMap m = some m1) :
    (haveLanded cuddlyMap m = some false ∧
      m1 = { m with Position := { m.Position with Y := m.Position.Y + 1 }, JustLanded := 0 }) ∨
    (haveLanded cuddlyMap m = some true ∧ m.JustLanded < 1 ∧
      m1 = { m with JustLanded := 1, BounceDisplacement := (bouncingAnimation.length : Int)
                    ThrustSpeed := 0 }) ∨
    (haveLanded cuddlyMap m = some true ∧ ¬ m.JustLanded < 1 ∧ m1 = m) := by
  unfold descentBody at h
  cases hl : haveLanded cuddlyMap m with
  | none => simp [hl] at h
  | some b =>
    cases b with
    | false =>
      left
      simp [hl] at h
      exact ⟨rfl, h.symm⟩
    | true =>
      right
      by_cases hj : m.JustLanded < 1
      · left
        simp [hl, hj] at h
        exact ⟨rfl, hj, h.symm⟩
      · right
        simp [hl, hj] at h
        exact ⟨rfl, hj, h.symm⟩

theorem descentBody_isSome (cuddlyMap : List (List Int)) (hrect : Rectangular cuddlyMap)
    (m : Model) : ∃ m1, descentBody cuddlyMap m = some m1 := by
  obtain ⟨b, hb, -⟩ := haveLanded_rect cuddlyMap hrect m
  unfold descentBody
  rw [hb]
  cases b with
  | false => exact ⟨_, rfl⟩
  | true =>
    by_cases hj : m.JustLanded < 1
    · exact ⟨_, by simp [hj]; rfl⟩
    · exact ⟨_, by simp [hj]; rfl⟩

theorem descentIter_isSome (cuddlyMap : List (List Int)) (hrect : Rectangular cuddlyMap)
    (n : ℕ) (m : Model) : ∃ m1, descentIter cuddlyMap n m = some m1 := by
  induction n generalizing m with
  | zero => exact ⟨m, rfl⟩
  | succ n ih =>
    obtain ⟨m1, h1⟩ := descentBody_isSome cuddlyMap hrect m
    obtain ⟨m2, h2⟩ := ih m1
    exact ⟨m2, by simp [descentIter, h1, h2]⟩

theorem descentIter_succ (cuddlyMap : List (List Int)) (n : ℕ) (m m2 : Model)
    (h : descentIter cuddlyMap (n + 1) m = some m2) :
    ∃ m1, descentBody cuddlyMap m = some m1 ∧ descentIter cuddlyMap n m1 = some m2 := by
  simp only [descentIter] at h
  cases hb : descentBody cuddlyMap m with
  | none => simp [hb] at h
  | some m1 => exact ⟨m1, rfl, by simpa [hb] using h⟩

/-- What the descent loop never writes, and the direction of its effect on
the rest. -/
theorem descentIter_frame (cuddlyMap : List (List Int)) (n : ℕ) (m m2 : Model)
    (h : descentIter cuddlyMap n m = some m2) :
    m2.Position.X = m.Position.X ∧ m2.Moving = m.Moving ∧ m2.Thrusting = m.Thrusting ∧
    m2.Direction = m.Direction ∧ m2.FallingSpeed = m.FallingSpeed ∧
    m2.CurrentFrame = m.CurrentFrame ∧ m2.ScrollerPosition = m.ScrollerPosition ∧
    m.Position.Y ≤ m2.Position.Y ∧ (m2.ThrustSpeed = m.ThrustSpeed ∨ m2.ThrustSpeed = 0) := by
  induction n generalizing m with
  | zero =>
    simp only [descentIter, Option.some.injEq] at h
    subst h
    simp
  | succ n ih =>
    obtain ⟨m1, hb, hi⟩ := descentIter_succ cuddlyMap n m m2 h
    obtain ⟨e1, e2, e3, e4, e5, e6, e7, e8, e9⟩ := ih m1 hi
    rcases descentBody_cases cuddlyMap m m1 hb with ⟨-, rfl⟩ | ⟨-, -, rfl⟩ | ⟨-, -, rfl⟩
    · simp only at e1 e2 e3 e4 e5 e6 e7 e8 e9
      exact ⟨e1, e2, e3, e4, e5, e6, e7, by linarith, e9⟩
    · simp only at e1 e2 e3 e4 e5 e6 e7 e8 e9
      refine ⟨e1, e2, e3, e4, e5, e6, e7, e8, Or.inr ?_⟩
      rcases e9 with e | e <;> exact e
    · exact ⟨e1, e2, e3, e4, e5, e6, e7, e8, e9⟩

/-- On a landing position the loop leaves the position where it is. -/
theorem descentIter_landed (cuddlyMap : List (List Int)) (n : ℕ) (m m2 : Model)
    (hl : haveLanded cuddlyMap m = some true) (h : descentIter cuddlyMap n m = some m2) :
    m2.Position = m.Position ∧
      (m2 = m ∨ (m.JustLanded < 1 ∧
        m2 = { m with JustLanded := 1, BounceDisplacement := (bouncingAnimation.length : Int)
                      ThrustSpeed := 0 })) := by
  induction n generalizing m with
  | zero =>
    simp only [descentIter, Option.some.injEq] at h
    subst h
    simp
  | succ n ih =>
    obtain ⟨m1, hb, hi⟩ := descentIter_succ cuddlyMap n m m2 h
    rcases descentBody_cases cuddlyMap m m1 hb with ⟨hf, -⟩ | ⟨-, hj, rfl⟩ | ⟨-, -, he⟩
    · rw [hl] at hf
      simp at hf
    · have hl1 : haveLanded cuddlyMap
          { m with JustLanded := 1, BounceDisplacement := (bouncingAnimation.length : Int)
                   ThrustSpeed := 0 } = some true := by
        rw [← hl]
        exact haveLanded_congr _ _ _ rfl
      obtain ⟨hp, hm⟩ := ih _ hl1 hi
      refine ⟨hp, Or.inr ⟨hj, ?_⟩⟩
      rcases hm with hm | ⟨hlt, -⟩
      · exact hm
      · simp at hlt
    · rw [he] at hi
      exact ih m hl hi

theorem Model.at_self (m : Model) : m.at m.Position.X m.Position.Y = m := rfl

theorem descentIter_add (cuddlyMap : List (List Int)) (a b : ℕ) (m : Model) :
    descentIter cuddlyMap (a + b) m =
      (descentIter cuddlyMap a m).bind (descentIter cuddlyMap b) := by
  induction a generalizing m with
  | zero => simp [descentIter]
  | succ a ih =>
    rw [Nat.add_right_comm]
    simp only [descentIter]
    cases hb : descentBody cuddlyMap m with
    | none => simp
    | some m1 => simpa using ih m1

theorem descentBody_of_landed (cuddlyMap : List (List Int)) (m : Model)
    (hl : haveLanded cuddlyMap m = some true) :
    descentBody cuddlyMap m = some (if m.JustLanded < 1 then m.land else m) := by
  unfold descentBody
  rw [hl]
  by_cases hj : m.JustLanded < 1
  · simp [hj, Model.land]
  · simp [hj]

theorem descentBody_of_not_landed (cuddlyMap : List (List Int)) (m : Model)
    (hl : haveLanded cuddlyMap m = some false) :
    descentBody cuddlyMap m = some (m.fall 1) := by
  unfold descentBody
  rw [hl]
  simp [Model.fall]

/-- From a landing position, a loop of at least one pass ends in the landing
branch's model, or leaves the model alone when `JustLanded` is already set. -/
theorem descentIter_landed_eq (cuddlyMap : List (List Int)) (n : ℕ) (m : Model)
    (hl : haveLanded cuddlyMap m = some true) :
    descentIter cuddlyMap (n + 1) m = some (if m.JustLanded < 1 then m.land else m) := by
  induction n generalizing m with
  | zero =>
    simp only [descentIter, descentBody_of_landed cuddlyMap m hl]
    rfl
  | succ n ih =>
    have hstep : descentIter cuddlyMap (n + 1 + 1) m =
        (descentBody cuddlyMap m).bind (descentIter cuddlyMap (n + 1)) := rfl
    rw [hstep, descentBody_of_landed cuddlyMap m hl]
    by_cases hj : m.JustLanded < 1
    · have hl1 : haveLanded cuddlyMap m.land = some true := by
        rw [← hl]
        exact haveLanded_congr _ _ _ rfl
      simp only [hj, if_true, Option.some_bind]
      rw [ih m.land hl1]
      simp [Model.land]
    · simp only [hj, if_false, Option.some_bind]
      rw [ih m hl]
      simp [hj]

/-- A loop whose first `n` heights are all free falls `n` pixels. -/
theorem descentIter_fall (cuddlyMap : List (List Int)) (n : ℕ) (m : Model)
    (hf : ∀ j : ℕ, j < n + 1 →
      haveLanded cuddlyMap (m.at m.Position.X (m.Position.Y + (j : ℚ))) = some false) :
    descentIter cuddlyMap (n + 1) m = some (m.fall (n + 1)) := by
  induction n generalizing m with
  | zero =>
    have h0 := hf 0 (by omega)
    simp only [Nat.cast_zero, add_zero, Model.at_self] at h0
    simp only [descentIter, descentBody_of_not_landed cuddlyMap m h0]
    rfl
  | succ n ih =>
    have h0 := hf 0 (by omega)
    simp only [Nat.cast_zero, add_zero, Model.at_self] at h0
    have hstep : descentIter cuddlyMap (n + 1 + 1) m =
        (descentBody cuddlyMap m).bind (descentIter cuddlyMap (n + 1)) := rfl
    rw [hstep, descentBody_of_not_landed cuddlyMap m h0, Option.some_bind]
    have hf1 : ∀ j : ℕ, j < n + 1 →
        haveLanded cuddlyMap ((m.fall 1).at (m.fall 1).Position.X
          ((m.fall 1).Position.Y + (j : ℚ))) = some false := by
      intro j hj
      have := hf (j + 1) (by omega)
      rw [← this]
      apply haveLanded_congr
      simp only [Model.at, Model.fall, Vec2.mk.injEq, true_and]
      push_cast
      ring
    rw [ih (m.fall 1) hf1]
    simp only [Model.fall, Option.some.injEq, Model.mk.injEq, Vec2.mk.injEq, true_and, and_true]
    push_cast
    ring

/-- A loop that meets its first landing height after `k` free heights, with
a pass to spare, ends there in the landing branch's model. -/
theorem descentIter_land (cuddlyMap : List (List Int)) (n k : ℕ) (m : Model) (hk : k < n)
    (hf : ∀ j : ℕ, j < k →
      haveLanded cuddlyMap (m.at m.Position.X (m.Position.Y + (j : ℚ))) = some false)
    (hl : haveLanded cuddlyMap (m.at m.Position.X (m.Position.Y + (k : ℚ))) = some true)
    (hj : 0 < k ∨ m.JustLanded < 1) :
    descentIter cuddlyMap n m = some (m.at m.Position.X (m.Position.Y + (k : ℚ))).land := by
  obtain ⟨b, rfl⟩ : ∃ b, n = k + (b + 1) := ⟨n - k - 1, by omega⟩
  rw [descentIter_add]
  cases k with
  | zero =>
    simp only [Nat.cast_zero, add_zero, Model.at_self] at hl
    have hj1 : m.JustLanded < 1 := by
      rcases hj with h | h
      · omega
      · exact h
    have h0 : descentIter cuddlyMap 0 m = some m := rfl
    rw [Nat.cast_zero, add_zero, Model.at_self, h0, Option.some_bind,
      descentIter_landed_eq cuddlyMap b m hl]
    simp [hj1]
  | succ k =>
    rw [descentIter_fall cuddlyMap k m hf, Option.some_bind]
    have hl1 : haveLanded cuddlyMap (m.fall (k + 1)) = some true := by
      rw [← hl]
      exact haveLanded_congr _ _ _ rfl
    rw [descentIter_landed_eq cuddlyMap b _ hl1]
    simp [Model.fall, Model.land, Model.at]

/-- The path of the loop: it advances `k` pixels through free heights and,
when it stops short of its trip count, stands on a landing position. -/
theorem descentIter_path (cuddlyMap : List (List Int)) (n : ℕ) (m m2 : Model)
    (h : descentIter cuddlyMap n m = some m2) :
    ∃ k : ℕ, k ≤ n ∧ m2.Position.Y = m.Position.Y + (k : ℚ) ∧
      (∀ j : ℕ, j < k →
        haveLanded cuddlyMap (m.at m.Position.X (m.Position.Y + (j : ℚ))) = some false) ∧
      (k < n → haveLanded cuddlyMap m2 = some true) := by
  induction n generalizing m with
  | zero =>
    simp only [descentIter, Option.some.injEq] at h
    subst h
    exact ⟨0, le_rfl, by simp, by intro j hj; omega, by intro hlt; omega⟩
  | succ n ih =>
    obtain ⟨m1, hb, hi⟩ := descentIter_succ cuddlyMap n m m2 h
    rcases descentBody_cases cuddlyMap m m1 hb with ⟨hf, he⟩ | ⟨hl, -, he⟩ | ⟨hl, -, he⟩
    · obtain ⟨k, hk, hy, hfree, hland⟩ := ih m1 hi
      refine ⟨k + 1, by omega, ?_, ?_, ?_⟩
      · rw [hy, he]
        push_cast
        ring
      · intro j hj
        cases j with
        | zero => simpa [Model.at_self] using hf
        | succ j =>
          have := hfree j (by omega)
          rw [← this]
          apply haveLanded_congr
          rw [he]
          simp only [Model.at, Vec2.mk.injEq, true_and]
          push_cast
          ring
      · intro hlt
        exact hland (by omega)
    · have hl1 : haveLanded cuddlyMap m1 = some true := by
        rw [← hl, he]
        exact haveLanded_congr _ _ _ rfl
      obtain ⟨hp, -⟩ := descentIter_landed cuddlyMap n m1 m2 hl1 hi
      refine ⟨0, by omega, ?_, by intro j hj; omega, ?_⟩
      · rw [hp, he]
        simp
      · intro _
        rw [← hl1]
        exact haveLanded_congr _ _ _ hp
    · rw [he] at hi
      obtain ⟨hp, -⟩ := descentIter_landed cuddlyMap n m m2 hl hi
      refine ⟨0, by omega, ?_, by intro j hj; omega, ?_⟩
      · rw [hp]
        simp
      · intro _
        rw [← hl]
        exact haveLanded_congr _ _ _ hp

theorem descentCount_of_nonneg (m : Model) (h : 0 ≤ m.FallingSpeed) :
    descentCount m = ⌊m.FallingSpeed⌋ + 1 ∧ 0 ≤ ⌊m.FallingSpeed⌋ := by
  have hfl : 0 ≤ ⌊m.FallingSpeed⌋ := Int.floor_nonneg.mpr h
  refine ⟨?_, hfl⟩
  unfold descentCount mathFloor
  rw [toInt_intCast]

theorem bounceStep_frame (m : Model) :
    (bounceStep m).Position = m.Position ∧ (bounceStep m).ThrustSpeed = m.ThrustSpeed ∧
    (bounceStep m).FallingSpeed = m.FallingSpeed ∧ (bounceStep m).JustLanded = m.JustLanded ∧
    (bounceStep m).Moving = m.Moving := by
  unfold bounceStep
  split_ifs <;> simp

theorem horizontalStep_frame (left right : Bool) (m : Model) :
    (horizontalStep left right m).Position.Y = m.Position.Y ∧
    (horizontalStep left right m).ThrustSpeed = m.ThrustSpeed ∧
    (horizontalStep left right m).FallingSpeed = m.FallingSpeed ∧
    (horizontalStep left right m).JustLanded = m.JustLanded ∧
    (horizontalStep left right m).BounceDisplacement = m.BounceDisplacement := by
  cases left <;> cases right <;> simp [horizontalStep]

theorem thrustStep_frame (thrust : Bool) (m : Model) :
    (thrustStep thrust m).Position = m.Position ∧
    (thrustStep thrust m).JustLanded = m.JustLanded ∧
    (thrustStep thrust m).BounceDisplacement = m.BounceDisplacement ∧
    (thrustStep thrust m).Moving = m.Moving := by
  cases thrust
  · simp only [thrustStep]
    split_ifs <;> simp
  · simp only [thrustStep]
    split_ifs <;> simp

theorem gravityStep_frame (m : Model) :
    (gravityStep m).Position = m.Position ∧ (gravityStep m).ThrustSpeed = m.ThrustSpeed ∧
    (gravityStep m).JustLanded = m.JustLanded ∧
    (gravityStep m).BounceDisplacement = m.BounceDisplacement ∧
    (gravityStep m).Moving = m.Moving := by
  unfold gravityStep
  split_ifs <;> simp

theorem thrustStep_fallingSpeed (thrust : Bool) (m : Model) :
    (thrustStep thrust m).FallingSpeed = if thrust then 0 else m.FallingSpeed := by
  cases thrust
  · simp only [thrustStep]
    split_ifs <;> simp
  · simp only [thrustStep]
    split_ifs <;> simp

theorem gravityStep_fallingSpeed_nonneg (m : Model) (h : 0 ≤ m.FallingSpeed) :
    0 ≤ (gravityStep m).FallingSpeed := by
  unfold gravityStep
  split_ifs
  · show 0 ≤ m.FallingSpeed + 1 / 2
    linarith
  · exact h
  · exact h

theorem beforeDescent_fallingSpeed_nonneg (left right thrust : Bool) (m : Model)
    (h : 0 ≤ m.FallingSpeed) : 0 ≤ (beforeDescent left right thrust m).FallingSpeed := by
  unfold beforeDescent
  apply gravityStep_fallingSpeed_nonneg
  rw [thrustStep_fallingSpeed]
  split_ifs
  · exact le_rfl
  · rw [(horizontalStep_frame left right _).2.2.1, (bounceStep_frame m).2.2.1]
    exact h

theorem integrate_isSome (cuddlyMap : List (List Int)) (hrect : Rectangular cuddlyMap)
    (g : Game) (left right thrust : Bool) :
    ∃ g1, integrate cuddlyMap g left right thrust = some g1 := by
  obtain ⟨m, hm⟩ := descentIter_isSome cuddlyMap hrect
    (descentCount (beforeDescent left right thrust g.model)).toNat
    (beforeDescent left right thrust g.model)
  exact ⟨_, by simp [integrate, descentLoop, hm]; rfl⟩

/-- The shape of a completed `integrate` call. -/
theorem integrate_eq_some (cuddlyMap : List (List Int)) (g g1 : Game)
    (left right thrust : Bool) (h : integrate cuddlyMap g left right thrust = some g1) :
    ∃ m, descentLoop cuddlyMap (beforeDescent left right thrust g.model) = some m ∧
      g1 = { g with
        model := scrollStep (clampStep g.mapLevel.HeightPx g.thrustOff
          (ascentStep g.thrustOff m)).1
        thrustOff := (clampStep g.mapLevel.HeightPx g.thrustOff
          (ascentStep g.thrustOff m)).2 } := by
  unfold integrate at h
  cases hd : descentLoop cuddlyMap (beforeDescent left right thrust g.model) with
  | none => simp [hd] at h
  | some m =>
    refine ⟨m, rfl, ?_⟩
    simp [hd] at h
    exact h.symm

theorem horizontalStep_moving (left right : Bool) (m : Model) :
    (horizontalStep left right m).Moving = if left && right then m.Moving else xor left right := by
  cases left <;> cases right <;> simp [horizontalStep]

theorem ascentStep_frame (t : ℤ) (m : Model) :
    (ascentStep t m).Moving = m.Moving ∧ (ascentStep t m).Position.X = m.Position.X ∧
    (ascentStep t m).JustLanded = m.JustLanded ∧
    (ascentStep t m).BounceDisplacement = m.BounceDisplacement ∧
    (ascentStep t m).FallingSpeed = m.FallingSpeed := by
  unfold ascentStep
  by_cases h1 : m.ThrustSpeed > 0
  · simp only [h1, if_true]
    split_ifs <;> simp
  · simp only [h1, if_false, false_and]
    simp

theorem clampStep_frame (H t : ℤ) (m : Model) :
    (clampStep H t m).1.Moving = m.Moving ∧ (clampStep H t m).1.JustLanded = m.JustLanded ∧
    (clampStep H t m).1.BounceDisplacement = m.BounceDisplacement ∧
    (clampStep H t m).1.ThrustSpeed = m.ThrustSpeed ∧
    (clampStep H t m).1.FallingSpeed = m.FallingSpeed := by
  unfold clampStep
  simp only
  split_ifs <;> simp

/-! ## The speed invariant -/

theorem HalfInt.zero : HalfInt 0 := ⟨0, by simp⟩

theorem HalfInt.ofInt (n : ℤ) : HalfInt (n : ℚ) := ⟨2 * n, by push_cast; ring⟩

theorem HalfInt.add_half {q : ℚ} (h : HalfInt q) : HalfInt (q + 1 / 2) := by
  obtain ⟨k, rfl⟩ := h
  exact ⟨k + 1, by push_cast; ring⟩

theorem HalfInt.sub_half {q : ℚ} (h : HalfInt q) : HalfInt (q - 1 / 2) := by
  obtain ⟨k, rfl⟩ := h
  exact ⟨k - 1, by push_cast; ring⟩

theorem HalfInt.add_one {q : ℚ} (h : HalfInt q) : HalfInt (q + 1) := by
  obtain ⟨k, rfl⟩ := h
  exact ⟨k + 2, by push_cast; ring⟩

/-- Two multiples of one half in strict order are at least one half apart. -/
theorem HalfInt.add_half_le {q r : ℚ} (hq : HalfInt q) (hr : HalfInt r) (h : q < r) :
    q + 1 / 2 ≤ r := by
  obtain ⟨k, rfl⟩ := hq
  obtain ⟨l, rfl⟩ := hr
  have hkl : (k : ℚ) < (l : ℚ) := by linarith
  have hkl1 : k + 1 ≤ l := by exact_mod_cast hkl
  have hkl2 : ((k + 1 : ℤ) : ℚ) ≤ (l : ℚ) := by exact_mod_cast hkl1
  push_cast at hkl2
  linarith

theorem thrustStep_true_thrustSpeed (m : Model) :
    (thrustStep true m).ThrustSpeed =
      if m.ThrustSpeed ≤ 0 then 4
      else if m.ThrustSpeed < 8 then m.ThrustSpeed + 1 else m.ThrustSpeed := by
  simp only [thrustStep, if_true]
  by_cases h : m.ThrustSpeed ≤ 0
  · simp only [h, if_true]
    norm_num
  · simp only [h, if_false]
    split_ifs <;> rfl

theorem thrustStep_false_thrustSpeed (m : Model) :
    (thrustStep false m).ThrustSpeed =
      if m.Position.Y < (tileSize : ℚ) then 0 else m.ThrustSpeed := by
  simp only [thrustStep, Bool.false_eq_true, if_false]
  split_ifs <;> simp

theorem thrustStep_speedInv (thrust : Bool) (m : Model) (h : SpeedInv 8 m) :
    SpeedInv (17 / 2) (thrustStep thrust m) := by
  obtain ⟨h1, h2, h3, h4, h5, h6, h7⟩ := h
  have hb : (0 : ℚ) ≤ (bounceSpeed : ℚ) := by simp [bounceSpeed]
  unfold SpeedInv
  rw [thrustStep_fallingSpeed]
  cases thrust
  · rw [thrustStep_false_thrustSpeed]
    simp only [Bool.false_eq_true, if_false]
    split_ifs
    · exact ⟨HalfInt.zero, h2, le_rfl, by norm_num, h5, h6, fun h => absurd h (lt_irrefl _)⟩
    · exact ⟨h1, h2, h3, by linarith, h5, h6, h7⟩
  · rw [thrustStep_true_thrustSpeed]
    simp only [if_true]
    by_cases hz : m.ThrustSpeed ≤ 0
    · simp only [hz, if_true]
      exact ⟨HalfInt.ofInt 4, HalfInt.zero, by norm_num, by norm_num, le_rfl, hb, fun _ => by trivial⟩
    · simp only [hz, if_false]
      by_cases h8 : m.ThrustSpeed < 8
      · simp only [h8, if_true]
        have := HalfInt.add_half_le h1 (HalfInt.ofInt 8) (by exact_mod_cast h8)
        push_cast at this
        exact ⟨h1.add_one, HalfInt.zero, by linarith, by linarith, le_rfl, hb, fun _ => by trivial⟩
      · simp only [h8, if_false]
        exact ⟨h1, HalfInt.zero, h3, by linarith, le_rfl, hb, fun _ => by trivial⟩

theorem gravityStep_speedInv (ub : ℚ) (m : Model) (h : SpeedInv ub m) :
    SpeedInv ub (gravityStep m) := by
  obtain ⟨h1, h2, h3, h4, h5, h6, h7⟩ := h
  unfold gravityStep
  split_ifs with hc hlt
  · have := HalfInt.add_half_le h2 (HalfInt.ofInt bounceSpeed) hlt
    refine ⟨h1, h2.add_half, h3, h4, ?_, this, ?_⟩
    · show 0 ≤ m.FallingSpeed + 1 / 2
      linarith
    · intro hpos
      exact absurd hpos (not_lt.mpr hc.1)
  · exact ⟨h1, h2, h3, h4, h5, h6, h7⟩
  · exact ⟨h1, h2, h3, h4, h5, h6, h7⟩

theorem ascentStep_thrustSpeed (t : ℤ) (m : Model) :
    (ascentStep t m).ThrustSpeed =
      if m.ThrustSpeed > 0 then m.ThrustSpeed - 1 / 2 else m.ThrustSpeed := by
  unfold ascentStep
  by_cases h1 : m.ThrustSpeed > 0
  · simp only [h1, if_true]
    split_ifs <;> simp
  · simp only [h1, if_false, false_and]

theorem ascentStep_speedInv (t : ℤ) (m : Model) (h : SpeedInv (17 / 2) m) :
    SpeedInv 8 (ascentStep t m) := by
  obtain ⟨h1, h2, h3, h4, h5, h6, h7⟩ := h
  unfold SpeedInv
  rw [ascentStep_thrustSpeed, (ascentStep_frame t m).2.2.2.2]
  split_ifs with hpos
  · have := HalfInt.add_half_le HalfInt.zero h1 hpos
    exact ⟨h1.sub_half, h2, by linarith, by linarith, h5, h6, fun _ => h7 hpos⟩
  · have : m.ThrustSpeed = 0 := le_antisymm (not_lt.mp hpos) h3
    exact ⟨h1, h2, h3, by linarith, h5, h6, h7⟩

/-- One call of `integrate` keeps the speed invariant. -/
theorem integrate_speedInv (cuddlyMap : List (List Int)) (g g1 : Game)
    (left right thrust : Bool) (hinv : SpeedInv 8 g.model)
    (h : integrate cuddlyMap g left right thrust = some g1) : SpeedInv 8 g1.model := by
  obtain ⟨m, hm, rfl⟩ := integrate_eq_some cuddlyMap g g1 left right thrust h
  have h0 : SpeedInv 8 (horizontalStep left right (bounceStep g.model)) := by
    unfold SpeedInv
    rw [(horizontalStep_frame left right _).2.1, (horizontalStep_frame left right _).2.2.1,
      (bounceStep_frame _).2.1, (bounceStep_frame _).2.2.1]
    exact hinv
  have h1 : SpeedInv (17 / 2) (beforeDescent left right thrust g.model) :=
    gravityStep_speedInv _ _ (thrustStep_speedInv thrust _ h0)
  have hf := descentIter_frame cuddlyMap _ _ m hm
  have h2 : SpeedInv (17 / 2) m := by
    obtain ⟨a1, a2, a3, a4, a5, a6, a7⟩ := h1
    unfold SpeedInv
    rw [hf.2.2.2.2.1]
    rcases hf.2.2.2.2.2.2.2.2 with e | e
    · rw [e]
      exact ⟨a1, a2, a3, a4, a5, a6, a7⟩
    · rw [e]
      exact ⟨HalfInt.zero, a2, le_rfl, by norm_num, a5, a6, fun h => absurd h (lt_irrefl _)⟩
  have h3 := ascentStep_speedInv g.thrustOff m h2
  unfold SpeedInv at h3 ⊢
  show HalfInt (clampStep _ _ _).1.ThrustSpeed ∧ HalfInt (clampStep _ _ _).1.FallingSpeed ∧
    0 ≤ (clampStep _ _ _).1.ThrustSpeed ∧ (clampStep _ _ _).1.ThrustSpeed ≤ 8 ∧
    0 ≤ (clampStep _ _ _).1.FallingSpeed ∧ (clampStep _ _ _).1.FallingSpeed ≤ _ ∧
    (0 < (clampStep _ _ _).1.ThrustSpeed → (clampStep _ _ _).1.FallingSpeed = 0)
  rw [(clampStep_frame _ _ _).2.2.2.1, (clampStep_frame _ _ _).2.2.2.2]
  exact h3

theorem reset_speedInv (g : Game) : SpeedInv 8 g.Reset.model :=
  ⟨HalfInt.zero, HalfInt.zero, le_rfl, by simp [Game.Reset], le_rfl,
    by simp [Game.Reset, bounceSpeed], fun _ => rfl⟩

theorem integrateAll_speedInv (cuddlyMap : List (List Int)) (inputs : List Input)
    (g g1 : Game) (hinv : SpeedInv 8 g.model)
    (h : integrateAll cuddlyMap inputs g = some g1) : SpeedInv 8 g1.model := by
  induction inputs generalizing g with
  | nil =>
    simp only [integrateAll, Option.some.injEq] at h
    subst h
    exact hinv
  | cons i rest ih =>
    simp only [integrateAll] at h
    cases hs : integrate cuddlyMap g i.left i.right i.thrust with
    | none => simp [hs] at h
    | some g2 =>
      simp only [hs, Option.bind_eq_bind, Option.some_bind] at h
      exact ih g2 (integrate_speedInv cuddlyMap g g2 _ _ _ hinv hs) h

theorem integrateAll_isSome (cuddlyMap : List (List Int)) (hrect : Rectangular cuddlyMap)
    (inputs : List Input) (g : Game) : ∃ g1, integrateAll cuddlyMap inputs g = some g1 := by
  induction inputs generalizing g with
  | nil => exact ⟨g, rfl⟩
  | cons i rest ih =>
    obtain ⟨g2, h2⟩ := integrate_isSome cuddlyMap hrect g i.left i.right i.thrust
    obtain ⟨g3, h3⟩ := ih g2
    exact ⟨g3, by simp [integrateAll, h2, h3]⟩

/-- A loop that turns `JustLanded` into 1 went through the landing branch,
which zeroes the thrust speed. -/
theorem descentIter_justLanded (cuddlyMap : List (List Int)) (n : ℕ) (m m2 : Model)
    (h : descentIter cuddlyMap n m = some m2) (h0 : m.JustLanded ≠ 1)
    (h1 : m2.JustLanded = 1) : m2.ThrustSpeed = 0 := by
  induction n generalizing m with
  | zero =>
    simp only [descentIter, Option.some.injEq] at h
    subst h
    exact absurd h1 h0
  | succ n ih =>
    obtain ⟨m1, hb, hi⟩ := descentIter_succ cuddlyMap n m m2 h
    rcases descentBody_cases cuddlyMap m m1 hb with ⟨-, he⟩ | ⟨hl, -, he⟩ | ⟨-, -, he⟩
    · apply ih m1 hi
      rw [he]
      simp
    · have hl1 : haveLanded cuddlyMap m1 = some true := by
        rw [← hl, he]
        exact haveLanded_congr _ _ _ rfl
      rcases (descentIter_landed cuddlyMap n m1 m2 hl1 hi).2 with e | ⟨hlt, -⟩
      · rw [e, he]
      · rw [he] at hlt
        simp at hlt
    · rw [he] at hi
      exact ih m hi h0

/-! ## A tick without input, from rest -/

theorem beforeDescent_idle (m : Model) (hTS : m.ThrustSpeed = 0) :
    (beforeDescent false false false m).Position = m.Position ∧
    (beforeDescent false false false m).ThrustSpeed = 0 ∧
    (beforeDescent false false false m).JustLanded = m.JustLanded ∧
    (beforeDescent false false false m).BounceDisplacement =
      (if m.BounceDisplacement > 0 then m.BounceDisplacement - 1 else m.BounceDisplacement) ∧
    (beforeDescent false false false m).FallingSpeed =
      (if m.JustLanded ≠ 1 ∧ m.FallingSpeed < (bounceSpeed : ℚ) then m.FallingSpeed + 1 / 2
       else m.FallingSpeed) := by
  have hb : bounceStep m =
      { m with BounceDisplacement :=
        if m.BounceDisplacement > 0 then m.BounceDisplacement - 1
        else m.BounceDisplacement } := by
    unfold bounceStep
    split_ifs <;> rfl
  have ht : (thrustStep false (horizontalStep false false (bounceStep m))) =
      { bounceStep m with Moving := false, Thrusting := false } := by
    simp only [thrustStep, horizontalStep, Bool.false_eq_true, if_false, Bool.not_false,
      Bool.and_self, Bool.and_true, if_true, Bool.and_false]
    have : (bounceStep m).ThrustSpeed = 0 := by rw [(bounceStep_frame m).2.1, hTS]
    split_ifs
    · simp [this]
    · rfl
  unfold beforeDescent
  rw [ht, hb]
  unfold gravityStep
  simp only [hTS, le_refl, true_and]
  split_ifs <;> simp_all

/-- The end of a tick whose loop left no thrust, outside the ceiling
cooldown and inside the band: only the floor clamp can act. -/
theorem afterDescent_rest (H : ℤ) (m : Model) (hTS : m.ThrustSpeed = 0)
    (hX : (288 : ℚ) ≤ m.Position.X ∧ m.Position.X ≤ 14560) (hY : 0 ≤ m.Position.Y) :
    (clampStep H 0 (ascentStep 0 m)).2 = 0 ∧
    (clampStep H 0 (ascentStep 0 m)).1 =
      { m with Position :=
        { X := m.Position.X
          Y := if m.Position.Y ≥ ((H - (tileSize - 4) - dudeSize : ℤ) : ℚ) then
                 ((H - (tileSize - 4) - dudeSize : ℤ) : ℚ)
               else m.Position.Y } } := by
  have ha : ascentStep 0 m = m := by
    unfold ascentStep
    simp [hTS]
  rw [ha]
  unfold clampStep
  have h1 : ¬ m.Position.X < ((9 * tileSize : ℤ) : ℚ) := by
    simp only [tileSize]
    norm_num
    exact hX.1
  have h2 : ¬ m.Position.Y < 0 := not_lt.mpr hY
  simp only [h1, h2, if_false, gt_iff_lt, lt_self_iff_false]
  by_cases h3 : m.Position.X ≥ ((455 * tileSize : ℤ) : ℚ)
  · have hx : m.Position.X = ((455 * tileSize : ℤ) : ℚ) := by
      apply le_antisymm _ h3
      simp only [tileSize]
      norm_num
      exact hX.2
    simp only [h3, if_true]
    refine ⟨trivial, ?_⟩
    split_ifs <;> simp [← hx]
  · simp only [h3, if_false]
    refine ⟨trivial, ?_⟩
    split_ifs <;> simp

/-- A tick without input from a state at rest, in terms of the model `m2`
its descent loop produces. -/
theorem idle_tick (cuddlyMap : List (List Int)) (g g1 : Game) (hrest : AtRest g)
    (h : integrate cuddlyMap g false false false = some g1) :
    ∃ m2, descentLoop cuddlyMap (beforeDescent false false false g.model) = some m2 ∧
      g1.mapLevel = g.mapLevel ∧ g1.thrustOff = 0 ∧ g1.model.ThrustSpeed = 0 ∧
      g1.model.Position.X = g.model.Position.X ∧
      g1.model.Position.Y =
        (if m2.Position.Y ≥ floorBound g then floorBound g else m2.Position.Y) ∧
      g1.model.JustLanded = m2.JustLanded ∧
      g1.model.BounceDisplacement = m2.BounceDisplacement ∧
      g1.model.FallingSpeed = m2.FallingSpeed ∧
      m2.Position.X = g.model.Position.X ∧ g.model.Position.Y ≤ m2.Position.Y := by
  obtain ⟨hTS, hoff, hX1, hX2, hY⟩ := hrest
  obtain ⟨m, hm, rfl⟩ := integrate_eq_some cuddlyMap g g1 _ _ _ h
  obtain ⟨b1, b2, -, -, -⟩ := beforeDescent_idle g.model hTS
  have hf := descentIter_frame cuddlyMap _ _ m hm
  have hmX : m.Position.X = g.model.Position.X := by rw [hf.1, b1]
  have hmY : g.model.Position.Y ≤ m.Position.Y := by
    have := hf.2.2.2.2.2.2.2.1
    rw [b1] at this
    exact this
  have hmTS : m.ThrustSpeed = 0 := by
    rcases hf.2.2.2.2.2.2.2.2 with e | e
    · rw [e, b2]
    · exact e
  obtain ⟨c1, c2⟩ := afterDescent_rest g.mapLevel.HeightPx m hmTS
    (by rw [hmX]; exact ⟨hX1, hX2⟩) (le_trans hY hmY)
  refine ⟨m, hm, rfl, ?_, ?_, ?_, ?_, ?_, ?_, ?_, hmX, hmY⟩
  · show (clampStep g.mapLevel.HeightPx g.thrustOff (ascentStep g.thrustOff m)).2 = 0
    rw [hoff, c1]
  · show (clampStep g.mapLevel.HeightPx g.thrustOff (ascentStep g.thrustOff m)).1.ThrustSpeed = 0
    rw [hoff, c2]
    exact hmTS
  · show (clampStep g.mapLevel.HeightPx g.thrustOff (ascentStep g.thrustOff m)).1.Position.X = _
    rw [hoff, c2]
    exact hmX
  · show (clampStep g.mapLevel.HeightPx g.thrustOff (ascentStep g.thrustOff m)).1.Position.Y = _
    rw [hoff, c2]
    rfl
  · show (clampStep g.mapLevel.HeightPx g.thrustOff (ascentStep g.thrustOff m)).1.JustLanded = _
    rw [hoff, c2]
  · show (clampStep g.mapLevel.HeightPx g.thrustOff
      (ascentStep g.thrustOff m)).1.BounceDisplacement = _
    rw [hoff, c2]
  · show (clampStep g.mapLevel.HeightPx g.thrustOff (ascentStep g.thrustOff m)).1.FallingSpeed = _
    rw [hoff, c2]

/-- A tick without input from rest moves the character down or not at all,
keeps the state at rest, and when the height does not change the character
stands on a landing position or on the floor bound. -/
theorem idle_tick_monotone (cuddlyMap : List (List Int)) (hrect : Rectangular cuddlyMap)
    (g g1 : Game) (hrest : AtRest g) (hB : g.model.Position.Y ≤ floorBound g)
    (hFS : 0 ≤ g.model.FallingSpeed)
    (h : integrate cuddlyMap g false false false = some g1) :
    AtRest g1 ∧ g1.model.Position.Y ≤ floorBound g1 ∧ 0 ≤ g1.model.FallingSpeed ∧
    g1.mapLevel = g.mapLevel ∧ g1.model.Position.X = g.model.Position.X ∧
    g.model.Position.Y ≤ g1.model.Position.Y ∧
    (g1.model.Position.Y = g.model.Position.Y →
      haveLanded cuddlyMap g.model = some true ∨ g.model.Position.Y = floorBound g) := by
  obtain ⟨m2, hm2, e1, e2, e3, e4, e5, e6, e7, e8, e9, e10⟩ := idle_tick cuddlyMap g g1 hrest h
  have hrest' := hrest
  obtain ⟨hTS, hoff, hX1, hX2, hY⟩ := hrest
  have hfb : floorBound g1 = floorBound g := by unfold floorBound; rw [e1]
  have hfs1 : 0 ≤ (beforeDescent false false false g.model).FallingSpeed :=
    beforeDescent_fallingSpeed_nonneg _ _ _ _ hFS
  have hf := descentIter_frame cuddlyMap _ _ m2 hm2
  have hY1 : g.model.Position.Y ≤ g1.model.Position.Y := by
    rw [e5]
    split_ifs
    · exact hB
    · exact e10
  refine ⟨⟨e3, e2, by rw [e4]; exact hX1, by rw [e4]; exact hX2, le_trans hY hY1⟩, ?_, ?_, e1,
    e4, hY1, ?_⟩
  · rw [hfb, e5]
    split_ifs with hc
    · exact le_rfl
    · exact le_of_lt (not_le.mp hc)
  · rw [e8, hf.2.2.2.2.1]
    exact hfs1
  · intro hsame
    obtain ⟨b, hb, -⟩ := haveLanded_rect cuddlyMap hrect g.model
    cases b with
    | true => exact Or.inl hb
    | false =>
      right
      obtain ⟨hcount, hfl⟩ := descentCount_of_nonneg _ hfs1
      unfold descentLoop at hm2
      obtain ⟨k, hk, hyk, -, hland⟩ := descentIter_path cuddlyMap _ _ m2 hm2
      have hpos := (beforeDescent_idle g.model hTS).1
      have hk1 : 1 ≤ k := by
        by_contra hk0
        have hk0 : k = 0 := by omega
        have hl2 := hland (by rw [hk0, hcount]; omega)
        have : m2.Position = g.model.Position := by
          have hx := hf.1
          rw [hk0] at hyk
          simp only [Nat.cast_zero, add_zero] at hyk
          rw [hpos] at hx hyk
          cases hp : m2.Position
          cases hq : g.model.Position
          rw [hp, hq] at hx hyk
          simp only at hx hyk
          rw [hx, hyk]
        rw [haveLanded_congr cuddlyMap m2 g.model this, hb] at hl2
        simp at hl2
      have hk1q : (1 : ℚ) ≤ (k : ℚ) := by exact_mod_cast hk1
      rw [hpos] at hyk
      rw [e5] at hsame
      split_ifs at hsame with hc
      · exact hsame.symm
      · rw [hyk] at hsame
        linarith

/-- On a landing position or on the floor bound a tick without input leaves
the position where it is. -/
theorem idle_tick_stable (cuddlyMap : List (List Int)) (g g1 : Game) (hrest : AtRest g)
    (hB : g.model.Position.Y ≤ floorBound g)
    (hst : haveLanded cuddlyMap g.model = some true ∨ g.model.Position.Y = floorBound g)
    (h : integrate cuddlyMap g false false false = some g1) :
    g1.model.Position = g.model.Position := by
  obtain ⟨m2, hm2, e1, e2, e3, e4, e5, e6, e7, e8, e9, e10⟩ := idle_tick cuddlyMap g g1 hrest h
  have hpos := (beforeDescent_idle g.model hrest.1).1
  have hy : g1.model.Position.Y = g.model.Position.Y := by
    rw [e5]
    rcases hst with hl | hfl
    · have hl1 : haveLanded cuddlyMap (beforeDescent false false false g.model) = some true := by
        rw [← hl]
        exact haveLanded_congr _ _ _ hpos
      have := (descentIter_landed cuddlyMap _ _ m2 hl1 hm2).1
      rw [this, hpos]
      split_ifs with hc
      · exact le_antisymm hc hB
      · rfl
    · have hc : m2.Position.Y ≥ floorBound g := by rw [← hfl]; exact e10
      rw [if_pos hc, hfl]
  cases hp : g1.model.Position
  cases hq : g.model.Position
  rw [hp] at e4 hy
  rw [hq] at e4 hy
  simp only at e4 hy
  rw [e4, hy]

theorem idleTicks_succ (cuddlyMap : List (List Int)) (n : ℕ) (g a : Game)
    (h : idleTicks cuddlyMap n g = some a) :
    idleTicks cuddlyMap (n + 1) g = integrate cuddlyMap a false false false := by
  simp only [idleTicks, h, Option.bind_eq_bind, Option.some_bind]

/-- Ticks without input keep a state at rest, inside the bounds, with a
non-negative falling speed and the same `X`. -/
theorem idleTicks_rest (cuddlyMap : List (List Int)) (hrect : Rectangular cuddlyMap)
    (g : Game) (hrest : AtRest g) (hB : g.model.Position.Y ≤ floorBound g)
    (hFS : 0 ≤ g.model.FallingSpeed) (n : ℕ) :
    ∃ a, idleTicks cuddlyMap n g = some a ∧ AtRest a ∧ a.model.Position.Y ≤ floorBound a ∧
      0 ≤ a.model.FallingSpeed ∧ a.mapLevel = g.mapLevel ∧
      a.model.Position.X = g.model.Position.X := by
  induction n with
  | zero => exact ⟨g, rfl, hrest, hB, hFS, rfl, rfl⟩
  | succ n ih =>
    obtain ⟨a, ha, r1, r2, r3, r4, r5⟩ := ih
    obtain ⟨b, hb⟩ := integrate_isSome cuddlyMap hrect a false false false
    obtain ⟨s1, s2, s3, s4, s5, -, -⟩ := idle_tick_monotone cuddlyMap hrect a b r1 r2 r3 hb
    exact ⟨b, by rw [idleTicks_succ cuddlyMap n g a ha, hb], s1, s2, s3, by rw [s4, r4],
      by rw [s5, r5]⟩

/-- Once the character stands on a landing position or on the floor bound,
ticks without input leave the position where it is. -/
theorem idleTicks_stable (cuddlyMap : List (List Int)) (hrect : Rectangular cuddlyMap)
    (g a : Game) (n : ℕ) (ha : idleTicks cuddlyMap n g = some a) (hrest : AtRest a)
    (hB : a.model.Position.Y ≤ floorBound a)
    (hst : haveLanded cuddlyMap a.model = some true ∨ a.model.Position.Y = floorBound a)
    (d : ℕ) :
    ∃ c, idleTicks cuddlyMap (n + d) g = some c ∧ AtRest c ∧ c.mapLevel = a.mapLevel ∧
      c.model.Position = a.model.Position := by
  induction d with
  | zero => exact ⟨a, ha, hrest, rfl, rfl⟩
  | succ d ih =>
    obtain ⟨c, hc, r1, r2, r3⟩ := ih
    obtain ⟨b, hb⟩ := integrate_isSome cuddlyMap hrect c false false false
    have hfb : floorBound c = floorBound a := by unfold floorBound; rw [r2]
    have hBc : c.model.Position.Y ≤ floorBound c := by rw [hfb, r3]; exact hB
    have hstc : haveLanded cuddlyMap c.model = some true ∨
        c.model.Position.Y = floorBound c := by
      rw [hfb, r3, haveLanded_congr cuddlyMap c.model a.model r3]
      exact hst
    have hpos := idle_tick_stable cuddlyMap c b r1 hBc hstc hb
    obtain ⟨m2, -, e1, e2, e3, e4, -⟩ := idle_tick cuddlyMap c b r1 hb
    refine ⟨b, by rw [← Nat.add_assoc, idleTicks_succ cuddlyMap (n + d) g c hc, hb], ?_,
      by rw [e1, r2], by rw [hpos, r3]⟩
    obtain ⟨-, -, q3, q4, q5⟩ := r1
    exact ⟨e3, e2, by rw [hpos]; exact q3, by rw [hpos]; exact q4, by rw [hpos]; exact q5⟩

/-! ## Falling onto a landing position -/

theorem idleTicks_succ_head (cuddlyMap : List (List Int)) (n : ℕ) (g : Game) :
    idleTicks cuddlyMap (n + 1) g =
      (integrate cuddlyMap g false false false).bind (idleTicks cuddlyMap n) := by
  induction n with
  | zero =>
    simp only [idleTicks, Option.bind_eq_bind, Option.some_bind]
    cases integrate cuddlyMap g false false false <;> rfl
  | succ n ih =>
    have h : idleTicks cuddlyMap (n + 1 + 1) g =
        (idleTicks cuddlyMap (n + 1) g).bind
          (fun a => integrate cuddlyMap a false false false) := rfl
    rw [h, ih]
    cases integrate cuddlyMap g false false false with
    | none => rfl
    | some g1 => rfl

theorem landsAfter_shift (cuddlyMap : List (List Int)) (g g1 : Game) (T : ℕ)
    (h : integrate cuddlyMap g false false false = some g1) (hj : g.model.JustLanded = 0)
    (hl : LandsAfter cuddlyMap g1 T) : LandsAfter cuddlyMap g (T + 1) := by
  obtain ⟨h1, h2⟩ := hl
  constructor
  · intro n hn
    cases n with
    | zero => exact ⟨g, rfl, hj⟩
    | succ n =>
      rw [idleTicks_succ_head, h, Option.some_bind]
      exact h1 n (by omega)
  · intro j
    have e : T + 1 + j = (T + j) + 1 := by omega
    rw [e, idleTicks_succ_head, h, Option.some_bind]
    exact h2 j

/-- A landing position of the level lies above the floor bound. -/
theorem landing_below_floorBound (cuddlyMap : List (List Int))
    (hrect : Rectangular cuddlyMap) (g : Game)
    (hmap : g.mapLevel = NewTileMap cuddlyMap mapTiles) (m : Model)
    (hl : haveLanded cuddlyMap m = some true) (YL : ℤ) (hY : m.Position.Y = (YL : ℚ))
    (h0 : 0 ≤ YL) : (YL : ℚ) < floorBound g := by
  obtain ⟨b, hb, hiff⟩ := haveLanded_rect cuddlyMap hrect m
  rw [hl] at hb
  have hbt : b = true := by
    simp only [Option.some.injEq] at hb
    exact hb.symm
  obtain ⟨-, -, -, hmod, row, hrow, -⟩ := hiff.mp hbt
  rw [hY, toInt_intCast] at hmod hrow
  have hlt := (List.getElem?_eq_some_iff.mp hrow).1
  rw [tileSize, Int.tmod_eq_emod h0 (by norm_num)] at hmod
  rw [tileSize, Int.tdiv_eq_ediv h0 (by norm_num)] at hlt
  unfold floorBound
  rw [hmap]
  simp only [NewTileMap, mapTiles, tileSize, dudeSize]
  have : YL < (cuddlyMap.length : ℤ) * 32 - (32 - 4) - 64 := by omega
  exact_mod_cast this

/-- A tick without input of a standing character: it keeps standing and the
bounce countdown takes one step. -/
theorem standing_tick (cuddlyMap : List (List Int)) (g g1 : Game)
    (hs : Standing cuddlyMap g) (h : integrate cuddlyMap g false false false = some g1) :
    Standing cuddlyMap g1 ∧
      g1.model.BounceDisplacement =
        (if g.model.BounceDisplacement > 0 then g.model.BounceDisplacement - 1
         else g.model.BounceDisplacement) := by
  obtain ⟨hrest, hj, hl, hB⟩ := hs
  obtain ⟨m2, hm2, e1, e2, e3, e4, e5, e6, e7, e8, e9, e10⟩ := idle_tick cuddlyMap g g1 hrest h
  obtain ⟨b1, b2, b3, b4, b5⟩ := beforeDescent_idle g.model hrest.1
  have hpos := idle_tick_stable cuddlyMap g g1 hrest hB (Or.inl hl) h
  have hl1 : haveLanded cuddlyMap (beforeDescent false false false g.model) = some true := by
    rw [← hl]
    exact haveLanded_congr _ _ _ b1
  have hm : m2 = beforeDescent false false false g.model := by
    rcases (descentIter_landed cuddlyMap _ _ m2 hl1 hm2).2 with e | ⟨hlt, -⟩
    · exact e
    · rw [b3, hj] at hlt
      simp at hlt
  have hfb : floorBound g1 = floorBound g := by unfold floorBound; rw [e1]
  obtain ⟨-, -, q3, q4, q5⟩ := hrest
  refine ⟨⟨⟨e3, e2, by rw [hpos]; exact q3, by rw [hpos]; exact q4, by rw [hpos]; exact q5⟩,
    by rw [e6, hm, b3, hj], ?_, by rw [hfb, hpos]; exact hB⟩, by rw [e7, hm, b4]⟩
  rw [← hl]
  exact haveLanded_congr _ _ _ hpos

/-- From a standing character with the bounce counter armed, the counter
runs down one step a tick and then stays at 0, and the landing stays
recorded. -/
theorem standing_landsAfter (cuddlyMap : List (List Int)) (hrect : Rectangular cuddlyMap)
    (g : Game) (hs : Standing cuddlyMap g)
    (hb : g.model.BounceDisplacement = (bouncingAnimation.length : ℤ)) :
    LandsAfter cuddlyMap g 0 := by
  refine ⟨fun n hn => absurd hn (Nat.not_lt_zero n), ?_⟩
  have key : ∀ j : ℕ, ∃ a, idleTicks cuddlyMap j g = some a ∧ Standing cuddlyMap a ∧
      a.model.BounceDisplacement = max ((bouncingAnimation.length : ℤ) - (j : ℤ)) 0 := by
    intro j
    induction j with
    | zero =>
      refine ⟨g, rfl, hs, ?_⟩
      rw [hb]
      simp [bouncingAnimation]
    | succ j ih =>
      obtain ⟨a, ha, hsa, hba⟩ := ih
      obtain ⟨b, hb1⟩ := integrate_isSome cuddlyMap hrect a false false false
      obtain ⟨hsb, hbb⟩ := standing_tick cuddlyMap a b hsa hb1
      refine ⟨b, by rw [idleTicks_succ cuddlyMap j g a ha, hb1], hsb, ?_⟩
      rw [hbb, hba]
      simp only [bouncingAnimation, List.length_cons, List.length_nil]
      push_cast
      split_ifs with hc
      · rw [max_eq_left (by omega), max_eq_left (by omega)]
        omega
      · rw [max_eq_right (by omega), max_eq_right (by omega)]
  intro j
  obtain ⟨a, ha, hsa, hba⟩ := key j
  exact ⟨a, by rw [Nat.zero_add]; exact ha, hsa.2.1, hba⟩

/-- One tick without input of a falling character: it lands (standing, with
the bounce counter armed), or it is still falling lower down, or the loop did
not run because the falling speed is still negative after gravity. -/
theorem falling_tick (cuddlyMap : List (List Int)) (hrect : Rectangular cuddlyMap)
    (g g1 : Game) (X Y YL : ℤ) (hf : Falling cuddlyMap g X Y YL)
    (h : integrate cuddlyMap g false false false = some g1) :
    (Standing cuddlyMap g1 ∧
      g1.model.BounceDisplacement = (bouncingAnimation.length : ℤ)) ∨
    (∃ Y1 : ℤ, Y < Y1 ∧ Falling cuddlyMap g1 X Y1 YL ∧
      g.model.FallingSpeed ≤ g1.model.FallingSpeed) ∨
    (Falling cuddlyMap g1 X Y YL ∧ g1.model.FallingSpeed = g.model.FallingSpeed + 1 / 2 ∧
      g1.model.FallingSpeed < 0) := by
  obtain ⟨hrest, hmap, hj, hb, hpos, hYL, hland⟩ := hf
  obtain ⟨m2, hm2, e1, e2, e3, e4, e5, e6, e7, e8, e9, e10⟩ := idle_tick cuddlyMap g g1 hrest h
  obtain ⟨b1, b2, b3, b4, b5⟩ := beforeDescent_idle g.model hrest.1
  obtain ⟨hTS, hoff, hX1, hX2, hY0⟩ := hrest
  generalize hm1 : beforeDescent false false false g.model = m1 at hm2 b1 b2 b3 b4 b5
  have hgX : g.model.Position.X = (X : ℚ) := by rw [hpos]
  have hgY : g.model.Position.Y = (Y : ℚ) := by rw [hpos]
  have hm1X : m1.Position.X = (X : ℚ) := by rw [b1, hgX]
  have hm1Y : m1.Position.Y = (Y : ℚ) := by rw [b1, hgY]
  have hY0i : 0 ≤ Y := by
    rw [hgY] at hY0
    exact_mod_cast hY0
  have hfbd : (YL : ℚ) < floorBound g :=
    landing_below_floorBound cuddlyMap hrect g hmap _ hland YL rfl (by omega)
  unfold descentLoop at hm2
  obtain ⟨k, hk, hyk, hfree, hlandk⟩ := descentIter_path cuddlyMap _ m1 m2 hm2
  -- the loop does not pass the landing position
  have hkd : Y + (k : ℤ) ≤ YL := by
    by_contra hcon
    have hlt : (YL - Y).toNat < k := by omega
    have hfr := hfree (YL - Y).toNat hlt
    have hc : (((YL - Y).toNat : ℕ) : ℚ) = ((YL - Y : ℤ) : ℚ) := by
      have : (((YL - Y).toNat : ℕ) : ℤ) = YL - Y := by omega
      exact_mod_cast this
    have hpe : (m1.at m1.Position.X (m1.Position.Y + (((YL - Y).toNat : ℕ) : ℚ))).Position =
        (g.model.at (X : ℚ) (YL : ℚ)).Position := by
      simp only [Model.at, Vec2.mk.injEq]
      rw [hm1X, hm1Y, hc]
      push_cast
      exact ⟨rfl, by ring⟩
    rw [haveLanded_congr cuddlyMap _ _ hpe, hland] at hfr
    simp at hfr
  have hm2Y : m2.Position.Y = ((Y + (k : ℤ) : ℤ) : ℚ) := by
    rw [hyk, hm1Y]
    push_cast
    ring
  have hm2lt : ¬ m2.Position.Y ≥ floorBound g := by
    rw [hm2Y, not_le]
    have : ((Y + (k : ℤ) : ℤ) : ℚ) ≤ (YL : ℚ) := by exact_mod_cast hkd
    linarith
  rw [if_neg hm2lt] at e5
  have hg1pos : g1.model.Position = { X := (X : ℚ), Y := ((Y + (k : ℤ) : ℤ) : ℚ) } := by
    cases hp : g1.model.Position
    rw [hp] at e4 e5
    simp only at e4 e5
    rw [e4, e5, hgX, hm2Y]
  have hrest1 : AtRest g1 := by
    refine ⟨e3, e2, by rw [e4]; exact hX1, by rw [e4]; exact hX2, ?_⟩
    rw [hg1pos]
    have : (0 : ℤ) ≤ Y + (k : ℤ) := by omega
    show (0 : ℚ) ≤ ((Y + (k : ℤ) : ℤ) : ℚ)
    exact_mod_cast this
  have hfb : floorBound g1 = floorBound g := by unfold floorBound; rw [e1]
  have hland1 : haveLanded cuddlyMap (g1.model.at (X : ℚ) (YL : ℚ)) = some true := by
    rw [← hland]
    exact haveLanded_congr _ _ _ rfl
  have hm2pos : m2.Position = g1.model.Position := by
    cases hp : m2.Position
    rw [hp] at e9 hm2Y
    simp only at e9 hm2Y
    rw [hg1pos, e9, hm2Y, hgX]
  by_cases hkn : k < (descentCount m1).toNat
  · -- the loop reached a landing position with a pass to spare
    left
    have hl2 := hlandk hkn
    have hlk : haveLanded cuddlyMap (m1.at m1.Position.X (m1.Position.Y + (k : ℚ))) =
        some true := by
      rw [← hl2]
      apply haveLanded_congr
      cases hp : m2.Position
      rw [hp] at hyk
      have hx := (descentIter_frame cuddlyMap _ _ m2 hm2).1
      rw [hp] at hx
      simp only at hx hyk
      simp only [Model.at, Vec2.mk.injEq]
      exact ⟨hx.symm, hyk.symm⟩
    have hres := descentIter_land cuddlyMap _ k m1 hkn hfree hlk
      (Or.inr (by rw [b3, hj]; decide))
    rw [hres] at hm2
    simp only [Option.some.injEq] at hm2
    have hj2 : m2.JustLanded = 1 := by rw [← hm2]; rfl
    have hb2 : m2.BounceDisplacement = (bouncingAnimation.length : ℤ) := by rw [← hm2]; rfl
    refine ⟨⟨hrest1, by rw [e6, hj2], ?_, ?_⟩, by rw [e7, hb2]⟩
    · rw [← hl2]
      exact haveLanded_congr _ _ _ hm2pos.symm
    · rw [hfb, hg1pos]
      have : ((Y + (k : ℤ) : ℤ) : ℚ) ≤ (YL : ℚ) := by exact_mod_cast hkd
      exact le_of_lt (lt_of_le_of_lt this hfbd)
  · right
    have hkeq : k = (descentCount m1).toNat := by omega
    have hfs1 : g1.model.FallingSpeed = m1.FallingSpeed := by
      rw [e8, (descentIter_frame cuddlyMap _ _ m2 hm2).2.2.2.2.1]
    have hb5 : m1.FallingSpeed =
        if g.model.FallingSpeed < (bounceSpeed : ℚ) then g.model.FallingSpeed + 1 / 2
        else g.model.FallingSpeed := by
      rw [b5, hj]
      simp
    cases hk0 : k with
    | zero =>
      -- the loop did not run
      right
      rw [← hkeq, hk0] at hm2
      simp only [descentIter, Option.some.injEq] at hm2
      have hneg : m1.FallingSpeed < 0 := by
        by_contra hcon
        obtain ⟨hc, hfl⟩ := descentCount_of_nonneg m1 (not_lt.mp hcon)
        rw [hc] at hkeq
        omega
      have hlt7 : g.model.FallingSpeed < (bounceSpeed : ℚ) := by
        by_contra hcon
        rw [if_neg hcon] at hb5
        have : (0 : ℚ) ≤ (bounceSpeed : ℚ) := by simp [bounceSpeed]
        rw [hb5] at hneg
        linarith [not_lt.mp hcon]
      rw [if_pos hlt7] at hb5
      rw [hk0] at hg1pos
      simp only [Nat.cast_zero, add_zero] at hg1pos
      refine ⟨⟨hrest1, by rw [e1, hmap], by rw [e6, ← hm2, b3, hj], ?_, hg1pos, hYL, hland1⟩,
        by rw [hfs1, hb5], by rw [hfs1]; exact hneg⟩
      rw [e7, ← hm2, b4, hb]
      simp
    | succ n =>
      -- the loop fell through `n + 1` free heights
      left
      rw [hk0] at hfree
      have hres := descentIter_fall cuddlyMap n m1 hfree
      rw [← hkeq, hk0, hres] at hm2
      simp only [Option.some.injEq] at hm2
      have hj2 : m2.JustLanded = 0 := by rw [← hm2]; rfl
      have hb2 : m2.BounceDisplacement = m1.BounceDisplacement := by rw [← hm2]; rfl
      refine ⟨Y + (k : ℤ), by omega,
        ⟨hrest1, by rw [e1, hmap], by rw [e6, hj2], ?_, hg1pos, hkd, hland1⟩, ?_⟩
      · rw [e7, hb2, b4, hb]
        simp
      · rw [hfs1, hb5]
        split_ifs
        · linarith
        · exact le_rfl

/-- The measure of the fall: the pixels left to the landing position plus the
ticks gravity needs to bring a negative falling speed up to zero. -/
theorem falling_measure (FS FS1 : ℚ) (h : FS ≤ FS1) :
    (⌈-2 * FS1⌉).toNat ≤ (⌈-2 * FS⌉).toNat :=
  Int.toNat_le_toNat (Int.ceil_mono (by linarith))

theorem falling_measure_dead (FS FS1 : ℚ) (h : FS1 = FS + 1 / 2) (hneg : FS1 < 0) :
    (⌈-2 * FS1⌉).toNat < (⌈-2 * FS⌉).toNat := by
  have e : -2 * FS = -2 * FS1 + 1 := by rw [h]; ring
  have hpos : 0 < ⌈-2 * FS1⌉ := Int.ceil_pos.mpr (by linarith)
  rw [e, Int.ceil_add_one]
  omega

/-- A falling character lands: by induction on the measure of the fall. -/
theorem falling_lands (cuddlyMap : List (List Int)) (hrect : Rectangular cuddlyMap)
    (X YL : ℤ) (μ : ℕ) :
    ∀ (g : Game) (Y : ℤ), Falling cuddlyMap g X Y YL →
      (YL - Y).toNat + (⌈-2 * g.model.FallingSpeed⌉).toNat < μ →
      ∃ T, LandsAfter cuddlyMap g (T + 1) := by
  induction μ with
  | zero =>
    intro g Y _ hlt
    omega
  | succ μ ih =>
    intro g Y hf hlt
    obtain ⟨g1, hg1⟩ := integrate_isSome cuddlyMap hrect g false false false
    have hj : g.model.JustLanded = 0 := hf.2.2.1
    have hYL : Y ≤ YL := hf.2.2.2.2.2.1
    rcases falling_tick cuddlyMap hrect g g1 X Y YL hf hg1 with
      ⟨hs, hb⟩ | ⟨Y1, hY1, hf1, hfs⟩ | ⟨hf1, hfs, hneg⟩
    · exact ⟨0, landsAfter_shift cuddlyMap g g1 0 hg1 hj
        (standing_landsAfter cuddlyMap hrect g1 hs hb)⟩
    · have hY1L : Y1 ≤ YL := hf1.2.2.2.2.2.1
      have hm := falling_measure _ _ hfs
      obtain ⟨T, hT⟩ := ih g1 Y1 hf1 (by omega)
      exact ⟨T + 1, landsAfter_shift cuddlyMap g g1 (T + 1) hg1 hj hT⟩
    · have hm := falling_measure_dead _ _ hfs hneg
      obtain ⟨T, hT⟩ := ih g1 Y hf1 (by omega)
      exact ⟨T + 1, landsAfter_shift cuddlyMap g g1 (T + 1) hg1 hj hT⟩

/-! ## The animation clock: facts -/

theorem toInt_of_nonneg (q : ℚ) (h : 0 ≤ q) : toInt q = ⌊q⌋ := by
  simp [toInt, h]

theorem mathMod_eq_fmod (x y : ℚ) (hx : 0 ≤ x) (hy : 0 < y) : mathMod x y = fmod x y := by
  unfold mathMod fmod
  rw [toInt_of_nonneg _ (div_nonneg hx (le_of_lt hy))]

theorem fmod_nonneg (x y : ℚ) (hy : 0 < y) : 0 ≤ fmod x y := by
  unfold fmod
  have h := Int.floor_le (x / y)
  have h1 : ((⌊x / y⌋ : Int) : ℚ) * y ≤ x := (le_div_iff₀ hy).mp h
  linarith

theorem fmod_lt (x y : ℚ) (hy : 0 < y) : fmod x y < y := by
  unfold fmod
  have h := Int.lt_floor_add_one (x / y)
  have h1 : x < (((⌊x / y⌋ : Int) : ℚ) + 1) * y := (div_lt_iff₀ hy).mp h
  linarith

theorem fmod_add_self (x y : ℚ) (hy : 0 < y) : fmod (x + y) y = fmod x y := by
  unfold fmod
  have h : (x + y) / y = x / y + ((1 : Int) : ℚ) := by
    field_simp
  rw [h, Int.floor_add_int]
  push_cast
  ring

/-- The frame a running clock computes from the clock time `c` in `[0, d)`:
`floor(n * c / d)`, inside the index list. -/
theorem frame_of_running (n : ℕ) (c d : ℚ) (hn : 0 < n) (hd : 0 < d) (hc0 : 0 ≤ c)
    (hcd : c < d) :
    toInt (mathFloor ((n : ℚ) * min (c / d) 1)) = ⌊(n : ℚ) * c / d⌋ ∧
      0 ≤ ⌊(n : ℚ) * c / d⌋ ∧ ⌊(n : ℚ) * c / d⌋ < (n : Int) := by
  have hlt1 : c / d < 1 := (div_lt_one hd).mpr hcd
  have hge0 : 0 ≤ c / d := div_nonneg hc0 (le_of_lt hd)
  have hnq : (0 : ℚ) < (n : ℚ) := by exact_mod_cast hn
  have e : (n : ℚ) * min (c / d) 1 = (n : ℚ) * c / d := by
    rw [min_eq_left (le_of_lt hlt1)]
    ring
  unfold mathFloor
  rw [toInt_intCast, e]
  refine ⟨rfl, ?_, ?_⟩
  · apply Int.floor_nonneg.mpr
    have : (n : ℚ) * c / d = (n : ℚ) * (c / d) := by ring
    rw [this]
    exact mul_nonneg (le_of_lt hnq) hge0
  · apply Int.floor_lt.mpr
    have : (n : ℚ) * c / d = (n : ℚ) * (c / d) := by ring
    rw [this]
    push_cast
    nlinarith

/-- The frame position is inside the index list, for every clock and time. -/
theorem framePos_range (a : Animation) (t : ℚ) (hne : a.Indices ≠ []) (hd : 0 < a.Duration) :
    0 ≤ a.framePos t ∧ a.framePos t ≤ (a.Indices.length : Int) - 1 := by
  have hlen : 0 < a.Indices.length := List.length_pos.mpr hne
  unfold Animation.framePos
  simp only
  split_ifs with h1 h2 h3
  · omega
  · omega
  · -- looping, not clamped
    refine ⟨?_, by omega⟩
    unfold mathFloor
    rw [toInt_intCast]
    apply Int.floor_nonneg.mpr
    apply mul_nonneg (by positivity)
    apply le_min _ (by norm_num)
    rw [mathMod_eq_fmod _ _ (le_max_left 0 t) hd]
    exact div_nonneg (fmod_nonneg _ _ hd) (le_of_lt hd)
  · omega
  · refine ⟨?_, by omega⟩
    unfold mathFloor
    rw [toInt_intCast]
    apply Int.floor_nonneg.mpr
    apply mul_nonneg (by positivity)
    apply le_min _ (by norm_num)
    exact div_nonneg (le_max_left 0 t) (le_of_lt hd)

/-! ## The tile set and the tile map: facts -/

/-- The position `TileSet.Tile` reads on a non-empty table. -/
theorem tile_eq (t : TileSet) (index : Int) (hne : t.Tiles ≠ []) :
    t.Tile index =
      (t.Tiles[(if index < 0 then 0 else index % (t.Tiles.length : Int)).toNat]?).map
        ImageRef.tile ∧
    (if index < 0 then 0 else index % (t.Tiles.length : Int)).toNat < t.Tiles.length := by
  have hlen : 0 < t.Tiles.length := List.length_pos.mpr hne
  have hlen0 : t.Tiles.length ≠ 0 := by omega
  constructor
  · simp only [TileSet.Tile, hlen0, if_false]
    by_cases hneg : index < 0
    · simp only [hneg, if_true]
      have h0 : ¬ ((0 : Int) ≥ (t.Tiles.length : Int)) := by omega
      simp [h0, goIndex]
    · simp only [hneg, if_false]
      by_cases hge : index ≥ (t.Tiles.length : Int)
      · simp only [hge, if_true]
        rw [Int.tmod_eq_emod (by omega) (by omega)]
        have : ¬ (index % (t.Tiles.length : Int) < 0) :=
          not_lt.mpr (Int.emod_nonneg _ (by omega))
        simp [goIndex, this]
      · simp only [hge, if_false]
        have : index % (t.Tiles.length : Int) = index := Int.emod_eq_of_lt (by omega) (by omega)
        rw [this]
        simp [goIndex, hneg]
  · split_ifs
    · simpa using hlen
    · have h1 := Int.emod_lt_of_pos index (show (0 : Int) < (t.Tiles.length : Int) by omega)
      have h2 := Int.emod_nonneg index (show (t.Tiles.length : Int) ≠ 0 by omega)
      omega

theorem tile_isSome (t : TileSet) (index : Int) : ∃ r, t.Tile index = some r := by
  by_cases hne : t.Tiles = []
  · exact ⟨ImageRef.sheet, by simp [TileSet.Tile, hne]⟩
  · obtain ⟨h1, h2⟩ := tile_eq t index hne
    exact ⟨_, by rw [h1, List.getElem?_eq_getElem h2]; rfl⟩

theorem clip_nonneg (m : TileMap) (offsetX offsetY viewW viewH : Int) :
    0 ≤ (m.clip offsetX offsetY viewW viewH).1 ∧ 0 ≤ (m.clip offsetX offsetY viewW viewH).2 := by
  simp only [TileMap.clip]
  constructor <;> split_ifs <;> omega

theorem blitAll_mem {α β : Type} (f : α → Option β) (l : List α) (bs : List β)
    (h : blitAll f l = some bs) (b : β) : b ∈ bs ↔ ∃ a ∈ l, f a = some b := by
  induction l generalizing bs with
  | nil =>
    simp only [blitAll, Option.some.injEq] at h
    subst h
    simp
  | cons a l ih =>
    simp only [blitAll] at h
    cases ha : f a with
    | none => simp [ha] at h
    | some b0 =>
      cases hl : blitAll f l with
      | none => simp [ha, hl] at h
      | some bs0 =>
        simp only [ha, hl, Option.bind_eq_bind, Option.some_bind, Option.pure_def,
          Option.some.injEq] at h
        subst h
        simp only [List.mem_cons, ih bs0 hl]
        constructor
        · rintro (rfl | ⟨a1, h1, h2⟩)
          · exact ⟨a, Or.inl rfl, ha⟩
          · exact ⟨a1, Or.inr h1, h2⟩
        · rintro ⟨a1, rfl | h1, h2⟩
          · rw [ha] at h2
            exact Or.inl (Option.some.inj h2).symm
          · exact Or.inr ⟨a1, h1, h2⟩

theorem blitAll_isSome {α β : Type} (f : α → Option β) (l : List α)
    (h : ∀ a ∈ l, ∃ b, f a = some b) : ∃ bs, blitAll f l = some bs := by
  induction l with
  | nil => exact ⟨[], rfl⟩
  | cons a l ih =>
    obtain ⟨b, hb⟩ := h a (List.mem_cons_self a l)
    obtain ⟨bs, hbs⟩ := ih (fun a1 h1 => h a1 (List.mem_cons_of_mem a h1))
    exact ⟨b :: bs, by simp [blitAll, hb, hbs]⟩

theorem mem_drawWindow (maxX maxY startX startY tilesX tilesY y x : Int) :
    (y, x) ∈ TileMap.drawWindow maxX maxY startX startY tilesX tilesY ↔
      (0 ≤ y ∧ y < tilesY ∧ 0 ≤ startY + y ∧ startY + y < maxY) ∧
      (0 ≤ x ∧ x < tilesX ∧ 0 ≤ startX + x ∧ startX + x < maxX) := by
  unfold TileMap.drawWindow
  simp only [List.mem_flatMap, List.mem_range]
  constructor
  · rintro ⟨ny, hny, hmem⟩
    split_ifs at hmem with hc
    · simp at hmem
    · simp only [List.mem_flatMap, List.mem_range] at hmem
      obtain ⟨nx, hnx, hmem2⟩ := hmem
      split_ifs at hmem2 with hc2
      · simp at hmem2
      · simp only [List.mem_singleton, Prod.mk.injEq] at hmem2
        obtain ⟨rfl, rfl⟩ := hmem2
        omega
  · rintro ⟨⟨h1, h2, h3, h4⟩, ⟨h5, h6, h7, h8⟩⟩
    refine ⟨y.toNat, by omega, ?_⟩
    have ey : ((y.toNat : ℕ) : Int) = y := by omega
    rw [ey, if_neg (by omega)]
    simp only [List.mem_flatMap, List.mem_range]
    refine ⟨x.toNat, by omega, ?_⟩
    have ex : ((x.toNat : ℕ) : Int) = x := by omega
    rw [ex, if_neg (by omega)]
    simp

/-- The loop body at a cell of a rectangular map. -/
theorem blit_isSome (m : TileMap) (hrect : Rectangular m.Data)
    (startX startY offX offY dstX dstY : Int) (yx : Int × Int)
    (hy : 0 ≤ startY + yx.1 ∧ startY + yx.1 < (m.Data.length : Int))
    (hx : 0 ≤ startX + yx.2 ∧ startX + yx.2 < ((m.Data.headD []).length : Int)) :
    ∃ b, m.blit startX startY offX offY dstX dstY yx = some b := by
  obtain ⟨row, hrow, hmem, -⟩ := goIndex_of_lt m.Data _ hy.1 hy.2
  have hlen := hrect row hmem
  obtain ⟨v, hv, -, -⟩ := goIndex_of_lt row _ hx.1 (by rw [hlen]; exact hx.2)
  obtain ⟨r, hr⟩ := tile_isSome m.Tiles v
  exact ⟨_, by simp only [TileMap.blit, hrow, hv, hr, Option.bind_eq_bind, Option.some_bind]; rfl⟩

theorem blit_eq_some (m : TileMap) (startX startY offX offY dstX dstY : Int) (yx : Int × Int)
    (b : Blit) (h : m.blit startX startY offX offY dstX dstY yx = some b) :
    b.mapY = startY + yx.1 ∧ b.mapX = startX + yx.2 ∧
    b.x = dstX + yx.2 * m.Tiles.TileW - offX ∧ b.y = dstY + yx.1 * m.Tiles.TileH - offY ∧
    ∃ row v, goIndex m.Data b.mapY = some row ∧ goIndex row b.mapX = some v ∧
      m.Tiles.Tile v = some b.img := by
  unfold TileMap.blit at h
  cases hrow : goIndex m.Data (startY + yx.1) with
  | none => simp [hrow] at h
  | some row =>
    cases hv : goIndex row (startX + yx.2) with
    | none => simp [hrow, hv] at h
    | some v =>
      cases hr : m.Tiles.Tile v with
      | none => simp [hrow, hv, hr] at h
      | some r =>
        simp only [hrow, hv, hr, Option.bind_eq_bind, Option.some_bind, Option.pure_def,
          Option.some.injEq] at h
        subst h
        exact ⟨rfl, rfl, rfl, rfl, row, v, hrow, hv, hr⟩

theorem drawWindow_nodup (maxX maxY startX startY tilesX tilesY : Int) :
    (TileMap.drawWindow maxX maxY startX startY tilesX tilesY).Nodup := by
  unfold TileMap.drawWindow
  rw [List.nodup_flatMap]
  constructor
  · intro y _
    split_ifs
    · exact List.nodup_nil
    · rw [List.nodup_flatMap]
      constructor
      · intro x _
        split_ifs
        · exact List.nodup_nil
        · exact List.nodup_singleton _
      · apply (List.pairwise_lt_range _).imp
        intro a b hab
        simp only [Function.onFun]
        intro p hp1 hp2
        split_ifs at hp1 hp2 <;> simp_all
  · apply (List.pairwise_lt_range _).imp
    intro a b hab
    simp only [Function.onFun]
    intro p hp1 hp2
    split_ifs at hp1 hp2 with h1 h2
    · simp at hp1
    · simp at hp1
    · simp at hp2
    · simp only [List.mem_flatMap, List.mem_range] at hp1 hp2
      obtain ⟨x1, -, hx1⟩ := hp1
      obtain ⟨x2, -, hx2⟩ := hp2
      split_ifs at hx1 hx2 <;> simp_all

theorem blitAll_map {α β γ : Type} (f : α → Option β) (g : β → γ) (k : α → γ) (l : List α)
    (bs : List β) (h : blitAll f l = some bs) (hk : ∀ a b, f a = some b → g b = k a) :
    bs.map g = l.map k := by
  induction l generalizing bs with
  | nil =>
    simp only [blitAll, Option.some.injEq] at h
    subst h
    rfl
  | cons a l ih =>
    simp only [blitAll] at h
    cases ha : f a with
    | none => simp [ha] at h
    | some b0 =>
      cases hl : blitAll f l with
      | none => simp [ha, hl] at h
      | some bs0 =>
        simp only [ha, hl, Option.bind_eq_bind, Option.some_bind, Option.pure_def,
          Option.some.injEq] at h
        subst h
        simp only [List.map_cons, ih bs0 hl, hk a b0 ha]

/-! ## The autopilot and the update tick: facts -/

theorem stuckStep_frame (ap : AutoPilot) (onLevel : Bool) (currentY : Int) (target : Vec2) :
    (stuckStep ap onLevel currentY target).ActivateIn = ap.ActivateIn ∧
    (stuckStep ap onLevel currentY target).DontThrustForAwhile = ap.DontThrustForAwhile := by
  simp only [stuckStep]
  split_ifs <;> simp

theorem steerStep_frame (ap : AutoPilot) (m : Model) (onLevel : Bool) (target : Vec2)
    (currentX targetX : Int) :
    (steerStep ap m onLevel target currentX targetX).1.ActivateIn = ap.ActivateIn := by
  simp only [steerStep]
  split_ifs <;> simp

theorem timerStep_frame (ap : AutoPilot) (rnd : Int) :
    (timerStep ap rnd).ActivateIn = ap.ActivateIn := by
  simp only [timerStep]
  split_ifs <;> simp

/-- The shape of a completed `autoPilotMovement` call. -/
theorem autoPilotMovement_eq_some (cuddlyMap : List (List Int)) (demoScreens : List DemoScreen)
    (g : Game) (rnd : Int) (r : Game × movement)
    (h : autoPilotMovement cuddlyMap demoScreens g rnd = some r) :
    ∃ target onLevel, autoPilotTarget demoScreens g.autoPilot.NextScreen = some target ∧
      haveLanded cuddlyMap g.model = some onLevel ∧
      r = ({ g with autoPilot := (timerStep (steerStep
              (stuckStep g.autoPilot onLevel (toInt g.model.Position.Y) target) g.model onLevel
              target (andNot (toInt g.model.Position.X) 0xf) (andNot (toInt target.X) 0xf)).1
              rnd) },
           (steerStep (stuckStep g.autoPilot onLevel (toInt g.model.Position.Y) target) g.model
              onLevel target (andNot (toInt g.model.Position.X) 0xf)
              (andNot (toInt target.X) 0xf)).2) := by
  unfold autoPilotMovement at h
  cases ht : autoPilotTarget demoScreens g.autoPilot.NextScreen with
  | none => simp [ht] at h
  | some target =>
    cases hl : haveLanded cuddlyMap g.model with
    | none => simp [ht, hl] at h
    | some onLevel =>
      simp only [ht, hl, Option.bind_eq_bind, Option.some_bind, Option.pure_def,
        Option.some.injEq] at h
      exact ⟨target, onLevel, rfl, rfl, h.symm⟩

theorem autoPilotMovement_frame (cuddlyMap : List (List Int)) (demoScreens : List DemoScreen)
    (g : Game) (rnd : Int) (r : Game × movement)
    (h : autoPilotMovement cuddlyMap demoScreens g rnd = some r) :
    r.1.autoPilot.ActivateIn = g.autoPilot.ActivateIn ∧ r.1.loading = g.loading ∧
    r.1.model = g.model ∧ r.1.mapLevel = g.mapLevel := by
  obtain ⟨target, onLevel, -, -, rfl⟩ := autoPilotMovement_eq_some _ _ _ _ _ h
  refine ⟨?_, rfl, rfl, rfl⟩
  show (timerStep _ rnd).ActivateIn = _
  rw [timerStep_frame, steerStep_frame, (stuckStep_frame _ _ _ _).1]

theorem autoPilotMovement_isSome (cuddlyMap : List (List Int)) (hrect : Rectangular cuddlyMap)
    (demoScreens : List DemoScreen) (hne : demoScreens ≠ []) (g : Game) (rnd : Int) :
    ∃ r, autoPilotMovement cuddlyMap demoScreens g rnd = some r := by
  have hlen : 0 < demoScreens.length := List.length_pos.mpr hne
  obtain ⟨b, hb, -⟩ := haveLanded_rect cuddlyMap hrect g.model
  have ht : ∃ target, autoPilotTarget demoScreens g.autoPilot.NextScreen = some target := by
    unfold autoPilotTarget
    simp only
    split_ifs with hc
    · obtain ⟨d, hd, -, -⟩ := goIndex_of_lt demoScreens 0 le_rfl (by omega)
      exact ⟨_, by rw [hd]; rfl⟩
    · obtain ⟨d, hd, -, -⟩ := goIndex_of_lt demoScreens g.autoPilot.NextScreen
        (by omega) (by omega)
      exact ⟨_, by rw [hd]; rfl⟩
  obtain ⟨target, htarget⟩ := ht
  exact ⟨_, by simp only [autoPilotMovement, htarget, hb, Option.bind_eq_bind,
    Option.some_bind]; rfl⟩

theorem handleLoad_frame (demoScreens : List DemoScreen) (g : Game) (load : Bool) :
    (g.handleLoad demoScreens load).autoPilot.ActivateIn = g.autoPilot.ActivateIn ∧
    (load = false → g.handleLoad demoScreens load = g) := by
  constructor
  · unfold Game.handleLoad
    split_ifs
    · rfl
    · simp only
      split
      · rfl
      · rfl
  · intro h
    simp [Game.handleLoad, h]

theorem updateLoading_frame (g : Game) :
    g.updateLoading.autoPilot.ActivateIn = g.autoPilot.ActivateIn := by
  unfold Game.updateLoading
  simp only
  split_ifs <;> rfl

/-- The control step when the countdown stays positive: the raw input goes
through and only the countdown changes. -/
theorem control_raw (cuddlyMap : List (List Int)) (demoScreens : List DemoScreen) (g : Game)
    (inp : RawInput) (hk : inp.anyKey = false) (hpos : 1 < g.autoPilot.ActivateIn) :
    g.control cuddlyMap demoScreens inp =
      some ({ g with autoPilot := { g.autoPilot with ActivateIn := g.autoPilot.ActivateIn - 1 } },
        { left := inp.left, right := inp.right, thrust := inp.thrust }, inp.load) := by
  have : ¬ (g.autoPilot.ActivateIn - 1 ≤ 0) := by omega
  simp only [Game.control, hk, Bool.false_eq_true, if_false, this]
  rfl

/-- The control step when the countdown runs out: the autopilot's movement
replaces the raw input. -/
theorem control_auto (cuddlyMap : List (List Int)) (demoScreens : List DemoScreen) (g : Game)
    (inp : RawInput) (hk : inp.anyKey = false) (hpos : g.autoPilot.ActivateIn ≤ 1) :
    g.control cuddlyMap demoScreens inp =
      (autoPilotMovement cuddlyMap demoScreens
        { g with autoPilot := { g.autoPilot with ActivateIn := g.autoPilot.ActivateIn - 1 } }
        inp.rnd).map
        (fun r => (r.1, r.2, if r.1.autoPilot.NowLoadScreen then true else inp.load)) := by
  have : g.autoPilot.ActivateIn - 1 ≤ 0 := by omega
  simp only [Game.control, hk, Bool.false_eq_true, if_false, this, if_true]
  cases autoPilotMovement cuddlyMap demoScreens
    { g with autoPilot := { g.autoPilot with ActivateIn := g.autoPilot.ActivateIn - 1 } }
    inp.rnd <;> rfl

/-- The control step with a key down: the countdown restarts and the raw input
goes through. -/
theorem control_anyKey (cuddlyMap : List (List Int)) (demoScreens : List DemoScreen) (g : Game)
    (inp : RawInput) (hk : inp.anyKey = true) :
    g.control cuddlyMap demoScreens inp =
      some ({ g with autoPilot := { g.autoPilot with ActivateIn := autoPilotActivateDuration } },
        { left := inp.left, right := inp.right, thrust := inp.thrust }, inp.load) := by
  have : ¬ (autoPilotActivateDuration ≤ 0) := by decide
  simp only [Game.control, hk, if_true, this, if_false]
  rfl

/-- An update tick outside the loader, in terms of the control step. -/
theorem update_eq (cuddlyMap : List (List Int)) (demoScreens : List DemoScreen) (g : Game)
    (inp : RawInput) (hr : inp.resetKey = false) (hl : g.loading.Active = false) :
    g.Update cuddlyMap demoScreens inp =
      (g.control cuddlyMap demoScreens inp).bind fun r =>
        (integrate cuddlyMap r.1 r.2.1.left r.2.1.right r.2.1.thrust).map fun g3 =>
          Game.handleLoad demoScreens
            { g3 with carebearTime := g3.carebearTime + 1 / 60, simTime := g3.simTime + 1 / 60 }
            r.2.2 := by
  simp only [Game.Update, hr, Bool.false_eq_true, if_false, hl]
  cases g.control cuddlyMap demoScreens inp with
  | none => rfl
  | some r =>
    simp only [Option.bind_eq_bind, Option.some_bind]
    cases integrate cuddlyMap r.1 r.2.1.left r.2.1.right r.2.1.thrust <;> rfl

/-- A tick with no key down, outside the loader and with the countdown above
1: the loader stays idle and only the countdown of the autopilot changes. -/
theorem quiet_update_early (cuddlyMap : List (List Int)) (demoScreens : List DemoScreen)
    (g g1 : Game) (inp : RawInput) (hq : Quiet inp) (hl : g.loading.Active = false)
    (hpos : 1 < g.autoPilot.ActivateIn)
    (h : g.Update cuddlyMap demoScreens inp = some g1) :
    g1.loading.Active = false ∧
      g1.autoPilot = { g.autoPilot with ActivateIn := g.autoPilot.ActivateIn - 1 } := by
  obtain ⟨hk, hr, hload⟩ := hq
  rw [update_eq cuddlyMap demoScreens g inp hr hl,
    control_raw cuddlyMap demoScreens g inp hk hpos, Option.some_bind] at h
  simp only at h
  cases hi : integrate cuddlyMap
      { g with autoPilot := { g.autoPilot with ActivateIn := g.autoPilot.ActivateIn - 1 } }
      inp.left inp.right inp.thrust with
  | none => simp [hi] at h
  | some g3 =>
    obtain ⟨m, -, rfl⟩ := integrate_eq_some cuddlyMap _ g3 _ _ _ hi
    simp only [hi, Option.map_some', Option.some.injEq, hload] at h
    rw [(handleLoad_frame demoScreens _ false).2 rfl] at h
    subst h
    exact ⟨hl, rfl⟩

theorem quiet_update_isSome_early (cuddlyMap : List (List Int)) (hrect : Rectangular cuddlyMap)
    (demoScreens : List DemoScreen) (g : Game) (inp : RawInput) (hq : Quiet inp)
    (hl : g.loading.Active = false) (hpos : 1 < g.autoPilot.ActivateIn) :
    ∃ g1, g.Update cuddlyMap demoScreens inp = some g1 := by
  obtain ⟨hk, hr, hload⟩ := hq
  rw [update_eq cuddlyMap demoScreens g inp hr hl,
    control_raw cuddlyMap demoScreens g inp hk hpos, Option.some_bind]
  obtain ⟨g3, hg3⟩ := integrate_isSome cuddlyMap hrect
    { g with autoPilot := { g.autoPilot with ActivateIn := g.autoPilot.ActivateIn - 1 } }
    inp.left inp.right inp.thrust
  simp only
  rw [hg3]
  exact ⟨_, rfl⟩

/-- With no key down the countdown never goes up. -/
theorem quiet_update_le (cuddlyMap : List (List Int)) (demoScreens : List DemoScreen)
    (g g1 : Game) (inp : RawInput) (hq : Quiet inp)
    (h : g.Update cuddlyMap demoScreens inp = some g1) :
    g1.autoPilot.ActivateIn ≤ g.autoPilot.ActivateIn := by
  obtain ⟨hk, hr, hload⟩ := hq
  by_cases hl : g.loading.Active = true
  · simp only [Game.Update, hr, Bool.false_eq_true, if_false, hl, if_true,
      Option.some.injEq] at h
    rw [← h, updateLoading_frame]
  · have hl' : g.loading.Active = false := by simpa using hl
    rw [update_eq cuddlyMap demoScreens g inp hr hl'] at h
    cases hc : g.control cuddlyMap demoScreens inp with
    | none => simp [hc] at h
    | some r =>
      rw [hc, Option.some_bind] at h
      cases hi : integrate cuddlyMap r.1 r.2.1.left r.2.1.right r.2.1.thrust with
      | none => simp [hi] at h
      | some g3 =>
        obtain ⟨m, -, rfl⟩ := integrate_eq_some cuddlyMap _ g3 _ _ _ hi
        simp only [hi, Option.map_some', Option.some.injEq] at h
        rw [← h, (handleLoad_frame demoScreens _ _).1]
        show r.1.autoPilot.ActivateIn ≤ g.autoPilot.ActivateIn
        by_cases hpos : 1 < g.autoPilot.ActivateIn
        · rw [control_raw cuddlyMap demoScreens g inp hk hpos] at hc
          simp only [Option.some.injEq] at hc
          rw [← hc]
          show g.autoPilot.ActivateIn - 1 ≤ g.autoPilot.ActivateIn
          omega
        · rw [control_auto cuddlyMap demoScreens g inp hk (by omega)] at hc
          cases ha : autoPilotMovement cuddlyMap demoScreens
              { g with autoPilot := { g.autoPilot with
                ActivateIn := g.autoPilot.ActivateIn - 1 } } inp.rnd with
          | none => simp [ha] at hc
          | some r1 =>
            simp only [ha, Option.map_some', Option.some.injEq] at hc
            rw [← hc]
            show r1.1.autoPilot.ActivateIn ≤ g.autoPilot.ActivateIn
            rw [(autoPilotMovement_frame _ _ _ _ _ ha).1]
            show g.autoPilot.ActivateIn - 1 ≤ g.autoPilot.ActivateIn
            omega

theorem updateAll_append (cuddlyMap : List (List Int)) (demoScreens : List DemoScreen)
    (l1 l2 : List RawInput) (g : Game) :
    updateAll cuddlyMap demoScreens (l1 ++ l2) g =
      (updateAll cuddlyMap demoScreens l1 g).bind (updateAll cuddlyMap demoScreens l2) := by
  induction l1 generalizing g with
  | nil => rfl
  | cons i l1 ih =>
    simp only [List.cons_append, updateAll]
    cases g.Update cuddlyMap demoScreens i with
    | none => rfl
    | some g1 => simpa using ih g1

/-- A run of ticks with no key down shorter than the countdown: the loader
stays idle and only the countdown of the autopilot changes. -/
theorem quiet_run_early (cuddlyMap : List (List Int)) (demoScreens : List DemoScreen)
    (inps : List RawInput) (g g1 : Game) (hq : ∀ i ∈ inps, Quiet i)
    (hl : g.loading.Active = false) (hlen : (inps.length : Int) < g.autoPilot.ActivateIn)
    (h : updateAll cuddlyMap demoScreens inps g = some g1) :
    g1.loading.Active = false ∧
      g1.autoPilot =
        { g.autoPilot with ActivateIn := g.autoPilot.ActivateIn - (inps.length : Int) } := by
  induction inps generalizing g with
  | nil =>
    simp only [updateAll, Option.some.injEq] at h
    subst h
    exact ⟨hl, by simp⟩
  | cons i rest ih =>
    simp only [updateAll] at h
    simp only [List.length_cons, Nat.cast_add, Nat.cast_one] at hlen ⊢
    cases hu : g.Update cuddlyMap demoScreens i with
    | none => simp [hu] at h
    | some g2 =>
      simp only [hu, Option.bind_eq_bind, Option.some_bind] at h
      obtain ⟨e1, e2⟩ := quiet_update_early cuddlyMap demoScreens g g2 i
        (hq i (List.mem_cons_self i rest)) hl (by omega) hu
      obtain ⟨f1, f2⟩ := ih g2 (fun a ha => hq a (List.mem_cons_of_mem i ha)) e1
        (by rw [e2]; show (rest.length : Int) < g.autoPilot.ActivateIn - 1; omega) h
      refine ⟨f1, ?_⟩
      rw [f2, e2]
      simp only [AutoPilot.mk.injEq, and_true, true_and]
      omega

theorem quiet_run_isSome (cuddlyMap : List (List Int)) (hrect : Rectangular cuddlyMap)
    (demoScreens : List DemoScreen) (inps : List RawInput) (g : Game)
    (hq : ∀ i ∈ inps, Quiet i) (hl : g.loading.Active = false)
    (hlen : (inps.length : Int) < g.autoPilot.ActivateIn) :
    ∃ g1, updateAll cuddlyMap demoScreens inps g = some g1 := by
  induction inps generalizing g with
  | nil => exact ⟨g, rfl⟩
  | cons i rest ih =>
    simp only [List.length_cons, Nat.cast_add, Nat.cast_one] at hlen
    obtain ⟨g2, hu⟩ := quiet_update_isSome_early cuddlyMap hrect demoScreens g i
      (hq i (List.mem_cons_self i rest)) hl (by omega)
    obtain ⟨e1, e2⟩ := quiet_update_early cuddlyMap demoScreens g g2 i
      (hq i (List.mem_cons_self i rest)) hl (by omega) hu
    obtain ⟨g1, hg1⟩ := ih g2 (fun a ha => hq a (List.mem_cons_of_mem i ha)) e1
      (by rw [e2]; show (rest.length : Int) < g.autoPilot.ActivateIn - 1; omega)
    exact ⟨g1, by simp only [updateAll, hu, Option.bind_eq_bind, Option.some_bind, hg1]⟩

theorem quiet_run_le (cuddlyMap : List (List Int)) (demoScreens : List DemoScreen)
    (inps : List RawInput) (g g1 : Game) (hq : ∀ i ∈ inps, Quiet i)
    (h : updateAll cuddlyMap demoScreens inps g = some g1) :
    g1.autoPilot.ActivateIn ≤ g.autoPilot.ActivateIn := by
  induction inps generalizing g with
  | nil =>
    simp only [updateAll, Option.some.injEq] at h
    subst h
    exact le_rfl
  | cons i rest ih =>
    simp only [updateAll] at h
    cases hu : g.Update cuddlyMap demoScreens i with
    | none => simp [hu] at h
    | some g2 =>
      simp only [hu, Option.bind_eq_bind, Option.some_bind] at h
      exact le_trans (ih g2 (fun a ha => hq a (List.mem_cons_of_mem i ha)) h)
        (quiet_update_le cuddlyMap demoScreens g g2 i (hq i (List.mem_cons_self i rest)) hu)

/-- The thrust `steerStep` synthesizes when the controller is not stuck. -/
theorem steerStep_thrust (ap : AutoPilot) (m : Model) (onLevel : Bool) (target : Vec2)
    (currentX targetX : Int) (hns : ap.Stuck = false) :
    (steerStep ap m onLevel target currentX targetX).2.thrust =
      decide (m.Position.Y > target.Y ∧ ap.DontThrustForAwhile < 70) := by
  simp only [steerStep, hns, Bool.false_eq_true, if_false]
  by_cases hx : currentX = targetX
  · by_cases hw : ap.WaitToLoad - 1 ≤ 0
    · simp [hx, hw]
    · simp [hx, hw]
  · by_cases hw : ap.WaitToLoad ≤ 0
    · simp [hx, hw]
    · simp [hx, hw]

/-- Stuck detection does not read `TimeSinceLastThrust`. -/
theorem stuckStep_stuck_timer (ap : AutoPilot) (v : Int) (onLevel : Bool) (currentY : Int)
    (target : Vec2) :
    (stuckStep { ap with TimeSinceLastThrust := v } onLevel currentY target).Stuck =
      (stuckStep ap onLevel currentY target).Stuck := by
  simp only [stuckStep]
  split_ifs <;> rfl

/-- Stuck detection leaves the autopilot alone while the character is in the
air above height 550. -/
theorem stuckStep_airborne (ap : AutoPilot) (currentY : Int) (target : Vec2)
    (h : currentY < 550) : stuckStep ap false currentY target = ap := by
  simp [stuckStep, not_le.mpr h]

/-- The step `steerStep` takes when the controller is not stuck, is not over the
target column and still waits to load. -/
theorem steerStep_free (ap : AutoPilot) (m : Model) (onLevel : Bool) (target : Vec2)
    (currentX targetX : Int) (hns : ap.Stuck = false) (hx : currentX ≠ targetX)
    (hw : 0 < ap.WaitToLoad) :
    steerStep ap m onLevel target currentX targetX =
      (ap, { left := decide (currentX > targetX), right := decide (currentX < targetX),
             thrust := decide (m.Position.Y > target.Y ∧ ap.DontThrustForAwhile < 70) }) := by
  simp only [steerStep, hns, Bool.false_eq_true, if_false, if_neg hx, if_neg (not_le.mpr hw)]

/-- The control step completes on a rectangular map with a screen table that is
not empty. -/
theorem control_isSome (cuddlyMap : List (List Int)) (hrect : Rectangular cuddlyMap)
    (demoScreens : List DemoScreen) (hne : demoScreens ≠ []) (g : Game) (inp : RawInput) :
    ∃ r, g.control cuddlyMap demoScreens inp = some r := by
  cases hk : inp.anyKey with
  | true => exact ⟨_, control_anyKey cuddlyMap demoScreens g inp hk⟩
  | false =>
    by_cases hpos : 1 < g.autoPilot.ActivateIn
    · exact ⟨_, control_raw cuddlyMap demoScreens g inp hk hpos⟩
    · obtain ⟨r, hr⟩ := autoPilotMovement_isSome cuddlyMap hrect demoScreens hne
        { g with autoPilot := { g.autoPilot with ActivateIn := g.autoPilot.ActivateIn - 1 } }
        inp.rnd
      rw [control_auto cuddlyMap demoScreens g inp hk (by omega), hr]
      exact ⟨_, rfl⟩

/-- An update tick completes on a rectangular map with a screen table that is
not empty. -/
theorem update_isSome (cuddlyMap : List (List Int)) (hrect : Rectangular cuddlyMap)
    (demoScreens : List DemoScreen) (hne : demoScreens ≠ []) (g : Game) (inp : RawInput) :
    ∃ g1, g.Update cuddlyMap demoScreens inp = some g1 := by
  unfold Game.Update
  simp only
  generalize (if inp.resetKey = true then g.Reset else g) = g0
  by_cases hl : g0.loading.Active = true
  · rw [if_pos hl]
    exact ⟨_, rfl⟩
  · rw [if_neg hl]
    obtain ⟨r, hr⟩ := control_isSome cuddlyMap hrect demoScreens hne g0 inp
    obtain ⟨g3, hg3⟩ := integrate_isSome cuddlyMap hrect r.1 r.2.1.left r.2.1.right r.2.1.thrust
    rw [hr]
    simp only [Option.bind_eq_bind, Option.some_bind]
    rw [hg3]
    exact ⟨_, rfl⟩

/-- Every run of update ticks completes on a rectangular map with a screen
table that is not empty. -/
theorem updateAll_isSome (cuddlyMap : List (List Int)) (hrect : Rectangular cuddlyMap)
    (demoScreens : List DemoScreen) (hne : demoScreens ≠ []) (inps : List RawInput) (g : Game) :
    ∃ g1, updateAll cuddlyMap demoScreens inps g = some g1 := by
  induction inps generalizing g with
  | nil => exact ⟨g, rfl⟩
  | cons i rest ih =>
    obtain ⟨g2, hu⟩ := update_isSome cuddlyMap hrect demoScreens hne g i
    obtain ⟨g1, hg1⟩ := ih g2
    exact ⟨g1, by simp only [updateAll, hu, Option.bind_eq_bind, Option.some_bind, hg1]⟩

/-! ## The screen index of the autopilot: facts -/

theorem stuckStep_nextScreen (ap : AutoPilot) (onLevel : Bool) (currentY : Int) (target : Vec2) :
    (stuckStep ap onLevel currentY target).NextScreen = ap.NextScreen := by
  simp only [stuckStep]
  split_ifs <;> rfl

theorem steerStep_nextScreen (ap : AutoPilot) (m : Model) (onLevel : Bool) (target : Vec2)
    (currentX targetX : Int) :
    (steerStep ap m onLevel target currentX targetX).1.NextScreen = ap.NextScreen := by
  simp only [steerStep]
  split_ifs <;> simp

theorem timerStep_nextScreen (ap : AutoPilot) (rnd : Int) :
    (timerStep ap rnd).NextScreen = ap.NextScreen := by
  simp only [timerStep]
  split_ifs <;> simp

theorem autoPilotMovement_nextScreen (cuddlyMap : List (List Int))
    (demoScreens : List DemoScreen) (g : Game) (rnd : Int) (r : Game × movement)
    (h : autoPilotMovement cuddlyMap demoScreens g rnd = some r) :
    r.1.autoPilot.NextScreen = g.autoPilot.NextScreen := by
  obtain ⟨target, onLevel, -, -, rfl⟩ := autoPilotMovement_eq_some _ _ _ _ _ h
  show (timerStep _ rnd).NextScreen = _
  rw [timerStep_nextScreen, steerStep_nextScreen, stuckStep_nextScreen]

theorem control_nextScreen (cuddlyMap : List (List Int)) (demoScreens : List DemoScreen)
    (g : Game) (inp : RawInput) (r : Game × movement × Bool)
    (h : g.control cuddlyMap demoScreens inp = some r) :
    r.1.autoPilot.NextScreen = g.autoPilot.NextScreen := by
  cases hk : inp.anyKey with
  | true =>
    rw [control_anyKey cuddlyMap demoScreens g inp hk] at h
    obtain rfl := Option.some.inj h
    rfl
  | false =>
    by_cases hpos : 1 < g.autoPilot.ActivateIn
    · rw [control_raw cuddlyMap demoScreens g inp hk hpos] at h
      obtain rfl := Option.some.inj h
      rfl
    · rw [control_auto cuddlyMap demoScreens g inp hk (by omega)] at h
      cases ha : autoPilotMovement cuddlyMap demoScreens
          { g with autoPilot := { g.autoPilot with ActivateIn := g.autoPilot.ActivateIn - 1 } }
          inp.rnd with
      | none => simp [ha] at h
      | some r1 =>
        rw [ha] at h
        simp only [Option.map_some', Option.some.injEq] at h
        rw [← h]
        exact autoPilotMovement_nextScreen cuddlyMap demoScreens
          { g with autoPilot := { g.autoPilot with ActivateIn := g.autoPilot.ActivateIn - 1 } }
          inp.rnd r1 ha

theorem integrate_autoPilot (cuddlyMap : List (List Int)) (g g1 : Game)
    (left right thrust : Bool) (h : integrate cuddlyMap g left right thrust = some g1) :
    g1.autoPilot = g.autoPilot ∧ g1.loading = g.loading ∧ g1.simTime = g.simTime ∧
    g1.carebearTime = g.carebearTime ∧ g1.mapLevel = g.mapLevel := by
  obtain ⟨m, -, e⟩ := integrate_eq_some cuddlyMap g g1 left right thrust h
  rw [e]
  simp only [and_self]

theorem advanceAutoPilot_inv (demoScreens : List DemoScreen) (hlen : 2 ≤ demoScreens.length)
    (g : Game) (h0 : 0 ≤ g.autoPilot.NextScreen) :
    NextScreenInv demoScreens (g.advanceAutoPilot demoScreens) := by
  unfold NextScreenInv Game.advanceAutoPilot
  simp only
  split_ifs <;> omega

theorem handleLoad_inv (demoScreens : List DemoScreen) (hlen : 2 ≤ demoScreens.length)
    (g : Game) (load : Bool) (h : NextScreenInv demoScreens g) :
    NextScreenInv demoScreens (g.handleLoad demoScreens load) := by
  unfold Game.handleLoad
  split_ifs
  · exact h
  · simp only
    split
    · exact advanceAutoPilot_inv demoScreens hlen _ h.1
    · exact h

theorem updateLoading_nextScreen (g : Game) :
    g.updateLoading.autoPilot.NextScreen = g.autoPilot.NextScreen := by
  unfold Game.updateLoading
  simp only
  split_ifs <;> rfl

theorem update_inv (cuddlyMap : List (List Int)) (demoScreens : List DemoScreen)
    (hlen : 2 ≤ demoScreens.length) (g g1 : Game) (inp : RawInput)
    (h : NextScreenInv demoScreens g) (hu : g.Update cuddlyMap demoScreens inp = some g1) :
    NextScreenInv demoScreens g1 := by
  unfold Game.Update at hu
  simp only at hu
  have h0 : NextScreenInv demoScreens (if inp.resetKey = true then g.Reset else g) := by
    split_ifs
    · constructor
      · exact le_refl 0
      · show (0 : Int) ≤ (demoScreens.length : Int) - 2
        omega
    · exact h
  generalize (if inp.resetKey = true then g.Reset else g) = gr at hu h0
  by_cases hl : gr.loading.Active = true
  · rw [if_pos hl] at hu
    obtain rfl := Option.some.inj hu
    unfold NextScreenInv
    rw [updateLoading_nextScreen]
    exact h0
  · rw [if_neg hl] at hu
    cases hc : gr.control cuddlyMap demoScreens inp with
    | none => simp [hc] at hu
    | some r =>
      rw [hc] at hu
      simp only [Option.bind_eq_bind, Option.some_bind] at hu
      cases hi : integrate cuddlyMap r.1 r.2.1.left r.2.1.right r.2.1.thrust with
      | none => simp [hi] at hu
      | some g3 =>
        rw [hi] at hu
        simp only [Option.some_bind, Option.pure_def, Option.some.injEq] at hu
        rw [← hu]
        apply handleLoad_inv demoScreens hlen
        have e1 := control_nextScreen _ _ _ _ _ hc
        have e2 := (integrate_autoPilot _ _ _ _ _ _ hi).1
        unfold NextScreenInv at h0 ⊢
        show 0 ≤ g3.autoPilot.NextScreen ∧ g3.autoPilot.NextScreen ≤ _
        rw [e2, e1]
        exact h0

theorem updateAll_inv (cuddlyMap : List (List Int)) (demoScreens : List DemoScreen)
    (hlen : 2 ≤ demoScreens.length) (inps : List RawInput) (g g1 : Game)
    (h : NextScreenInv demoScreens g) (hu : updateAll cuddlyMap demoScreens inps g = some g1) :
    NextScreenInv demoScreens g1 := by
  induction inps generalizing g with
  | nil =>
    simp only [updateAll, Option.some.injEq] at hu
    rw [← hu]
    exact h
  | cons i rest ih =>
    simp only [updateAll, Option.bind_eq_bind] at hu
    cases h1 : g.Update cuddlyMap demoScreens i with
    | none => simp [h1] at hu
    | some g2 =>
      rw [h1, Option.some_bind] at hu
      exact ih g2 (update_inv cuddlyMap demoScreens hlen g g2 i h h1) hu

/-! ## The loader: facts -/

/-- The floor of a quotient by a positive integer, from the floor of the
dividend. -/
theorem floor_div_pos (q : ℚ) (n : Int) (hn : 0 < n) : ⌊q / (n : ℚ)⌋ = ⌊q⌋ / n := by
  have hnq : (0 : ℚ) < (n : ℚ) := by exact_mod_cast hn
  rw [Int.floor_eq_iff]
  have h1 : ((⌊q⌋ : Int) : ℚ) ≤ q := Int.floor_le q
  have h2 : q < ((⌊q⌋ : Int) : ℚ) + 1 := Int.lt_floor_add_one q
  have h3 : n * (⌊q⌋ / n) ≤ ⌊q⌋ := Int.mul_ediv_self_le (ne_of_gt hn)
  have h4 : ⌊q⌋ < n * (⌊q⌋ / n) + n := Int.lt_mul_ediv_self_add hn
  have h3q : (n : ℚ) * ((⌊q⌋ / n : Int) : ℚ) ≤ ((⌊q⌋ : Int) : ℚ) := by exact_mod_cast h3
  have h4q : ((⌊q⌋ : Int) : ℚ) + 1 ≤ (n : ℚ) * ((⌊q⌋ / n : Int) : ℚ) + (n : ℚ) := by
    exact_mod_cast h4
  constructor
  · rw [le_div_iff₀ hnq]
    linarith
  · rw [div_lt_iff₀ hnq]
    have e : (((⌊q⌋ / n : Int) : ℚ) + 1) * (n : ℚ) =
        (n : ℚ) * ((⌊q⌋ / n : Int) : ℚ) + (n : ℚ) := by ring
    rw [e]
    linarith

/-- The tile coordinate `handleLoad` computes, for a coordinate that is not
negative. -/
theorem toInt_tdiv_tileSize (q : ℚ) (h : 0 ≤ q) : (toInt q).tdiv tileSize = ⌊q / 32⌋ := by
  have h0 : 0 ≤ ⌊q⌋ := Int.floor_nonneg.mpr h
  rw [toInt_of_nonneg q h, Int.tdiv_eq_ediv h0 (by decide)]
  have := floor_div_pos q 32 (by decide)
  simp only [Int.cast_ofNat] at this
  rw [this]
  rfl

/-- The door test of `handleLoad` is the box of 4 columns by 3 rows. -/
theorem door_test_iff (d : DemoScreen) (pX pY : Int) :
    decide (pX ≥ d.X ∧ pX ≤ d.X + 3 ∧ pY ≥ d.Y ∧ pY < d.Y + 3) = true ↔ InDoorBox d pX pY := by
  unfold InDoorBox
  rw [decide_eq_true_iff]
  constructor
  · rintro ⟨a, b, c, e⟩
    exact ⟨a, by omega, c, e⟩
  · rintro ⟨a, b, c, e⟩
    exact ⟨a, by omega, c, e⟩

theorem startLoading_loading (demoScreens : List DemoScreen) (g : Game) (name : String) :
    (g.startLoading demoScreens name).loading = { Active := true, ScreenName := name, Timer := 120 } ∧
    (g.startLoading demoScreens name).model = g.model ∧
    (g.startLoading demoScreens name).simTime = g.simTime ∧
    (g.startLoading demoScreens name).carebearTime = g.carebearTime ∧
    (g.startLoading demoScreens name).autoPilot.ActivateIn = g.autoPilot.ActivateIn ∧
    (g.startLoading demoScreens name).autoPilot.NowLoadScreen = false ∧
    (g.startLoading demoScreens name).autoPilot.WaitToLoad = 80 :=
  ⟨rfl, rfl, rfl, rfl, rfl, rfl, rfl⟩

/-- The door test of `handleLoad`, as a function of the door. -/
theorem handleLoad_cases (demoScreens : List DemoScreen) (g : Game)
    (hl : g.loading.Active = false) :
    (∀ t, demoScreens.find? (fun t =>
        decide ((toInt g.model.Position.X).tdiv tileSize ≥ t.X ∧
          (toInt g.model.Position.X).tdiv tileSize ≤ t.X + 3 ∧
          (toInt g.model.Position.Y).tdiv tileSize ≥ t.Y ∧
          (toInt g.model.Position.Y).tdiv tileSize < t.Y + 3)) = some t →
      g.handleLoad demoScreens true = g.startLoading demoScreens t.Name) ∧
    (demoScreens.find? (fun t =>
        decide ((toInt g.model.Position.X).tdiv tileSize ≥ t.X ∧
          (toInt g.model.Position.X).tdiv tileSize ≤ t.X + 3 ∧
          (toInt g.model.Position.Y).tdiv tileSize ≥ t.Y ∧
          (toInt g.model.Position.Y).tdiv tileSize < t.Y + 3)) = none →
      g.handleLoad demoScreens true = g) := by
  constructor
  · intro t ht
    simp only [Game.handleLoad, hl, Bool.not_true, Bool.false_eq_true, or_self, if_false, ht]
  · intro ht
    simp only [Game.handleLoad, hl, Bool.not_true, Bool.false_eq_true, or_self, if_false, ht]

theorem handleLoad_idle (demoScreens : List DemoScreen) (g : Game) (load : Bool)
    (h : load = false ∨ g.loading.Active = true) : g.handleLoad demoScreens load = g := by
  rcases h with h | h
  · simp [Game.handleLoad, h]
  · simp [Game.handleLoad, h]

/-- A tick while the loader is active and the reset key is up is
`updateLoading`. -/
theorem update_loading (cuddlyMap : List (List Int)) (demoScreens : List DemoScreen) (g : Game)
    (inp : RawInput) (hr : inp.resetKey = false) (hl : g.loading.Active = true) :
    g.Update cuddlyMap demoScreens inp = some g.updateLoading := by
  simp only [Game.Update, hr, Bool.false_eq_true, if_false, hl, if_true]

/-- What `updateLoading` leaves alone, and what it does to the loader. -/
theorem updateLoading_eq (g : Game) :
    g.updateLoading.model = g.model ∧ g.updateLoading.simTime = g.simTime ∧
    g.updateLoading.carebearTime = g.carebearTime ∧
    g.updateLoading.autoPilot.ActivateIn = g.autoPilot.ActivateIn ∧
    g.updateLoading.loading.Timer = g.loading.Timer - 1 ∧
    (1 < g.loading.Timer → g.updateLoading.loading.Active = g.loading.Active) ∧
    (g.loading.Timer ≤ 1 → g.updateLoading.loading.Active = false ∧
      g.updateLoading.autoPilot.NowLoadScreen = false ∧
      g.updateLoading.autoPilot.WaitToLoad = 80) := by
  unfold Game.updateLoading
  simp only
  by_cases h : g.loading.Timer - 1 > 0
  · rw [if_pos h]
    refine ⟨rfl, rfl, rfl, rfl, rfl, fun _ => rfl, fun h1 => ?_⟩
    omega
  · rw [if_neg h]
    refine ⟨rfl, rfl, rfl, rfl, rfl, fun h1 => ?_, fun _ => ⟨rfl, rfl, rfl⟩⟩
    omega

/-- The ticks of an active loader: nothing but the loader's timer changes
while the timer stays above the number of ticks. -/
theorem loading_run (cuddlyMap : List (List Int)) (demoScreens : List DemoScreen)
    (inps : List RawInput) (g : Game) (hr : ∀ i ∈ inps, i.resetKey = false)
    (hl : g.loading.Active = true) (ht : (inps.length : Int) < g.loading.Timer) :
    ∃ g1, updateAll cuddlyMap demoScreens inps g = some g1 ∧ g1.model = g.model ∧
      g1.simTime = g.simTime ∧ g1.carebearTime = g.carebearTime ∧
      g1.autoPilot.ActivateIn = g.autoPilot.ActivateIn ∧ g1.loading.Active = true ∧
      g1.loading.Timer = g.loading.Timer - (inps.length : Int) := by
  induction inps generalizing g with
  | nil => exact ⟨g, rfl, rfl, rfl, rfl, rfl, hl, by simp⟩
  | cons i rest ih =>
    simp only [List.length_cons, Nat.cast_add, Nat.cast_one] at ht
    obtain ⟨e1, e2, e3, e4, e5, e6, -⟩ := updateLoading_eq g
    have hu := update_loading cuddlyMap demoScreens g i (hr i (List.mem_cons_self i rest)) hl
    obtain ⟨g1, r1, r2, r3, r4, r5, r6, r7⟩ := ih g.updateLoading
      (fun a ha => hr a (List.mem_cons_of_mem i ha)) (by rw [e6 (by omega)]; exact hl)
      (by rw [e5]; omega)
    refine ⟨g1, ?_, by rw [r2, e1], by rw [r3, e2], by rw [r4, e3], by rw [r5, e4], r6, ?_⟩
    · simp only [updateAll, hu, Option.bind_eq_bind, Option.some_bind, r1]
    · rw [r7, e5]
      simp only [List.length_cons, Nat.cast_add, Nat.cast_one]
      omega

/-! ## The render path: facts -/

theorem mathRound_intCast (x : Int) : mathRound (x : ℚ) = (x : ℚ) := by
  unfold mathRound
  split_ifs with h
  · have : ⌊(x : ℚ) + 1 / 2⌋ = x := by
      rw [Int.floor_eq_iff]
      constructor <;> linarith
    rw [this]
  · have : ⌊-(x : ℚ) + 1 / 2⌋ = -x := by
      rw [Int.floor_eq_iff]
      push_cast
      constructor <;> linarith
    rw [this]
    push_cast
    ring

/-- `Animation.Current` returns a value. -/
theorem current_isSome (a : Animation) (t : ℚ) : ∃ v, a.Current t = some v := by
  by_cases hne : a.Indices = []
  · exact ⟨0, by simp [Animation.Current, hne]⟩
  · have hlen : 0 < a.Indices.length := List.length_pos.mpr hne
    have hlen0 : a.Indices.length ≠ 0 := by omega
    by_cases hd : a.Duration ≤ 0
    · obtain ⟨v, hv, -, -⟩ := goIndex_of_lt a.Indices 0 le_rfl (by omega)
      exact ⟨v, by simp only [Animation.Current, hlen0, if_false, hd, if_true, hv]⟩
    · obtain ⟨r1, r2⟩ := framePos_range a t hne (not_le.mp hd)
      obtain ⟨v, hv, -, -⟩ := goIndex_of_lt a.Indices (a.framePos t) r1 (by omega)
      exact ⟨v, by simp only [Animation.Current, hlen0, if_false, hd, hv]⟩

/-- `calculateBounce` returns a value. -/
theorem calculateBounce_isSome (g : Game) : ∃ b, g.calculateBounce = some b := by
  by_cases h1 : bouncingAnimation.length = 0
  · exact ⟨0, by simp only [Game.calculateBounce, h1, if_true]⟩
  · by_cases h2 : (bouncingAnimation.length : Int) - g.model.BounceDisplacement - 1 < 0 ∨
        (bouncingAnimation.length : Int) - g.model.BounceDisplacement - 1 ≥
          (bouncingAnimation.length : Int)
    · exact ⟨0, by simp only [Game.calculateBounce, h1, if_false, h2, if_true]⟩
    · obtain ⟨v, hv, -, -⟩ := goIndex_of_lt bouncingAnimation
        ((bouncingAnimation.length : Int) - g.model.BounceDisplacement - 1) (by omega) (by omega)
      simp only [Game.calculateBounce, h1, if_false, h2, hv, Option.bind_eq_bind,
        Option.some_bind, Option.pure_def]
      exact ⟨_, rfl⟩

/-- The shape of a completed `calculateFrame` call. -/
theorem calculateFrame_eq_some (g : Game) (r : Game × Int) (h : g.calculateFrame = some r) :
    ((g.model.Thrusting = true ∨ g.model.Moving = false) → r.1 = g) ∧
    (g.model.Thrusting = false → g.model.Moving = true →
      r.1 = { g with model := { g.model with CurrentFrame := r.2 } } ∧
      (if g.model.Direction < 1 then g.animations.MoveLeft.Current g.simTime
        else g.animations.MoveRight.Current g.simTime) = some r.2) := by
  unfold Game.calculateFrame at h
  simp only at h
  by_cases ht : g.model.Thrusting = true
  · rw [if_pos ht] at h
    refine ⟨fun _ => ?_, fun hf => absurd ht (by simp [hf])⟩
    by_cases hdir : g.model.Direction < 1
    · rw [if_pos hdir] at h
      cases hc : g.animations.ThrustLeft.Current g.simTime with
      | none => simp [hc] at h
      | some v =>
        rw [hc] at h
        simp only [Option.bind_eq_bind, Option.some_bind, Option.pure_def,
          Option.some.injEq] at h
        rw [← h]
    · rw [if_neg hdir] at h
      cases hc : g.animations.ThrustRight.Current g.simTime with
      | none => simp [hc] at h
      | some v =>
        rw [hc] at h
        simp only [Option.bind_eq_bind, Option.some_bind, Option.pure_def,
          Option.some.injEq] at h
        rw [← h]
  · rw [if_neg ht] at h
    by_cases hm : g.model.Moving = true
    · rw [if_pos hm] at h
      refine ⟨fun ho => ?_, fun _ _ => ?_⟩
      · rcases ho with ho | ho
        · exact absurd ho ht
        · rw [hm] at ho
          exact absurd ho (by decide)
      · by_cases hdir : g.model.Direction < 1
        · rw [if_pos hdir] at h
          rw [if_pos hdir]
          cases hc : g.animations.MoveLeft.Current g.simTime with
          | none => simp [hc] at h
          | some v =>
            rw [hc] at h
            simp only [Option.bind_eq_bind, Option.some_bind, Option.pure_def,
              Option.some.injEq] at h
            rw [← h]
            exact ⟨rfl, rfl⟩
        · rw [if_neg hdir] at h
          rw [if_neg hdir]
          cases hc : g.animations.MoveRight.Current g.simTime with
          | none => simp [hc] at h
          | some v =>
            rw [hc] at h
            simp only [Option.bind_eq_bind, Option.some_bind, Option.pure_def,
              Option.some.injEq] at h
            rw [← h]
            exact ⟨rfl, rfl⟩
    · rw [if_neg hm] at h
      refine ⟨fun _ => ?_, fun _ hmt => absurd hmt hm⟩
      split_ifs at h
      · rw [← Option.some.inj h]
      · rw [← Option.some.inj h]

/-- `calculateFrame` returns a value. -/
theorem calculateFrame_isSome (g : Game) : ∃ r, g.calculateFrame = some r := by
  unfold Game.calculateFrame
  simp only
  by_cases ht : g.model.Thrusting = true
  · rw [if_pos ht]
    by_cases hdir : g.model.Direction < 1
    · rw [if_pos hdir]
      obtain ⟨v, hv⟩ := current_isSome g.animations.ThrustLeft g.simTime
      rw [hv]
      exact ⟨_, rfl⟩
    · rw [if_neg hdir]
      obtain ⟨v, hv⟩ := current_isSome g.animations.ThrustRight g.simTime
      rw [hv]
      exact ⟨_, rfl⟩
  · rw [if_neg ht]
    by_cases hm : g.model.Moving = true
    · rw [if_pos hm]
      by_cases hdir : g.model.Direction < 1
      · rw [if_pos hdir]
        obtain ⟨v, hv⟩ := current_isSome g.animations.MoveLeft g.simTime
        rw [hv]
        exact ⟨_, rfl⟩
      · rw [if_neg hdir]
        obtain ⟨v, hv⟩ := current_isSome g.animations.MoveRight g.simTime
        rw [hv]
        exact ⟨_, rfl⟩
    · rw [if_neg hm]
      split_ifs
      · exact ⟨_, rfl⟩
      · exact ⟨_, rfl⟩

/-- The camera of one axis: the screen position and the map offset add up to
the position, and on a map at least as large as the view the offset is inside
`[0, mapSize - gameSize]`. -/
theorem cameraAxis_spec (dudePos mapSize gameSize : Int) (hg : gameSize = 768 ∨ gameSize = 400) :
    (cameraAxis dudePos mapSize gameSize).1 + (cameraAxis dudePos mapSize gameSize).2 = dudePos ∧
    (gameSize ≤ mapSize → 0 ≤ (cameraAxis dudePos mapSize gameSize).2 ∧
      (cameraAxis dudePos mapSize gameSize).2 ≤ mapSize - gameSize) := by
  have hd : dudeSize.tdiv 2 = 32 := by decide
  have hgs : gameSize.tdiv 2 * 2 = gameSize := by
    rcases hg with h | h <;> rw [h] <;> decide
  unfold cameraAxis
  rw [hd]
  constructor
  · split_ifs <;> simp only <;> omega
  · intro hle
    split_ifs <;> simp only <;> omega

/-- A tile map drawn on a rectangular non-empty map with positive tile size:
the call completes and every blit is placed at its cell's pixel origin minus
the clamped offset. -/
theorem draw_positions (m : TileMap) (hrect : Rectangular m.Data) (hne : m.Data ≠ [])
    (hw : 0 < m.Tiles.TileW) (hh : 0 < m.Tiles.TileH)
    (offsetX offsetY dstX dstY viewW viewH ox oy : Int)
    (ho : m.clip offsetX offsetY viewW viewH = (ox, oy)) :
    ∃ blits, m.Draw offsetX offsetY dstX dstY viewW viewH = some blits ∧
      ∀ b ∈ blits, b.x = dstX + b.mapX * m.Tiles.TileW - ox ∧
        b.y = dstY + b.mapY * m.Tiles.TileH - oy := by
  have hlen : 0 < m.Data.length := List.length_pos.mpr hne
  have hlen0 : m.Data.length ≠ 0 := by omega
  obtain ⟨row0, hrow0, -, hget0⟩ := goIndex_of_lt m.Data 0 le_rfl (by omega)
  have hhead : m.Data.headD [] = row0 := by
    cases hd : m.Data with
    | nil => exact absurd hd hne
    | cons a t =>
      rw [hd] at hget0
      simpa using hget0
  have hz : ¬ (m.Tiles.TileW = 0 ∨ m.Tiles.TileH = 0) := by omega
  have hdraw : m.Draw offsetX offsetY dstX dstY viewW viewH =
      blitAll (m.blit (ox.tdiv m.Tiles.TileW) (oy.tdiv m.Tiles.TileH) (ox.tmod m.Tiles.TileW)
          (oy.tmod m.Tiles.TileH) dstX dstY)
        (TileMap.drawWindow (row0.length : Int) (m.Data.length : Int) (ox.tdiv m.Tiles.TileW)
          (oy.tdiv m.Tiles.TileH) (viewW.tdiv m.Tiles.TileW + 2)
          (viewH.tdiv m.Tiles.TileH + 2)) := by
    simp only [TileMap.Draw, hlen0, if_false, ho, hz, hrow0]
  obtain ⟨blits, hblits⟩ := blitAll_isSome
    (m.blit (ox.tdiv m.Tiles.TileW) (oy.tdiv m.Tiles.TileH) (ox.tmod m.Tiles.TileW)
      (oy.tmod m.Tiles.TileH) dstX dstY)
    (TileMap.drawWindow (row0.length : Int) (m.Data.length : Int) (ox.tdiv m.Tiles.TileW)
      (oy.tdiv m.Tiles.TileH) (viewW.tdiv m.Tiles.TileW + 2) (viewH.tdiv m.Tiles.TileH + 2)) (by
      rintro ⟨y, x⟩ hyx
      obtain ⟨⟨-, -, h3, h4⟩, ⟨-, -, h7, h8⟩⟩ := (mem_drawWindow _ _ _ _ _ _ y x).mp hyx
      exact blit_isSome m hrect _ _ _ _ _ _ (y, x) ⟨h3, h4⟩ ⟨h7, by rw [hhead]; exact h8⟩)
  refine ⟨blits, by rw [hdraw, hblits], ?_⟩
  intro b hb
  obtain ⟨yx, -, hyx⟩ := (blitAll_mem _ _ _ hblits b).mp hb
  obtain ⟨b1, b2, b3, b4, -⟩ := blit_eq_some m _ _ _ _ _ _ yx b hyx
  have ex := Int.tdiv_add_tmod ox m.Tiles.TileW
  have ey := Int.tdiv_add_tmod oy m.Tiles.TileH
  constructor
  · rw [b3, b2, add_mul]
    have : ox.tdiv m.Tiles.TileW * m.Tiles.TileW = m.Tiles.TileW * ox.tdiv m.Tiles.TileW :=
      mul_comm _ _
    omega
  · rw [b4, b1, add_mul]
    have : oy.tdiv m.Tiles.TileH * m.Tiles.TileH = m.Tiles.TileH * oy.tdiv m.Tiles.TileH :=
      mul_comm _ _
    omega

theorem control_model (cuddlyMap : List (List Int)) (demoScreens : List DemoScreen)
    (g : Game) (inp : RawInput) (r : Game × movement × Bool)
    (h : g.control cuddlyMap demoScreens inp = some r) : r.1.model = g.model := by
  cases hk : inp.anyKey with
  | true =>
    rw [control_anyKey cuddlyMap demoScreens g inp hk] at h
    obtain rfl := Option.some.inj h
    rfl
  | false =>
    by_cases hpos : 1 < g.autoPilot.ActivateIn
    · rw [control_raw cuddlyMap demoScreens g inp hk hpos] at h
      obtain rfl := Option.some.inj h
      rfl
    · rw [control_auto cuddlyMap demoScreens g inp hk (by omega)] at h
      cases ha : autoPilotMovement cuddlyMap demoScreens
          { g with autoPilot := { g.autoPilot with ActivateIn := g.autoPilot.ActivateIn - 1 } }
          inp.rnd with
      | none => simp [ha] at h
      | some r1 =>
        rw [ha] at h
        simp only [Option.map_some', Option.some.injEq] at h
        rw [← h]
        exact (autoPilotMovement_frame cuddlyMap demoScreens
          { g with autoPilot := { g.autoPilot with ActivateIn := g.autoPilot.ActivateIn - 1 } }
          inp.rnd r1 ha).2.2.1

theorem handleLoad_model (demoScreens : List DemoScreen) (g : Game) (load : Bool) :
    (g.handleLoad demoScreens load).model = g.model := by
  unfold Game.handleLoad
  split_ifs
  · rfl
  · simp only
    split
    · rfl
    · rfl

/-- The clamp of `TileMap.clip` returns an offset inside its bounds unchanged. -/
theorem clip_id (m : TileMap) (ox oy viewW viewH : Int) (hx0 : 0 ≤ ox)
    (hx1 : ox ≤ m.WidthPx - viewW) (hy0 : 0 ≤ oy) (hy1 : oy ≤ m.HeightPx - viewH) :
    m.clip ox oy viewW viewH = (ox, oy) := by
  simp only [TileMap.clip, Prod.mk.injEq]
  constructor <;> split_ifs <;> omega

/-! ## The choreography index: facts -/

/-- The value of `animation` at a time that is not negative, in exact
arithmetic. -/
theorem animation_eq (t : ℚ) (ht : 0 ≤ t) :
    SineSprites.animation t = ⌊fmod t 70 / 10⌋ ∧ 0 ≤ ⌊fmod t 70 / 10⌋ ∧
      ⌊fmod t 70 / 10⌋ ≤ 6 ∧ ⌊fmod t 70 / 10⌋ = ⌊t / 10⌋ % 7 := by
  have h0 : 0 ≤ fmod t 70 := fmod_nonneg t 70 (by norm_num)
  have h1 : fmod t 70 < 70 := fmod_lt t 70 (by norm_num)
  have hf0 : 0 ≤ ⌊fmod t 70 / 10⌋ := Int.floor_nonneg.mpr (div_nonneg h0 (by norm_num))
  have hf6 : ⌊fmod t 70 / 10⌋ ≤ 6 := by
    have : ⌊fmod t 70 / 10⌋ < 7 := by
      rw [Int.floor_lt]
      rw [div_lt_iff₀ (by norm_num)]
      norm_num
      exact h1
    omega
  have hcycle : animationDuration + scrollDuration * 2 = 10 := by
    unfold animationDuration scrollDuration
    norm_num
  have hmax : ((animationCount : Int) : ℚ) * 10 = 70 := by
    unfold animationCount
    norm_num
  have ht1 : (if t ≥ (70 : ℚ) then mathMod t 70 else t) = fmod t 70 := by
    split_ifs with hge
    · exact mathMod_eq_fmod t 70 ht (by norm_num)
    · unfold fmod
      have : ⌊t / 70⌋ = 0 := by
        rw [Int.floor_eq_iff]
        constructor
        · simpa using div_nonneg ht (by norm_num : (0 : ℚ) ≤ 70)
        · rw [div_lt_iff₀ (by norm_num)]
          push_neg at hge
          simpa using hge
      rw [this]
      simp
  refine ⟨?_, hf0, hf6, ?_⟩
  · unfold SineSprites.animation
    simp only [hmax, hcycle, ht1]
    have e : fmod t 70 + scrollDuration - scrollDuration = fmod t 70 := by ring
    rw [e]
    unfold mathFloor
    rw [toInt_intCast]
    have : (7 : Int) = animationCount := rfl
    rw [← this, Int.tmod_eq_emod hf0 (by norm_num)]
    exact Int.emod_eq_of_lt hf0 (by omega)
  · have e : fmod t 70 / 10 = t / 10 - ((7 * ⌊t / 70⌋ : Int) : ℚ) := by
      unfold fmod
      push_cast
      ring
    rw [e, Int.floor_sub_int]
    have e2 : t / 70 = t / 10 / ((7 : Int) : ℚ) := by
      push_cast
      ring
    rw [e2, floor_div_pos (t / 10) 7 (by norm_num), Int.emod_def]

/-! ## The scroller row: facts -/

/-- The loop of `BuildScrollMap` on a text without newlines: the result so far
followed by the run of every character. -/
theorem buildScrollMap_loop (w : List Int) (hne : w ≠ []) (l : List Char) (acc : List Int)
    (hl : ∀ c ∈ l, ¬IsNewline c) :
    BuildScrollMap.loop w l acc = some (acc ++ l.flatMap (glyphRun w)) := by
  have hlen : 0 < w.length := List.length_pos.mpr hne
  induction l generalizing acc with
  | nil => simp [BuildScrollMap.loop]
  | cons c rest ih =>
    have hc : ¬IsNewline c := hl c (List.mem_cons_self c rest)
    have hidx : 0 ≤ glyphIndex w c ∧ glyphIndex w c < (w.length : Int) := by
      unfold glyphIndex
      split_ifs with h
      · exact ⟨le_refl 0, by omega⟩
      · omega
    obtain ⟨v, hv, -, hget⟩ := goIndex_of_lt w (glyphIndex w c) hidx.1 hidx.2
    have hv1 : goIndex w (if (c.toNat : Int) - 32 < 0 ∨ (c.toNat : Int) - 32 ≥ (w.length : Int)
        then 0 else (c.toNat : Int) - 32) = some v := hv
    have hrun : glyphRun w c = scrollRun (glyphIndex w c) v := by
      unfold glyphRun glyphWidth scrollRun
      rw [if_neg hc]
      simp only [List.getD_eq_getElem?_getD, hget, Option.getD_some]
      apply List.map_congr_left
      intro j _
      ring
    simp only [BuildScrollMap.loop, hv1]
    rw [ih (acc ++ scrollRun _ v) (fun a ha => hl a (List.mem_cons_of_mem c ha))]
    rw [List.flatMap_cons, hrun, List.append_assoc]
    rfl

/-- The runs of the newline characters are empty, so stripping them changes
nothing. -/
theorem flatMap_glyphRun_filter (w : List Int) (text : List Char) :
    (text.filter fun r => !decide (r.toNat = 10 ∨ r.toNat = 13)).flatMap (glyphRun w) =
      text.flatMap (glyphRun w) := by
  induction text with
  | nil => rfl
  | cons c rest ih =>
    by_cases hc : c.toNat = 10 ∨ c.toNat = 13
    · have : glyphRun w c = [] := by
        unfold glyphRun
        rw [if_pos (show IsNewline c from hc)]
      simp only [List.filter_cons, hc, decide_True, Bool.not_true, Bool.false_eq_true, if_false,
        List.flatMap_cons, this, List.nil_append, ih]
    · simp only [List.filter_cons, hc, decide_False, Bool.not_false, if_true, List.flatMap_cons,
        ih]

/-- `BuildScrollMap` on a table that is not empty: the runs of the characters
of the text, in order. -/
theorem buildScrollMap_eq (w : List Int) (hne : w ≠ []) (text : List Char) :
    BuildScrollMap w text = some (text.flatMap (glyphRun w)) := by
  unfold BuildScrollMap
  simp only
  rw [buildScrollMap_loop w hne _ [] (by
    intro c hc
    have := (List.mem_filter.mp hc).2
    simpa [IsNewline] using this)]
  rw [List.nil_append, flatMap_glyphRun_filter]

theorem length_glyphRun (w : List Int) (c : Char) :
    (glyphRun w c).length = if IsNewline c then 0 else (glyphWidth w c).toNat := by
  unfold glyphRun
  split_ifs <;> simp

/-! ## The claims -/

/-- C1: after one call of `integrate`, from every state and with every input,
`Position.X` lies in `[288, 14560]`, and when the level map (built by
`NewTileMap` from the map table) has at least 3 rows `Position.Y` lies in
`[0, HeightPx - 28 - 64]`; on a rectangular map table the call completes. -/
theorem integrate_position_bounds (cuddlyMap : List (List Int)) (g : Game)
    (left right thrust : Bool) :
    (Rectangular cuddlyMap → ∃ g1, integrate cuddlyMap g left right thrust = some g1) ∧
    ∀ g1, integrate cuddlyMap g left right thrust = some g1 →
      ((288 : ℚ) ≤ g1.model.Position.X ∧ g1.model.Position.X ≤ 14560) ∧
      (g.mapLevel = NewTileMap cuddlyMap mapTiles → 3 ≤ cuddlyMap.length →
        (0 : ℚ) ≤ g1.model.Position.Y ∧
          g1.model.Position.Y ≤ ((g.mapLevel.HeightPx - 28 - 64 : ℤ) : ℚ)) := by
  refine ⟨fun hrect => integrate_isSome cuddlyMap hrect g left right thrust, ?_⟩
  intro g1 h
  obtain ⟨m, -, rfl⟩ := integrate_eq_some cuddlyMap g g1 left right thrust h
  refine ⟨clampStep_X _ _ _, ?_⟩
  intro hmap hrows
  have hH : 92 ≤ g.mapLevel.HeightPx := by
    rw [hmap]
    simp only [NewTileMap, mapTiles, tileSize]
    omega
  exact clampStep_Y _ _ _ hH

/-- Witness of C1: one tick of the test game with left and thrust pressed. -/
theorem integrate_position_bounds_witness :
    ∃ g1, integrate demoMap demoGame true false true = some g1 ∧
      ((288 : ℚ) ≤ g1.model.Position.X ∧ g1.model.Position.X ≤ 14560) ∧
      ((0 : ℚ) ≤ g1.model.Position.Y ∧
        g1.model.Position.Y ≤ ((demoGame.mapLevel.HeightPx - 28 - 64 : ℤ) : ℚ)) := by
  obtain ⟨g1, hg1⟩ := (integrate_position_bounds demoMap demoGame true false true).1 (by decide)
  have hb := (integrate_position_bounds demoMap demoGame true false true).2 g1 hg1
  exact ⟨g1, hg1, hb.1, hb.2 rfl (by decide)⟩

/-- C2: from a state at rest (thrust speed 0, ceiling cooldown 0, falling
speed not negative, position inside the playable bounds) on a rectangular
map, for every `N` the `N`-th tick without input completes, `Position.X`
after it is the initial one, `Position.Y` does not decrease over the next
tick, and if the next tick leaves `Position.Y` unchanged then `Position.Y`
has that value after every later tick. -/
theorem idle_fall_monotone (cuddlyMap : List (List Int)) (hrect : Rectangular cuddlyMap)
    (g : Game) (hTS : g.model.ThrustSpeed = 0) (hoff : g.thrustOff = 0)
    (hFS : 0 ≤ g.model.FallingSpeed)
    (hX : (288 : ℚ) ≤ g.model.Position.X ∧ g.model.Position.X ≤ 14560)
    (hY : 0 ≤ g.model.Position.Y ∧ g.model.Position.Y ≤ floorBound g) (N : ℕ) :
    ∃ a b, idleTicks cuddlyMap N g = some a ∧ idleTicks cuddlyMap (N + 1) g = some b ∧
      a.model.Position.X = g.model.Position.X ∧
      a.model.Position.Y ≤ b.model.Position.Y ∧
      (b.model.Position.Y = a.model.Position.Y →
        ∀ M, N ≤ M → ∃ c, idleTicks cuddlyMap M g = some c ∧
          c.model.Position.Y = a.model.Position.Y) := by
  have hrest : AtRest g := ⟨hTS, hoff, hX.1, hX.2, hY.1⟩
  obtain ⟨a, ha, r1, r2, r3, r4, r5⟩ := idleTicks_rest cuddlyMap hrect g hrest hY.2 hFS N
  obtain ⟨b, hb⟩ := integrate_isSome cuddlyMap hrect a false false false
  obtain ⟨-, -, -, -, -, s6, s7⟩ := idle_tick_monotone cuddlyMap hrect a b r1 r2 r3 hb
  refine ⟨a, b, ha, by rw [idleTicks_succ cuddlyMap N g a ha, hb], r5, s6, ?_⟩
  intro hsame M hM
  obtain ⟨d, rfl⟩ : ∃ d, M = N + d := ⟨M - N, by omega⟩
  obtain ⟨c, hc, -, -, hpos⟩ := idleTicks_stable cuddlyMap hrect g a N ha r1 r2 (s7 hsame) d
  exact ⟨c, hc, by rw [hpos]⟩

/-- Witness of C2: the test game in its Reset state, at tick 5. -/
theorem idle_fall_monotone_witness :
    ∃ a b, idleTicks demoMap 5 demoGame = some a ∧ idleTicks demoMap (5 + 1) demoGame = some b ∧
      a.model.Position.X = demoGame.model.Position.X ∧
      a.model.Position.Y ≤ b.model.Position.Y ∧
      (b.model.Position.Y = a.model.Position.Y →
        ∀ M, 5 ≤ M → ∃ c, idleTicks demoMap M demoGame = some c ∧
          c.model.Position.Y = a.model.Position.Y) :=
  idle_fall_monotone demoMap (by decide) demoGame rfl rfl (by decide)
    (by with_unfolding_all decide) (by with_unfolding_all decide) 5

/-- C3, as stated, fails left of the playable band: on `ledgeMap` the
character at rest at `(0, 0)` is above the landing position `(0, 32)`; the
first tick records a landing on the ledge (`JustLanded` 1, counter 13) and
then the clamp moves `X` to 288, off the ledge, so the second tick clears
`JustLanded` again instead of keeping it at 1. -/
theorem idle_landing_counterexample :
    (ledgeGame.model.ThrustSpeed = 0 ∧ ledgeGame.model.JustLanded = 0 ∧
      ledgeGame.model.BounceDisplacement = 0 ∧ ledgeGame.thrustOff = 0 ∧
      ledgeGame.model.Position = { X := 0, Y := 0 } ∧
      haveLanded ledgeMap (ledgeGame.model.at 0 32) = some true) ∧
    (idleTicks ledgeMap 1 ledgeGame).map
      (fun a => (a.model.JustLanded, a.model.BounceDisplacement, a.model.Position.X)) =
        some (1, 13, 288) ∧
    (idleTicks ledgeMap 2 ledgeGame).map (fun a => a.model.JustLanded) = some 0 := by
  refine ⟨⟨rfl, rfl, rfl, rfl, rfl, by decide⟩, by with_unfolding_all decide,
    by with_unfolding_all decide⟩

/-- C3, amended: on a rectangular map table, for a character at rest (thrust
speed 0, `JustLanded` 0, `BounceDisplacement` 0, ceiling cooldown 0) at an
integer position inside the playable band (`288 ≤ X ≤ 14560`, `Y ≥ 0`) above
a landing position, in the game whose level map is built from the table:
under ticks without input there is a tick `T ≥ 1` such that `JustLanded` is 0
before tick `T`, and `j` ticks after tick `T`, for every `j`, `JustLanded` is
1 and `BounceDisplacement` is `13 - j` while `j ≤ 13` and 0 afterwards, with
`13 = len(bouncingAnimation)`. -/
theorem idle_landing_bounce (cuddlyMap : List (List Int)) (hrect : Rectangular cuddlyMap)
    (g : Game) (hmap : g.mapLevel = NewTileMap cuddlyMap mapTiles)
    (hTS : g.model.ThrustSpeed = 0) (hJL : g.model.JustLanded = 0)
    (hBD : g.model.BounceDisplacement = 0) (hoff : g.thrustOff = 0) (X Y YL : ℤ)
    (hpos : g.model.Position = { X := (X : ℚ), Y := (Y : ℚ) })
    (hX : 288 ≤ X ∧ X ≤ 14560) (hY : 0 ≤ Y) (habove : Y < YL)
    (hland : haveLanded cuddlyMap (g.model.at (X : ℚ) (YL : ℚ)) = some true) :
    ∃ T : ℕ, 0 < T ∧
      (∀ n, n < T → ∃ a, idleTicks cuddlyMap n g = some a ∧ a.model.JustLanded = 0) ∧
      (∀ j : ℕ, ∃ a, idleTicks cuddlyMap (T + j) g = some a ∧ a.model.JustLanded = 1 ∧
        a.model.BounceDisplacement = max ((bouncingAnimation.length : ℤ) - (j : ℤ)) 0) ∧
      bouncingAnimation.length = 13 := by
  have hrest : AtRest g := by
    refine ⟨hTS, hoff, ?_, ?_, ?_⟩
    · rw [hpos]
      show (288 : ℚ) ≤ (X : ℚ)
      exact_mod_cast hX.1
    · rw [hpos]
      show (X : ℚ) ≤ 14560
      exact_mod_cast hX.2
    · rw [hpos]
      show (0 : ℚ) ≤ (Y : ℚ)
      exact_mod_cast hY
  have hf : Falling cuddlyMap g X Y YL := ⟨hrest, hmap, hJL, hBD, hpos, le_of_lt habove, hland⟩
  obtain ⟨T, hT1, hT2⟩ := falling_lands cuddlyMap hrect X YL _ g Y hf (Nat.lt_succ_self _)
  exact ⟨T + 1, Nat.succ_pos T, hT1, hT2, rfl⟩

/-- Witness of C3 (amended): the test game in its Reset state, at `(320, 450)`
above the landing position `(320, 512)`. -/
theorem idle_landing_bounce_witness :
    ∃ T : ℕ, 0 < T ∧
      (∀ n, n < T → ∃ a, idleTicks demoMap n demoGame = some a ∧ a.model.JustLanded = 0) ∧
      (∀ j : ℕ, ∃ a, idleTicks demoMap (T + j) demoGame = some a ∧ a.model.JustLanded = 1 ∧
        a.model.BounceDisplacement = max ((bouncingAnimation.length : ℤ) - (j : ℤ)) 0) ∧
      bouncingAnimation.length = 13 :=
  idle_landing_bounce demoMap (by decide) demoGame rfl rfl rfl rfl rfl 320 450 512
    (by simp [demoGame, NewGame, Game.Reset]) (by decide) (by decide) (by decide)
    (by with_unfolding_all decide)

/-- C4, as stated, fails in the last column of a map: on the one-column map
`narrowMap` at the pixel position `(0, 0)` row 2 holds the floor tile at
column 0, so the stated condition holds, and `haveLanded` answers `false`
because column 1 does not exist. -/
theorem haveLanded_last_column_counterexample :
    haveLanded narrowMap ((demoGame.model).at 0 0) = some false ∧ Rectangular narrowMap ∧
      LandingSpec narrowMap 0 0 :=
  ⟨by decide, by decide, rfl, [floorTile], rfl, Or.inl rfl⟩

/-- C4, amended: on a rectangular map, at a position with non-negative
integer coordinates `(X, Y)`, `haveLanded` completes and is true if and only
if the stated landing condition holds and column `X / 32 + 1` exists. -/
theorem haveLanded_iff_spec (cuddlyMap : List (List Int)) (hrect : Rectangular cuddlyMap)
    (m : Model) (X Y : ℕ) (hX : m.Position.X = (X : ℚ)) (hY : m.Position.Y = (Y : ℚ)) :
    ∃ b, haveLanded cuddlyMap m = some b ∧
      (b = true ↔ (LandingSpec cuddlyMap X Y ∧ X / 32 + 1 < (cuddlyMap.headD []).length)) := by
  obtain ⟨b, hb, hiff⟩ := haveLanded_rect cuddlyMap hrect m
  refine ⟨b, hb, hiff.trans ?_⟩
  have hx : ((X : ℤ)).tdiv tileSize = ((X / 32 : ℕ) : ℤ) := by
    rw [tileSize, Int.tdiv_eq_ediv (by omega) (by norm_num)]
    omega
  have hy : ((Y : ℤ)).tdiv tileSize = ((Y / 32 : ℕ) : ℤ) := by
    rw [tileSize, Int.tdiv_eq_ediv (by omega) (by norm_num)]
    omega
  have hmod : ((Y : ℤ)).tmod tileSize = 0 ↔ Y % 32 = 0 := by
    rw [tileSize, Int.tmod_eq_emod (by omega) (by norm_num)]
    omega
  have e1 : (((X / 32 : ℕ) : ℤ) + 1).toNat = X / 32 + 1 := by omega
  have e2 : (((X / 32 : ℕ) : ℤ) + 2).toNat = X / 32 + 2 := by omega
  have e3 : (((Y / 32 : ℕ) : ℤ) + 2).toNat = Y / 32 + 2 := by omega
  unfold LandCond LandingSpec
  rw [hX, hY, toInt_natCast, toInt_natCast, hx, hy, hmod, e1, e2, e3, Int.toNat_ofNat]
  constructor
  · rintro ⟨-, -, h3, h4, h5⟩
    exact ⟨⟨h4, h5⟩, by omega⟩
  · rintro ⟨⟨h4, h5⟩, h3⟩
    exact ⟨by omega, by omega, by omega, h4, h5⟩

/-- Witness of C4 (amended): the test map at the pixel position `(320, 512)`,
two tile rows above the floor row. -/
theorem haveLanded_iff_spec_witness :
    ∃ b, haveLanded demoMap ((demoGame.model).at 320 512) = some b ∧
      (b = true ↔ (LandingSpec demoMap 320 512 ∧ 320 / 32 + 1 < (demoMap.headD []).length)) :=
  haveLanded_iff_spec demoMap (by decide) ((demoGame.model).at 320 512) 320 512
    (by simp [Model.at]) (by simp [Model.at])

/-- C5: on the map `raggedMap`, whose row 2 is empty while row 0 has two
cells, the landing query at the pixel position `(0, 0)` passes every guard
and then reads `row[0]` of the empty row: an index-out-of-range panic, not
the answer `false`. -/
theorem haveLanded_ragged_panics :
    haveLanded raggedMap ((demoGame.model).at 0 0) = none := by
  decide

/-- C6: in one `integrate` call the descent loop, started at the integer
height `y0`, completes on a rectangular map table and ends at a height
`y0 + k` where `k` is at most the trip count of the loop, which for a falling
speed that is not negative on entry (as in every state reachable from Reset)
means `k ≤ floor(FallingSpeed) + 1`; `haveLanded` is false at every integer
height from `y0` up to the end height (at the loop's `X`); and once a pass of
the loop finds `haveLanded` true the height stays as it is to the end of the
loop. -/
theorem descentLoop_no_tunnel (cuddlyMap : List (List Int)) (g : Game)
    (left right thrust : Bool) (m1 : Model) (y0 : ℤ)
    (hm1 : m1 = beforeDescent left right thrust g.model) (hy : m1.Position.Y = (y0 : ℚ)) :
    (Rectangular cuddlyMap → ∃ m2, descentLoop cuddlyMap m1 = some m2) ∧
    ∀ m2, descentLoop cuddlyMap m1 = some m2 →
      ∃ k : ℕ, m2.Position.Y = ((y0 + k : ℤ) : ℚ) ∧ k ≤ (descentCount m1).toNat ∧
        (0 ≤ g.model.FallingSpeed → (k : ℤ) ≤ ⌊m1.FallingSpeed⌋ + 1) ∧
        (∀ y : ℤ, y0 ≤ y → y < y0 + k →
          haveLanded cuddlyMap (m1.at m1.Position.X (y : ℚ)) = some false) ∧
        (∀ (i : ℕ) (mi : Model), i ≤ (descentCount m1).toNat →
          descentIter cuddlyMap i m1 = some mi → haveLanded cuddlyMap mi = some true →
          m2.Position.Y = mi.Position.Y) := by
  refine ⟨fun hrect => descentIter_isSome cuddlyMap hrect _ m1, ?_⟩
  intro m2 h
  unfold descentLoop at h
  obtain ⟨k, hk, hyk, hfree, -⟩ := descentIter_path cuddlyMap _ m1 m2 h
  refine ⟨k, ?_, hk, ?_, ?_, ?_⟩
  · rw [hyk, hy]
    push_cast
    ring
  · intro hfs
    have hfs1 : 0 ≤ m1.FallingSpeed := by
      rw [hm1]
      exact beforeDescent_fallingSpeed_nonneg left right thrust g.model hfs
    obtain ⟨hcount, hfl⟩ := descentCount_of_nonneg m1 hfs1
    rw [hcount] at hk
    omega
  · intro y hy0 hy1
    have := hfree (y - y0).toNat (by omega)
    rw [← this]
    apply haveLanded_congr
    simp only [Model.at, Vec2.mk.injEq, true_and]
    rw [hy]
    have hc : (((y - y0).toNat : ℕ) : ℚ) = ((y - y0 : ℤ) : ℚ) := by
      have : (((y - y0).toNat : ℕ) : ℤ) = y - y0 := by omega
      exact_mod_cast this
    rw [hc]
    push_cast
    ring
  · intro i mi hi hmi hland
    obtain ⟨b, hb⟩ : ∃ b, (descentCount m1).toNat = i + b := ⟨_, (Nat.add_sub_cancel' hi).symm⟩
    rw [hb, descentIter_add, hmi, Option.some_bind] at h
    rw [(descentIter_landed cuddlyMap b mi m2 hland h).1]

/-- Witness of C6: the first tick of the test game with no input; the loop
starts at height 450 with falling speed 0.5 and advances at most one pixel. -/
theorem descentLoop_no_tunnel_witness :
    ∃ m2, descentLoop demoMap (beforeDescent false false false demoGame.model) = some m2 ∧
      ∃ k : ℕ, m2.Position.Y = (((450 : ℤ) + k : ℤ) : ℚ) ∧
        (k : ℤ) ≤ ⌊(beforeDescent false false false demoGame.model).FallingSpeed⌋ + 1 ∧
        (∀ y : ℤ, 450 ≤ y → y < 450 + k →
          haveLanded demoMap ((beforeDescent false false false demoGame.model).at
            (beforeDescent false false false demoGame.model).Position.X (y : ℚ)) =
              some false) := by
  have h := descentLoop_no_tunnel demoMap demoGame false false false
    (beforeDescent false false false demoGame.model) 450 rfl
    (by with_unfolding_all decide)
  obtain ⟨m2, hm2⟩ := h.1 (by decide)
  obtain ⟨k, hk1, -, hk2, hk3, -⟩ := h.2 m2 hm2
  exact ⟨m2, hm2, k, hk1, hk2 (by decide), hk3⟩

/-- C7, as stated, fails from a thrust speed of zero: the thrust step sets
the speed to 3 and then, since 3 is below 8, adds 1, so it produces 4 where
the stated rule gives 3. -/
theorem thrustStep_counterexample :
    (thrustStep true (horizontalStep false false (bounceStep demoGame.model))).ThrustSpeed = 4 ∧
      thrustSpeedSpec demoGame.model.ThrustSpeed = 3 ∧
      (thrustStep true (horizontalStep false false (bounceStep demoGame.model))).ThrustSpeed ≠
        thrustSpeedSpec demoGame.model.ThrustSpeed := by
  refine ⟨by with_unfolding_all decide, by with_unfolding_all decide, ?_⟩
  with_unfolding_all decide

/-- C7, amended: with thrust asserted the thrust step of `integrate` produces
4 from a previous thrust speed that is zero or negative, the previous speed
plus 1 from a speed in `(0, 8)`, and leaves a speed of 8 or more unchanged. -/
theorem thrustStep_thrustSpeed (left right : Bool) (m : Model) :
    (thrustStep true (horizontalStep left right (bounceStep m))).ThrustSpeed =
      if m.ThrustSpeed ≤ 0 then 4
      else if m.ThrustSpeed < 8 then m.ThrustSpeed + 1 else m.ThrustSpeed := by
  rw [thrustStep_true_thrustSpeed, (horizontalStep_frame left right _).2.1,
    (bounceStep_frame m).2.1]

/-- C8, as stated, fails with both directions pressed: from the test game
with `Moving` set, `integrate(true, true, false)` leaves `Moving` set, while
`left xor right` is false. -/
theorem integrate_moving_counterexample :
    (integrate demoMap movingGame true true false).map (fun g => g.model.Moving) = some true ∧
      xor true true = false := by
  refine ⟨by with_unfolding_all decide, rfl⟩

/-- C8, amended: after `integrate(left, right, thrust)` the `Moving` flag is
set when exactly one direction is pressed, cleared when neither is pressed,
and left as it was when both are pressed; on a rectangular map table the
call completes. -/
theorem integrate_moving (cuddlyMap : List (List Int)) (g : Game) (left right thrust : Bool) :
    (Rectangular cuddlyMap → ∃ g1, integrate cuddlyMap g left right thrust = some g1) ∧
    ∀ g1, integrate cuddlyMap g left right thrust = some g1 →
      g1.model.Moving = if left && right then g.model.Moving else xor left right := by
  refine ⟨fun hrect => integrate_isSome cuddlyMap hrect g left right thrust, ?_⟩
  intro g1 h
  obtain ⟨m, hm, rfl⟩ := integrate_eq_some cuddlyMap g g1 left right thrust h
  have hf := descentIter_frame cuddlyMap _ _ m hm
  show (clampStep g.mapLevel.HeightPx g.thrustOff (ascentStep g.thrustOff m)).1.Moving = _
  rw [(clampStep_frame _ _ _).1, (ascentStep_frame _ _).1, hf.2.1]
  unfold beforeDescent
  rw [(gravityStep_frame _).2.2.2.2, (thrustStep_frame _ _).2.2.2, horizontalStep_moving,
    (bounceStep_frame _).2.2.2.2]

/-- Witness of C8 (amended): the test game with `Moving` set and both
directions pressed. -/
theorem integrate_moving_witness :
    ∃ g1, integrate demoMap movingGame true true false = some g1 ∧
      g1.model.Moving = movingGame.model.Moving := by
  obtain ⟨g1, hg1⟩ := (integrate_moving demoMap movingGame true true false).1 (by decide)
  exact ⟨g1, hg1, (integrate_moving demoMap movingGame true true false).2 g1 hg1⟩

/-- C9: in every state reachable from the Reset state by a sequence of
`integrate` calls with arbitrary inputs, `0 ≤ ThrustSpeed ≤ 8` and
`0 ≤ FallingSpeed ≤ bounceSpeed = 7`. -/
theorem reachable_speed_bounds (cuddlyMap : List (List Int)) (g0 g : Game)
    (inputs : List Input) (h : integrateAll cuddlyMap inputs g0.Reset = some g) :
    (0 ≤ g.model.ThrustSpeed ∧ g.model.ThrustSpeed ≤ 8) ∧
    (0 ≤ g.model.FallingSpeed ∧ g.model.FallingSpeed ≤ (bounceSpeed : ℚ)) ∧
    (bounceSpeed : ℚ) = 7 := by
  obtain ⟨-, -, h3, h4, h5, h6, -⟩ :=
    integrateAll_speedInv cuddlyMap inputs g0.Reset g (reset_speedInv g0) h
  exact ⟨⟨h3, h4⟩, ⟨h5, h6⟩, by simp [bounceSpeed]⟩

/-- Witness of C9: the test game after the three ticks of `demoInputs`. -/
theorem reachable_speed_bounds_witness :
    ∃ g, integrateAll demoMap demoInputs demoGame.Reset = some g ∧
      (0 ≤ g.model.ThrustSpeed ∧ g.model.ThrustSpeed ≤ 8) ∧
      (0 ≤ g.model.FallingSpeed ∧ g.model.FallingSpeed ≤ (bounceSpeed : ℚ)) := by
  obtain ⟨g, hg⟩ := integrateAll_isSome demoMap (by decide) demoInputs demoGame.Reset
  have h := reachable_speed_bounds demoMap demoGame g demoInputs hg
  exact ⟨g, hg, h.1, h.2.1⟩

/-- C10: for every state `g` reachable from the Reset state and every call
`integrate` from it: after the call a positive thrust speed goes with a zero
falling speed, and if the call takes `JustLanded` from 0 to 1 the thrust
speed after it is 0. -/
theorem thrust_fall_exclusive (cuddlyMap : List (List Int)) (g0 g g1 : Game)
    (inputs : List Input) (i : Input)
    (hreach : integrateAll cuddlyMap inputs g0.Reset = some g)
    (hstep : integrate cuddlyMap g i.left i.right i.thrust = some g1) :
    (0 < g1.model.ThrustSpeed → g1.model.FallingSpeed = 0) ∧
    (g.model.JustLanded = 0 → g1.model.JustLanded = 1 → g1.model.ThrustSpeed = 0) := by
  have hinv := integrateAll_speedInv cuddlyMap inputs g0.Reset g (reset_speedInv g0) hreach
  refine ⟨(integrate_speedInv cuddlyMap g g1 _ _ _ hinv hstep).2.2.2.2.2.2, ?_⟩
  obtain ⟨m, hm, rfl⟩ := integrate_eq_some cuddlyMap g g1 _ _ _ hstep
  intro hj0 hj1
  have hjl : (beforeDescent i.left i.right i.thrust g.model).JustLanded = g.model.JustLanded := by
    unfold beforeDescent
    rw [(gravityStep_frame _).2.2.1, (thrustStep_frame _ _).2.1,
      (horizontalStep_frame _ _ _).2.2.2.1, (bounceStep_frame _).2.2.2.1]
  have hj1m : m.JustLanded = 1 := by
    have : (clampStep g.mapLevel.HeightPx g.thrustOff (ascentStep g.thrustOff m)).1.JustLanded
        = 1 := hj1
    rw [(clampStep_frame _ _ _).2.1, (ascentStep_frame _ _).2.2.1] at this
    exact this
  have hts : m.ThrustSpeed = 0 :=
    descentIter_justLanded cuddlyMap _ _ m hm (by rw [hjl, hj0]; decide) hj1m
  show (clampStep g.mapLevel.HeightPx g.thrustOff (ascentStep g.thrustOff m)).1.ThrustSpeed = 0
  rw [(clampStep_frame _ _ _).2.2.2.1, ascentStep_thrustSpeed, hts]
  simp

/-- Witness of C10: the fourth tick of the test game, with thrust asserted,
after the three ticks of `demoInputs`. -/
theorem thrust_fall_exclusive_witness :
    ∃ g g1, integrateAll demoMap demoInputs demoGame.Reset = some g ∧
      integrate demoMap g false false true = some g1 ∧
      (0 < g1.model.ThrustSpeed → g1.model.FallingSpeed = 0) ∧
      (g.model.JustLanded = 0 → g1.model.JustLanded = 1 → g1.model.ThrustSpeed = 0) := by
  obtain ⟨g, hg⟩ := integrateAll_isSome demoMap (by decide) demoInputs demoGame.Reset
  obtain ⟨g1, hg1⟩ := integrate_isSome demoMap (by decide) g false false true
  exact ⟨g, g1, hg, hg1,
    thrust_fall_exclusive demoMap demoGame g g1 demoInputs
      { left := false, right := false, thrust := true } hg hg1⟩

/-- C11: `TileMap.clip` returns, on each axis, the offset clamped into
`[0, max(0, size - view)]`, the X result depending on `offsetX`, `viewW` and
`WidthPx` only and the Y result on `offsetY`, `viewH` and `HeightPx` only; for
`viewW < WidthPx` the offset `WidthPx` gives `WidthPx - viewW` and the offset
`-50` gives 0 (a view width is a size: not negative). -/
theorem clip_clamp (m : TileMap) (offsetX offsetY viewW viewH : Int) :
    m.clip offsetX offsetY viewW viewH =
      (clampInt offsetX 0 (max 0 (m.WidthPx - viewW)),
       clampInt offsetY 0 (max 0 (m.HeightPx - viewH))) ∧
    (∀ (m1 : TileMap) (offsetY1 viewH1 : Int), m1.WidthPx = m.WidthPx →
      (m1.clip offsetX offsetY1 viewW viewH1).1 = (m.clip offsetX offsetY viewW viewH).1) ∧
    (∀ (m1 : TileMap) (offsetX1 viewW1 : Int), m1.HeightPx = m.HeightPx →
      (m1.clip offsetX1 offsetY viewW1 viewH).2 = (m.clip offsetX offsetY viewW viewH).2) ∧
    (0 ≤ viewW → viewW < m.WidthPx →
      (m.clip m.WidthPx offsetY viewW viewH).1 = m.WidthPx - viewW ∧
      (m.clip (-50) offsetY viewW viewH).1 = 0) := by
  refine ⟨?_, ?_, ?_, ?_⟩
  · simp only [TileMap.clip, clampInt, Prod.mk.injEq]
    constructor <;> split_ifs <;> omega
  · intro m1 oy1 vh1 hw
    simp only [TileMap.clip, hw]
  · intro m1 ox1 vw1 hh
    simp only [TileMap.clip, hh]
  · intro h0 hlt
    simp only [TileMap.clip]
    constructor <;> split_ifs <;> omega

/-- Witness of C11: a map 1024 pixels wide under a view 768 pixels wide. -/
theorem clip_clamp_witness :
    (wideMap.clip wideMap.WidthPx 0 768 400).1 = wideMap.WidthPx - 768 ∧
      (wideMap.clip (-50) 0 768 400).1 = 0 :=
  (clip_clamp wideMap 0 0 768 400).2.2.2 (by decide) (by decide)

/-- C12: on the test game with a scroller of 1024 pixels and the accumulator
at 1000, `ScrollerPosition % scrollerLength` is 1000 but `TileMap.Draw` clamps
it to `1024 - 768 = 256`: the first scroller cell it blits is column
`256 / 32 = 8`, placed at `x = 0`, not column `1000 / 32 = 31`. -/
theorem scroller_offset_clamped :
    scrollGame.scrollerLength = 1024 ∧
      scrollGame.model.ScrollerPosition.tmod scrollGame.scrollerLength = 1000 ∧
      scrollGame.scrollerOffset = 256 ∧
      scrollGame.drawScroller.map (fun l => l.head?.map (fun b => (b.mapX, b.x))) =
        some (some (8, 0)) := by
  refine ⟨by decide, by decide, by decide, by decide⟩

/-- C13: on a rectangular non-empty map with a positive tile size, for every
offset and every view size that is not negative, `TileMap.Draw` completes;
with `(ox, oy)` the clamped offset, it blits exactly the cells `(row, col)`
inside the grid with `oy / TileH ≤ row < oy / TileH + viewH / TileH + 2` and
`ox / TileW ≤ col < ox / TileW + viewW / TileW + 2`, each once, reading every
tile index from its cell inside the grid; the window of
`viewW / TileW + 2` by `viewH / TileH + 2` tiles, placed at minus the sub-tile
remainder, spans `[0, viewW)` by `[0, viewH)`, and every view pixel whose map
cell is inside the grid lies in the blit of that cell. -/
theorem draw_window (m : TileMap) (offsetX offsetY dstX dstY viewW viewH : Int)
    (hrect : Rectangular m.Data) (hne : m.Data ≠ [])
    (hw : 0 < m.Tiles.TileW) (hh : 0 < m.Tiles.TileH) (hvw : 0 ≤ viewW) (hvh : 0 ≤ viewH)
    (ox oy : Int) (ho : m.clip offsetX offsetY viewW viewH = (ox, oy)) :
    ∃ blits, m.Draw offsetX offsetY dstX dstY viewW viewH = some blits ∧
      (∀ row col : Int, (∃ b ∈ blits, b.mapY = row ∧ b.mapX = col) ↔
        ((0 ≤ row ∧ row < (m.Data.length : Int)) ∧
          (0 ≤ col ∧ col < ((m.Data.headD []).length : Int)) ∧
          (oy / m.Tiles.TileH ≤ row ∧ row < oy / m.Tiles.TileH + viewH / m.Tiles.TileH + 2) ∧
          (ox / m.Tiles.TileW ≤ col ∧
            col < ox / m.Tiles.TileW + viewW / m.Tiles.TileW + 2))) ∧
      (blits.map (fun b => (b.mapY, b.mapX))).Nodup ∧
      (∀ b ∈ blits,
        (∃ row v, goIndex m.Data b.mapY = some row ∧ goIndex row b.mapX = some v ∧
          m.Tiles.Tile v = some b.img) ∧
        b.x = dstX + (b.mapX - ox / m.Tiles.TileW) * m.Tiles.TileW - ox % m.Tiles.TileW ∧
        b.y = dstY + (b.mapY - oy / m.Tiles.TileH) * m.Tiles.TileH - oy % m.Tiles.TileH) ∧
      (0 ≤ ox % m.Tiles.TileW ∧
        viewW ≤ (viewW / m.Tiles.TileW + 2) * m.Tiles.TileW - ox % m.Tiles.TileW) ∧
      (0 ≤ oy % m.Tiles.TileH ∧
        viewH ≤ (viewH / m.Tiles.TileH + 2) * m.Tiles.TileH - oy % m.Tiles.TileH) ∧
      (∀ px py : Int, 0 ≤ px → px < viewW → 0 ≤ py → py < viewH →
        (ox + px) / m.Tiles.TileW < ((m.Data.headD []).length : Int) →
        (oy + py) / m.Tiles.TileH < (m.Data.length : Int) →
        ∃ b ∈ blits, b.mapY = (oy + py) / m.Tiles.TileH ∧ b.mapX = (ox + px) / m.Tiles.TileW ∧
          b.x ≤ dstX + px ∧ dstX + px < b.x + m.Tiles.TileW ∧
          b.y ≤ dstY + py ∧ dstY + py < b.y + m.Tiles.TileH) := by
  have hlen : 0 < m.Data.length := List.length_pos.mpr hne
  have hlen0 : m.Data.length ≠ 0 := by omega
  obtain ⟨hox, hoy⟩ := clip_nonneg m offsetX offsetY viewW viewH
  rw [ho] at hox hoy
  simp only at hox hoy
  generalize hTW : m.Tiles.TileW = TW at *
  generalize hTH : m.Tiles.TileH = TH at *
  obtain ⟨row0, hrow0, -, hget0⟩ := goIndex_of_lt m.Data 0 le_rfl (by omega)
  have hhead : m.Data.headD [] = row0 := by
    cases hd : m.Data with
    | nil => exact absurd hd hne
    | cons a t =>
      rw [hd] at hget0
      simpa using hget0
  rw [hhead]
  -- the quantities of lines 118-123
  have e1 : ox.tdiv TW = ox / TW := Int.tdiv_eq_ediv hox (le_of_lt hw)
  have e2 : oy.tdiv TH = oy / TH := Int.tdiv_eq_ediv hoy (le_of_lt hh)
  have e3 : ox.tmod TW = ox % TW := Int.tmod_eq_emod hox (le_of_lt hw)
  have e4 : oy.tmod TH = oy % TH := Int.tmod_eq_emod hoy (le_of_lt hh)
  have e5 : viewW.tdiv TW = viewW / TW := Int.tdiv_eq_ediv hvw (le_of_lt hw)
  have e6 : viewH.tdiv TH = viewH / TH := Int.tdiv_eq_ediv hvh (le_of_lt hh)
  have hdraw : m.Draw offsetX offsetY dstX dstY viewW viewH =
      blitAll (m.blit (ox / TW) (oy / TH) (ox % TW) (oy % TH) dstX dstY)
        (TileMap.drawWindow (row0.length : Int) (m.Data.length : Int) (ox / TW) (oy / TH)
          (viewW / TW + 2) (viewH / TH + 2)) := by
    have hz : ¬ (TW = 0 ∨ TH = 0) := by omega
    simp only [TileMap.Draw, hlen0, if_false, ho, hTW, hTH, hz, hrow0, e1, e2, e3, e4, e5, e6]
  generalize hwin : TileMap.drawWindow (row0.length : Int) (m.Data.length : Int) (ox / TW)
    (oy / TH) (viewW / TW + 2) (viewH / TH + 2) = win at hdraw
  have hwmem : ∀ y x : Int, (y, x) ∈ win ↔
      (0 ≤ y ∧ y < viewH / TH + 2 ∧ 0 ≤ oy / TH + y ∧ oy / TH + y < (m.Data.length : Int)) ∧
      (0 ≤ x ∧ x < viewW / TW + 2 ∧ 0 ≤ ox / TW + x ∧ ox / TW + x < (row0.length : Int)) := by
    intro y x
    rw [← hwin]
    exact mem_drawWindow _ _ _ _ _ _ y x
  obtain ⟨blits, hblits⟩ := blitAll_isSome
    (m.blit (ox / TW) (oy / TH) (ox % TW) (oy % TH) dstX dstY) win (by
      rintro ⟨y, x⟩ hyx
      obtain ⟨⟨-, -, h3, h4⟩, ⟨-, -, h7, h8⟩⟩ := (hwmem y x).mp hyx
      exact blit_isSome m hrect _ _ _ _ _ _ (y, x) ⟨h3, h4⟩ ⟨h7, by rw [hhead]; exact h8⟩)
  have hmem := blitAll_mem _ _ _ hblits
  have hsx : 0 ≤ ox / TW := Int.ediv_nonneg hox (le_of_lt hw)
  have hsy : 0 ≤ oy / TH := Int.ediv_nonneg hoy (le_of_lt hh)
  have hcell : ∀ row col : Int, (∃ b ∈ blits, b.mapY = row ∧ b.mapX = col) ↔
      ((0 ≤ row ∧ row < (m.Data.length : Int)) ∧ (0 ≤ col ∧ col < (row0.length : Int)) ∧
        (oy / TH ≤ row ∧ row < oy / TH + viewH / TH + 2) ∧
        (ox / TW ≤ col ∧ col < ox / TW + viewW / TW + 2)) := by
    intro row col
    constructor
    · rintro ⟨b, hb, rfl, rfl⟩
      obtain ⟨⟨y, x⟩, hyx, hf⟩ := (hmem b).mp hb
      obtain ⟨b1, b2, -⟩ := blit_eq_some m _ _ _ _ _ _ _ b hf
      obtain ⟨⟨h1, h2, h3, h4⟩, ⟨h5, h6, h7, h8⟩⟩ := (hwmem y x).mp hyx
      simp only at b1 b2
      rw [b1, b2]
      omega
    · rintro ⟨⟨h1, h2⟩, ⟨h3, h4⟩, ⟨h5, h6⟩, ⟨h7, h8⟩⟩
      have hyx : (row - oy / TH, col - ox / TW) ∈ win :=
        (hwmem _ _).mpr ⟨⟨by omega, by omega, by omega, by omega⟩,
          ⟨by omega, by omega, by omega, by omega⟩⟩
      obtain ⟨b, hb⟩ := blit_isSome m hrect (ox / TW) (oy / TH) (ox % TW) (oy % TH) dstX dstY
        (row - oy / TH, col - ox / TW) ⟨by simp only; omega, by simp only; omega⟩
        ⟨by simp only; omega, by rw [hhead]; simp only; omega⟩
      obtain ⟨b1, b2, -⟩ := blit_eq_some m _ _ _ _ _ _ _ b hb
      exact ⟨b, (hmem b).mpr ⟨_, hyx, hb⟩, by rw [b1]; simp, by rw [b2]; simp⟩
  have hpos : ∀ b ∈ blits,
      (∃ row v, goIndex m.Data b.mapY = some row ∧ goIndex row b.mapX = some v ∧
        m.Tiles.Tile v = some b.img) ∧
      b.x = dstX + (b.mapX - ox / TW) * TW - ox % TW ∧
      b.y = dstY + (b.mapY - oy / TH) * TH - oy % TH := by
    intro b hb
    obtain ⟨⟨y, x⟩, -, hf⟩ := (hmem b).mp hb
    obtain ⟨b1, b2, b3, b4, b5⟩ := blit_eq_some m _ _ _ _ _ _ _ b hf
    simp only at b1 b2 b3 b4
    refine ⟨b5, ?_, ?_⟩
    · rw [b3, b2, hTW]
      ring
    · rw [b4, b1, hTH]
      ring
  have hwx : viewW ≤ (viewW / TW + 2) * TW - ox % TW := by
    have h1 := Int.lt_ediv_add_one_mul_self viewW hw
    have h2 := Int.emod_lt_of_pos ox hw
    have e : (viewW / TW + 2) * TW = (viewW / TW + 1) * TW + TW := by ring
    rw [e]
    linarith
  have hwy : viewH ≤ (viewH / TH + 2) * TH - oy % TH := by
    have h1 := Int.lt_ediv_add_one_mul_self viewH hh
    have h2 := Int.emod_lt_of_pos oy hh
    have e : (viewH / TH + 2) * TH = (viewH / TH + 1) * TH + TH := by ring
    rw [e]
    linarith
  refine ⟨blits, by rw [hdraw, hblits], hcell, ?_, hpos,
    ⟨Int.emod_nonneg ox (by omega), hwx⟩, ⟨Int.emod_nonneg oy (by omega), hwy⟩, ?_⟩
  · have hmap := blitAll_map (m.blit (ox / TW) (oy / TH) (ox % TW) (oy % TH) dstX dstY)
      (fun b => (b.mapY, b.mapX)) (fun yx => (oy / TH + yx.1, ox / TW + yx.2)) win blits hblits
      (by
        intro a b hab
        obtain ⟨b1, b2, -⟩ := blit_eq_some m _ _ _ _ _ _ _ b hab
        simp only [b1, b2])
    rw [hmap]
    apply List.Nodup.map
    · rintro ⟨y1, x1⟩ ⟨y2, x2⟩ h
      simp only [Prod.mk.injEq] at h ⊢
      omega
    · rw [← hwin]
      exact drawWindow_nodup _ _ _ _ _ _
  · intro px py hpx0 hpx1 hpy0 hpy1 hcx hcy
    have hcx0 : ox / TW ≤ (ox + px) / TW := Int.ediv_le_ediv hw (by omega)
    have hcy0 : oy / TH ≤ (oy + py) / TH := Int.ediv_le_ediv hh (by omega)
    have a1 := Int.lt_ediv_add_one_mul_self ox hw
    have a2 := Int.lt_ediv_add_one_mul_self viewW hw
    have a3 := Int.lt_ediv_add_one_mul_self oy hh
    have a4 := Int.lt_ediv_add_one_mul_self viewH hh
    have hcx1 : (ox + px) / TW < ox / TW + viewW / TW + 2 := by
      apply Int.ediv_lt_of_lt_mul hw
      have e : (ox / TW + viewW / TW + 2) * TW = (ox / TW + 1) * TW + (viewW / TW + 1) * TW := by
        ring
      rw [e]
      linarith
    have hcy1 : (oy + py) / TH < oy / TH + viewH / TH + 2 := by
      apply Int.ediv_lt_of_lt_mul hh
      have e : (oy / TH + viewH / TH + 2) * TH = (oy / TH + 1) * TH + (viewH / TH + 1) * TH := by
        ring
      rw [e]
      linarith
    obtain ⟨b, hb, hbY, hbX⟩ := (hcell ((oy + py) / TH) ((ox + px) / TW)).mpr
      ⟨⟨by omega, hcy⟩, ⟨by omega, hcx⟩, ⟨hcy0, hcy1⟩, ⟨hcx0, hcx1⟩⟩
    obtain ⟨-, hx, hy⟩ := hpos b hb
    have c1 := Int.emod_add_ediv ox TW
    have c2 := Int.emod_add_ediv oy TH
    have c3 := Int.ediv_mul_le (ox + px) (show TW ≠ 0 by omega)
    have c4 := Int.lt_ediv_add_one_mul_self (ox + px) hw
    have c5 := Int.ediv_mul_le (oy + py) (show TH ≠ 0 by omega)
    have c6 := Int.lt_ediv_add_one_mul_self (oy + py) hh
    have ex : ((ox + px) / TW - ox / TW) * TW = (ox + px) / TW * TW - TW * (ox / TW) := by ring
    have ey : ((oy + py) / TH - oy / TH) * TH = (oy + py) / TH * TH - TH * (oy / TH) := by ring
    have fx : ((ox + px) / TW + 1) * TW = (ox + px) / TW * TW + TW := by ring
    have fy : ((oy + py) / TH + 1) * TH = (oy + py) / TH * TH + TH := by ring
    rw [fx] at c4
    rw [fy] at c6
    refine ⟨b, hb, hbY, hbX, ?_, ?_, ?_, ?_⟩
    · rw [hx, hbX, ex]
      linarith
    · rw [hx, hbX, ex]
      linarith
    · rw [hy, hbY, ey]
      linarith
    · rw [hy, hbY, ey]
      linarith

/-- Witness of C13: the 3 by 4 test map drawn at offset `(10, 0)` into a view
of 64 by 32 pixels. -/
theorem draw_window_witness :
    ∃ blits, smallMap.Draw 10 0 0 0 64 32 = some blits ∧
      (blits.map (fun b => (b.mapY, b.mapX))).Nodup := by
  have h := draw_window smallMap 10 0 0 0 64 32 (by decide) (by decide)
    (by decide) (by decide) (by decide) (by decide) 10 0 (by decide)
  obtain ⟨blits, h1, -, h3, -⟩ := h
  exact ⟨blits, h1, h3⟩

/-- C14, as stated, fails for a negative index: on a table of three tiles
`Tile(-1)` is the tile at position 0, where `-1 mod 3` is position 2. -/
theorem tile_negative_counterexample :
    threeTiles.Tile (-1) = some (ImageRef.tile 10) ∧
      tileSpec threeTiles (-1) = some (ImageRef.tile 12) := by
  decide

/-- C14, amended: on a non-empty tile table of length `n`, `Tile(index)`
never indexes outside the table; it returns the tile at position
`index mod n` for every `index ≥ 0` (an in-range index selects itself) and
the tile at position 0 for every negative index. -/
theorem tile_wraps (t : TileSet) (index : Int) (hne : t.Tiles ≠ []) :
    (∃ h, t.Tiles[(if index < 0 then 0 else index % (t.Tiles.length : Int)).toNat]? = some h ∧
      t.Tile index = some (ImageRef.tile h)) ∧
    (0 ≤ index → t.Tile index = tileSpec t index) ∧
    (0 ≤ index → index < (t.Tiles.length : Int) →
      t.Tile index = (t.Tiles[index.toNat]?).map ImageRef.tile) ∧
    (index < 0 → t.Tile index = (t.Tiles[0]?).map ImageRef.tile) := by
  have hlen : 0 < t.Tiles.length := List.length_pos.mpr hne
  have hlen0 : t.Tiles.length ≠ 0 := by omega
  have key : t.Tile index =
      (t.Tiles[(if index < 0 then 0 else index % (t.Tiles.length : Int)).toNat]?).map
        ImageRef.tile := by
    simp only [TileSet.Tile, hlen0, if_false]
    by_cases hneg : index < 0
    · simp only [hneg, if_true]
      have h0 : ¬ ((0 : Int) ≥ (t.Tiles.length : Int)) := by omega
      simp [h0, goIndex]
    · simp only [hneg, if_false]
      by_cases hge : index ≥ (t.Tiles.length : Int)
      · simp only [hge, if_true]
        rw [Int.tmod_eq_emod (by omega) (by omega)]
        have : ¬ (index % (t.Tiles.length : Int) < 0) :=
          not_lt.mpr (Int.emod_nonneg _ (by omega))
        simp [goIndex, this]
      · simp only [hge, if_false]
        have : index % (t.Tiles.length : Int) = index := Int.emod_eq_of_lt (by omega) (by omega)
        rw [this]
        simp [goIndex, hneg]
  refine ⟨?_, ?_, ?_, ?_⟩
  · have hlt : (if index < 0 then 0 else index % (t.Tiles.length : Int)).toNat <
        t.Tiles.length := by
      split_ifs
      · simpa using hlen
      · have h1 := Int.emod_lt_of_pos index (show (0 : Int) < (t.Tiles.length : Int) by omega)
        have h2 := Int.emod_nonneg index (show (t.Tiles.length : Int) ≠ 0 by omega)
        omega
    refine ⟨t.Tiles[(if index < 0 then 0 else index % (t.Tiles.length : Int)).toNat], ?_, ?_⟩
    · exact List.getElem?_eq_getElem hlt
    · rw [key, List.getElem?_eq_getElem hlt]
      rfl
  · intro h0
    rw [key, tileSpec, if_neg (not_lt.mpr h0)]
  · intro h0 h1
    rw [key, if_neg (not_lt.mpr h0), Int.emod_eq_of_lt h0 h1]
  · intro hneg
    rw [key, if_pos hneg]
    rfl

/-- Witness of C14 (amended): index 7 on the table of three tiles selects
position `7 mod 3 = 1`. -/
theorem tile_wraps_witness :
    threeTiles.Tile 7 = tileSpec threeTiles 7 ∧ tileSpec threeTiles 7 = some (ImageRef.tile 11) :=
  ⟨(tile_wraps threeTiles 7 (by decide)).2.1 (by decide), by decide⟩

/-- C15: a looping clock with duration `d > 0` and `n ≥ 1` indices reads, at
every time `t ≥ 0`, the index at position `floor(n * (t mod d) / d)`, which is
inside the list, so `Current(t + d) = Current(t)`; with `d = 1` and indices
`[0, 1, 2, 3]`: `Current(0) = 0`, `Current(0.99) = 3`, `Current(1) = 0` and
`Current(1.25) = 1`. -/
theorem current_looping (a : Animation) (t : ℚ) (hloop : a.Loop = true)
    (hd : 0 < a.Duration) (hne : a.Indices ≠ []) (ht : 0 ≤ t) :
    (∃ v, a.Indices[(⌊(a.Indices.length : ℚ) * fmod t a.Duration / a.Duration⌋).toNat]? =
        some v ∧ a.Current t = some v) ∧
    a.Current (t + a.Duration) = a.Current t ∧
    (loopClock.Current 0 = some 0 ∧ loopClock.Current (99 / 100) = some 3 ∧
      loopClock.Current 1 = some 0 ∧ loopClock.Current (5 / 4) = some 1) := by
  have hlen : 0 < a.Indices.length := List.length_pos.mpr hne
  have hlen0 : a.Indices.length ≠ 0 := by omega
  have key : ∀ s : ℚ, 0 ≤ s → a.Current s =
      goIndex a.Indices ⌊(a.Indices.length : ℚ) * fmod s a.Duration / a.Duration⌋ ∧
      0 ≤ ⌊(a.Indices.length : ℚ) * fmod s a.Duration / a.Duration⌋ ∧
      ⌊(a.Indices.length : ℚ) * fmod s a.Duration / a.Duration⌋ < (a.Indices.length : Int) := by
    intro s hs
    obtain ⟨f1, f2, f3⟩ := frame_of_running a.Indices.length (fmod s a.Duration) a.Duration hlen
      hd (fmod_nonneg _ _ hd) (fmod_lt _ _ hd)
    refine ⟨?_, f2, f3⟩
    simp only [Animation.Current, hlen0, if_false, not_le.mpr hd, Animation.framePos, hloop,
      Bool.not_true, Bool.false_eq_true, false_and, if_true, max_eq_right hs,
      mathMod_eq_fmod s a.Duration hs hd, f1, not_le.mpr f3, ge_iff_le]
  refine ⟨?_, ?_, ?_⟩
  · obtain ⟨k1, k2, k3⟩ := key t ht
    obtain ⟨v, hv, -, hget⟩ := goIndex_of_lt a.Indices _ k2 k3
    exact ⟨v, hget, by rw [k1, hv]⟩
  · rw [(key t ht).1, (key (t + a.Duration) (by linarith)).1, fmod_add_self t a.Duration hd]
  · refine ⟨by with_unfolding_all decide, by with_unfolding_all decide,
      by with_unfolding_all decide, by with_unfolding_all decide⟩

/-- Witness of C15: the example clock at time `9 / 4`. -/
theorem current_looping_witness :
    loopClock.Current (9 / 4 + loopClock.Duration) = loopClock.Current (9 / 4) :=
  (current_looping loopClock (9 / 4) rfl (by decide) (by decide)
    (by with_unfolding_all decide)).2.1

/-- C16: a clock that does not loop, with duration `d > 0` and `n ≥ 1`
indices, returns the last element of its index list at every time `t ≥ d`
(with `d = 1`, indices `[0, 1]` and `t = 2` it returns 1) and the index at
position `floor(n * t / d)`, which is inside the list, at every time
`0 ≤ t < d`. -/
theorem current_once (a : Animation) (t : ℚ) (hloop : a.Loop = false)
    (hd : 0 < a.Duration) (hne : a.Indices ≠ []) :
    (a.Duration ≤ t → a.Current t = a.Indices.getLast? ∧ a.Indices.getLast?.isSome) ∧
    (0 ≤ t → t < a.Duration →
      ∃ v, a.Indices[(⌊(a.Indices.length : ℚ) * t / a.Duration⌋).toNat]? = some v ∧
        a.Current t = some v) ∧
    onceClock.Current 2 = some 1 := by
  have hlen : 0 < a.Indices.length := List.length_pos.mpr hne
  have hlen0 : a.Indices.length ≠ 0 := by omega
  refine ⟨?_, ?_, by with_unfolding_all decide⟩
  · intro hge
    have hct : max 0 t ≥ a.Duration := le_trans hge (le_max_right 0 t)
    have hcur : a.Current t = goIndex a.Indices ((a.Indices.length : Int) - 1) := by
      simp only [Animation.Current, hlen0, if_false, not_le.mpr hd, Animation.framePos, hloop,
        Bool.not_false, true_and, hct, if_true]
    obtain ⟨v, hv, -, hget⟩ := goIndex_of_lt a.Indices ((a.Indices.length : Int) - 1)
      (by omega) (by omega)
    have hlast : a.Indices.getLast? = some v := by
      rw [List.getLast?_eq_getElem?, ← hget]
      congr 1
      omega
    exact ⟨by rw [hcur, hv, hlast], by rw [hlast]; rfl⟩
  · intro h0 hlt
    obtain ⟨f1, f2, f3⟩ := frame_of_running a.Indices.length t a.Duration hlen hd h0 hlt
    have hct : ¬ (max 0 t ≥ a.Duration) := by
      rw [max_eq_right h0]
      exact not_le.mpr hlt
    have hcur : a.Current t =
        goIndex a.Indices ⌊(a.Indices.length : ℚ) * t / a.Duration⌋ := by
      simp only [Animation.Current, hlen0, if_false, not_le.mpr hd, Animation.framePos, hloop,
        Bool.not_false, true_and, Bool.false_eq_true, max_eq_right h0, f1,
        not_le.mpr f3, not_le.mpr hlt, ge_iff_le, if_false]
    obtain ⟨v, hv, -, hget⟩ := goIndex_of_lt a.Indices _ f2 f3
    exact ⟨v, hget, by rw [hcur, hv]⟩

/-- Witness of C16: the example clock after its end and at half time. -/
theorem current_once_witness :
    (onceClock.Current 2 = onceClock.Indices.getLast? ∧ onceClock.Indices.getLast?.isSome) ∧
    (∃ v, onceClock.Indices[(⌊(onceClock.Indices.length : ℚ) * (1 / 2) /
        onceClock.Duration⌋).toNat]? = some v ∧ onceClock.Current (1 / 2) = some v) :=
  ⟨(current_once onceClock 2 rfl (by decide) (by decide)).1 (by decide),
   (current_once onceClock (1 / 2) rfl (by decide) (by decide)).2.1
     (by with_unfolding_all decide) (by with_unfolding_all decide)⟩

/-- C17: `Animation.Current` returns a value for every clock and every time,
negative ones included, without reading outside `Indices`: 0 when `Indices`
is empty, `Indices[0]` when the duration is zero or negative, and otherwise
the element at a frame position that lies in `[0, len(Indices) - 1]`. -/
theorem current_total (a : Animation) (t : ℚ) :
    ∃ v, a.Current t = some v ∧
      (a.Indices = [] → v = 0) ∧
      (a.Indices ≠ [] → a.Duration ≤ 0 → a.Indices[0]? = some v) ∧
      (a.Indices ≠ [] → 0 < a.Duration →
        0 ≤ a.framePos t ∧ a.framePos t ≤ (a.Indices.length : Int) - 1 ∧
        a.Indices[(a.framePos t).toNat]? = some v ∧ v ∈ a.Indices) := by
  by_cases hne : a.Indices = []
  · refine ⟨0, by simp [Animation.Current, hne], fun _ => rfl, fun h => absurd hne h,
      fun h => absurd hne h⟩
  · have hlen : 0 < a.Indices.length := List.length_pos.mpr hne
    have hlen0 : a.Indices.length ≠ 0 := by omega
    by_cases hd : a.Duration ≤ 0
    · obtain ⟨v, hv, -, hget⟩ := goIndex_of_lt a.Indices 0 le_rfl (by omega)
      refine ⟨v, by simp only [Animation.Current, hlen0, if_false, hd, if_true, hv],
        fun h => absurd h hne, fun _ _ => hget, fun _ h => absurd hd (not_le.mpr h)⟩
    · obtain ⟨r1, r2⟩ := framePos_range a t hne (not_le.mp hd)
      obtain ⟨v, hv, hmem, hget⟩ := goIndex_of_lt a.Indices (a.framePos t) r1 (by omega)
      refine ⟨v, by simp only [Animation.Current, hlen0, if_false, hd, hv],
        fun h => absurd h hne, fun _ h => absurd h hd, fun _ _ => ⟨r1, r2, hget, hmem⟩⟩

/-- Witness of C17: the example clock at a negative time. -/
theorem current_total_witness :
    ∃ v, loopClock.Current (-3 / 2) = some v ∧ v ∈ loopClock.Indices := by
  obtain ⟨v, hv, -, -, h⟩ := current_total loopClock (-3 / 2)
  exact ⟨v, hv, (h (by decide) (by decide)).2.2.2⟩

/-- C18: from the Reset state (countdown `autoPilotActivateDuration = 7200`),
with no key down on any tick: the update ticks complete on a rectangular map
(the first 7199 with any screen table, later ones with a table that is not
empty) and the first 7199 leave the loader idle; on each of the ticks 1 to
7199 the control step of `Update` hands the raw input to `integrate` and
changes nothing of the autopilot but the countdown; on tick 7200 (reached with the
loader idle) and on every later tick that reaches the control step it hands
over the movement `autoPilotMovement` synthesizes.  On any tick with a key
down the control step sets the countdown to 7200 and hands over the raw input.
`Update` reaches the control step, and calls `integrate` with its result,
whenever the loader is idle. -/
theorem autopilot_gate (cuddlyMap : List (List Int)) (demoScreens : List DemoScreen)
    (g0 : Game) (inps : List RawInput) (hq : ∀ i ∈ inps, Quiet i) :
    autoPilotActivateDuration = 7200 ∧
    (Rectangular cuddlyMap → (inps.length ≤ 7199 ∨ demoScreens ≠ []) →
      ∃ g, updateAll cuddlyMap demoScreens inps g0.Reset = some g) ∧
    (∀ g, updateAll cuddlyMap demoScreens inps g0.Reset = some g →
      ∀ inp : RawInput, inp.anyKey = false →
        (inps.length < 7199 →
          g.loading.Active = false ∧
          g.autoPilot = { g0.Reset.autoPilot with ActivateIn := 7200 - (inps.length : Int) } ∧
          g.control cuddlyMap demoScreens inp =
            some ({ g with autoPilot :=
                    { g.autoPilot with ActivateIn := 7199 - (inps.length : Int) } },
                  { left := inp.left, right := inp.right, thrust := inp.thrust }, inp.load)) ∧
        (7199 ≤ inps.length →
          (inps.length = 7199 → g.loading.Active = false) ∧
          g.control cuddlyMap demoScreens inp =
            (autoPilotMovement cuddlyMap demoScreens
              { g with autoPilot :=
                { g.autoPilot with ActivateIn := g.autoPilot.ActivateIn - 1 } } inp.rnd).map
              (fun r => (r.1, r.2, if r.1.autoPilot.NowLoadScreen then true else inp.load)))) ∧
    (∀ (g : Game) (inp : RawInput), inp.anyKey = true →
      g.control cuddlyMap demoScreens inp =
        some ({ g with autoPilot := { g.autoPilot with ActivateIn := 7200 } },
              { left := inp.left, right := inp.right, thrust := inp.thrust }, inp.load)) ∧
    (∀ (g : Game) (inp : RawInput), inp.resetKey = false → g.loading.Active = false →
      g.Update cuddlyMap demoScreens inp =
        (g.control cuddlyMap demoScreens inp).bind fun r =>
          (integrate cuddlyMap r.1 r.2.1.left r.2.1.right r.2.1.thrust).map fun g3 =>
            Game.handleLoad demoScreens
              { g3 with carebearTime := g3.carebearTime + 1 / 60
                        simTime := g3.simTime + 1 / 60 }
              r.2.2) := by
  have hA : g0.Reset.autoPilot.ActivateIn = 7200 := rfl
  have hL : g0.Reset.loading.Active = false := rfl
  refine ⟨rfl, ?_, ?_, ?_, ?_⟩
  · intro hrect hlen
    rcases hlen with hlen | hne
    · exact quiet_run_isSome cuddlyMap hrect demoScreens inps g0.Reset hq hL
        (by rw [hA]; omega)
    · exact updateAll_isSome cuddlyMap hrect demoScreens hne inps g0.Reset
  · intro g hg inp hk
    constructor
    · intro hlen
      obtain ⟨e1, e2⟩ := quiet_run_early cuddlyMap demoScreens inps g0.Reset g hq hL
        (by rw [hA]; omega) hg
      rw [hA] at e2
      refine ⟨e1, e2, ?_⟩
      have hpos : 1 < g.autoPilot.ActivateIn := by
        rw [e2]
        show (1 : Int) < 7200 - (inps.length : Int)
        omega
      rw [control_raw cuddlyMap demoScreens g inp hk hpos]
      have : g.autoPilot.ActivateIn - 1 = 7199 - (inps.length : Int) := by
        rw [e2]
        show (7200 : Int) - (inps.length : Int) - 1 = 7199 - (inps.length : Int)
        omega
      rw [this]
    · intro hlen
      have hsplit : inps = inps.take 7199 ++ inps.drop 7199 := (List.take_append_drop _ _).symm
      rw [hsplit, updateAll_append] at hg
      have htl : (inps.take 7199).length = 7199 := by
        rw [List.length_take]
        omega
      cases hmid : updateAll cuddlyMap demoScreens (inps.take 7199) g0.Reset with
      | none => simp [hmid] at hg
      | some gm =>
        rw [hmid, Option.some_bind] at hg
        obtain ⟨e1, e2⟩ := quiet_run_early cuddlyMap demoScreens (inps.take 7199) g0.Reset gm
          (fun i hi => hq i (List.mem_of_mem_take hi)) hL (by rw [hA, htl]; decide) hmid
        have hle := quiet_run_le cuddlyMap demoScreens (inps.drop 7199) gm g
          (fun i hi => hq i (List.mem_of_mem_drop hi)) hg
        have hgm : gm.autoPilot.ActivateIn = 1 := by
          rw [e2, hA, htl]
          rfl
        refine ⟨?_, control_auto cuddlyMap demoScreens g inp hk (by omega)⟩
        intro heq
        have hdrop : inps.drop 7199 = [] := by
          apply List.drop_eq_nil_of_le
          omega
        rw [hdrop] at hg
        simp only [updateAll, Option.some.injEq] at hg
        rw [← hg]
        exact e1
  · intro g inp hk
    exact control_anyKey cuddlyMap demoScreens g inp hk
  · intro g inp hr hl
    exact update_eq cuddlyMap demoScreens g inp hr hl

/-- Witness of C18: the test game after 3 and after 7199 ticks with no key
down. -/
theorem autopilot_gate_witness :
    (∃ g, updateAll demoMap apScreens (List.replicate 3 quietInput) demoGame.Reset = some g ∧
      g.control demoMap apScreens quietInput =
        some ({ g with autoPilot := { g.autoPilot with ActivateIn := 7199 - 3 } },
              { left := false, right := false, thrust := false }, false)) ∧
    (∃ g, updateAll demoMap apScreens (List.replicate 7199 quietInput) demoGame.Reset = some g ∧
      g.loading.Active = false ∧
      g.control demoMap apScreens quietInput =
        (autoPilotMovement demoMap apScreens
          { g with autoPilot := { g.autoPilot with ActivateIn := g.autoPilot.ActivateIn - 1 } }
          0).map
          (fun r => (r.1, r.2, if r.1.autoPilot.NowLoadScreen then true else false))) := by
  have hq : ∀ n, ∀ i ∈ List.replicate n quietInput, Quiet i := by
    intro n i hi
    rw [List.eq_of_mem_replicate hi]
    exact ⟨rfl, rfl, rfl⟩
  constructor
  · obtain ⟨-, h1, h2, -⟩ := autopilot_gate demoMap apScreens demoGame
      (List.replicate 3 quietInput) (hq 3)
    obtain ⟨g, hg⟩ := h1 (by decide) (Or.inl (by decide))
    exact ⟨g, hg, ((h2 g hg quietInput rfl).1 (by decide)).2.2⟩
  · obtain ⟨-, h1, h2, -⟩ := autopilot_gate demoMap apScreens demoGame
      (List.replicate 7199 quietInput) (hq 7199)
    have hlen : (List.replicate 7199 quietInput).length = 7199 := List.length_replicate _ _
    obtain ⟨g, hg⟩ := h1 (by decide) (Or.inl hlen.le)
    obtain ⟨h3, h4⟩ := (h2 g hg quietInput rfl).2 hlen.ge
    exact ⟨g, hg, h3 hlen, h4⟩

/-- C19: for the door `(X, Y) = (10, 5)` the autopilot steers toward
`(32 * 10 + 64, 32 * 5 + 64) = (384, 224)`, 16 pixels below the centre
`(384, 208)` of the door's box of 4 by 3 tiles; an index outside the table
selects the first door. -/
theorem autoPilotTarget_off_centre :
    autoPilotTarget apScreens 0 = some { X := 384, Y := 224 } ∧
      doorCentre { X := 10, Y := 5, Name := "A" } = { X := 384, Y := 208 } ∧
      autoPilotTarget apScreens 3 = autoPilotTarget apScreens 0 ∧
      autoPilotTarget apScreens (-1) = autoPilotTarget apScreens 0 := by
  refine ⟨by with_unfolding_all decide, by with_unfolding_all decide, by decide, by decide⟩

/-- C20, as stated, fails while the timer `DontThrustForAwhile` is 70 or more:
the first autopilot call on the test game (character at height 450, below the
target height 224, not stuck) asserts thrust and restarts the timer at 100,
and the next call, with the timer at 100, does not assert thrust. -/
theorem autopilot_thrust_counterexample :
    (autoPilotMovement demoMap apScreens demoGame 0).map (fun r => (r.1, r.2.thrust)) =
      some (apGame, true) ∧
    (autoPilotTarget apScreens apGame.autoPilot.NextScreen).map
      (fun t => decide (apGame.model.Position.Y > t.Y)) = some true ∧
    (autoPilotMovement demoMap apScreens apGame 0).map
      (fun r => (r.1.autoPilot.Stuck, r.2.thrust)) = some (false, false) := by
  have ht : autoPilotTarget apScreens 0 = some { X := 384, Y := 224 } := by
    with_unfolding_all decide
  have hl : haveLanded demoMap demoGame.model = some false := by with_unfolding_all decide
  have hX : toInt demoGame.model.Position.X = 320 := by with_unfolding_all decide
  have hY : toInt demoGame.model.Position.Y = 450 := by with_unfolding_all decide
  have hT : toInt (384 : ℚ) = 384 := by with_unfolding_all decide
  have andNot_320 : andNot 320 0xf = 320 := by
    unfold andNot
    show Int.ofNat (Nat.ldiff 320 15) = 320
    simp [Nat.ldiff, Nat.bitwise]
  have andNot_384 : andNot 384 0xf = 384 := by
    unfold andNot
    show Int.ofNat (Nat.ldiff 384 15) = 384
    simp [Nat.ldiff, Nat.bitwise]
  have hs1 : steerStep demoGame.autoPilot demoGame.model false { X := 384, Y := 224 } 320 384 =
      (demoGame.autoPilot, { left := false, right := true, thrust := true }) := by
    rw [steerStep_free _ _ _ _ _ _ rfl (by decide) (by decide)]
    have h : decide (demoGame.model.Position.Y > (224 : ℚ) ∧
        demoGame.autoPilot.DontThrustForAwhile < 70) = true := by with_unfolding_all decide
    rw [h]
    rfl
  have hs2 : steerStep apGame.autoPilot demoGame.model false { X := 384, Y := 224 } 320 384 =
      (apGame.autoPilot, { left := false, right := true, thrust := false }) := by
    rw [steerStep_free _ _ _ _ _ _ rfl (by decide) (by decide)]
    have h : decide (demoGame.model.Position.Y > (224 : ℚ) ∧
        apGame.autoPilot.DontThrustForAwhile < 70) = false := by with_unfolding_all decide
    rw [h]
    rfl
  have ht1 : timerStep demoGame.autoPilot 0 = apGame.autoPilot := by decide
  have ht2 : (timerStep apGame.autoPilot 0).Stuck = false := by decide
  have e1 : autoPilotMovement demoMap apScreens demoGame 0 =
      some (apGame, { left := false, right := true, thrust := true }) := by
    have e : autoPilotTarget apScreens demoGame.autoPilot.NextScreen =
        some { X := 384, Y := 224 } := ht
    simp only [autoPilotMovement, e, hl, Option.bind_eq_bind, Option.some_bind, Option.pure_def,
      hX, hY, hT, andNot_320, andNot_384, stuckStep_airborne _ 450 _ (by decide), hs1, ht1]
    rfl
  have e2 : autoPilotMovement demoMap apScreens apGame 0 =
      some ({ apGame with autoPilot := timerStep apGame.autoPilot 0 },
        { left := false, right := true, thrust := false }) := by
    have e : autoPilotTarget apScreens apGame.autoPilot.NextScreen =
        some { X := 384, Y := 224 } := ht
    have hl2 : haveLanded demoMap apGame.model = some false := hl
    have hX2 : toInt apGame.model.Position.X = 320 := hX
    have hY2 : toInt apGame.model.Position.Y = 450 := hY
    have hs3 : steerStep apGame.autoPilot apGame.model false { X := 384, Y := 224 } 320 384 =
      (apGame.autoPilot, { left := false, right := true, thrust := false }) := hs2
    simp only [autoPilotMovement, e, hl2, Option.bind_eq_bind, Option.some_bind, Option.pure_def,
      hX2, hY2, hT, andNot_320, andNot_384, stuckStep_airborne _ 450 _ (by decide), hs3]
  refine ⟨?_, ?_, ?_⟩
  · rw [e1]
    rfl
  · have e : autoPilotTarget apScreens apGame.autoPilot.NextScreen =
        some { X := 384, Y := 224 } := ht
    rw [e]
    with_unfolding_all decide
  · rw [e2]
    simp only [Option.map_some', ht2]

/-- C20, amended: on every autopilot call in which the controller is not
stuck after the stuck detection, the synthesized thrust is asserted exactly
when the character is below the target (`Position.Y > target.Y`) and the
timer `DontThrustForAwhile` is below 70, whatever the value of
`TimeSinceLastThrust`. -/
theorem autopilot_thrust (cuddlyMap : List (List Int)) (demoScreens : List DemoScreen)
    (g : Game) (rnd : Int) (r : Game × movement) (target : Vec2) (onLevel : Bool)
    (h : autoPilotMovement cuddlyMap demoScreens g rnd = some r)
    (ht : autoPilotTarget demoScreens g.autoPilot.NextScreen = some target)
    (hl : haveLanded cuddlyMap g.model = some onLevel)
    (hns : (stuckStep g.autoPilot onLevel (toInt g.model.Position.Y) target).Stuck = false) :
    r.2.thrust = decide (g.model.Position.Y > target.Y ∧ g.autoPilot.DontThrustForAwhile < 70) ∧
    ∀ v : Int, ∃ r1,
      autoPilotMovement cuddlyMap demoScreens
        { g with autoPilot := { g.autoPilot with TimeSinceLastThrust := v } } rnd = some r1 ∧
      r1.2.thrust = r.2.thrust := by
  have key : ∀ (g1 : Game) (r1 : Game × movement),
      autoPilotMovement cuddlyMap demoScreens g1 rnd = some r1 →
      autoPilotTarget demoScreens g1.autoPilot.NextScreen = some target →
      haveLanded cuddlyMap g1.model = some onLevel →
      (stuckStep g1.autoPilot onLevel (toInt g1.model.Position.Y) target).Stuck = false →
      r1.2.thrust =
        decide (g1.model.Position.Y > target.Y ∧ g1.autoPilot.DontThrustForAwhile < 70) := by
    intro g1 r1 h1 ht1 hl1 hns1
    obtain ⟨t, o, e1, e2, rfl⟩ := autoPilotMovement_eq_some _ _ _ _ _ h1
    rw [ht1] at e1
    rw [hl1] at e2
    obtain rfl := Option.some.inj e1
    obtain rfl := Option.some.inj e2
    show (steerStep _ _ _ _ _ _).2.thrust = _
    rw [steerStep_thrust _ _ _ _ _ _ hns1, (stuckStep_frame _ _ _ _).2]
  refine ⟨key g r h ht hl hns, ?_⟩
  intro v
  have hsome : ∃ r1, autoPilotMovement cuddlyMap demoScreens
      { g with autoPilot := { g.autoPilot with TimeSinceLastThrust := v } } rnd = some r1 := by
    simp only [autoPilotMovement, ht, hl, Option.bind_eq_bind, Option.some_bind]
    exact ⟨_, rfl⟩
  obtain ⟨r1, hr1⟩ := hsome
  refine ⟨r1, hr1, ?_⟩
  rw [key _ r1 hr1 ht hl (by rw [stuckStep_stuck_timer]; exact hns), key g r h ht hl hns]

/-- Witness of C20 (amended): the second autopilot call on the test game, with
the timer at 100. -/
theorem autopilot_thrust_witness :
    ∃ r, autoPilotMovement demoMap apScreens apGame 0 = some r ∧
      r.2.thrust = decide (apGame.model.Position.Y > 224 ∧
        apGame.autoPilot.DontThrustForAwhile < 70) := by
  obtain ⟨r, hr⟩ := autoPilotMovement_isSome demoMap (by decide) apScreens (by decide) apGame 0
  exact ⟨r, hr, (autopilot_thrust demoMap apScreens apGame 0 r { X := 384, Y := 224 } false hr
    (by with_unfolding_all decide) (by with_unfolding_all decide)
    (by with_unfolding_all decide)).1⟩

/-- C21: `advanceAutoPilot` changes nothing but `NextScreen`, which becomes
`NextScreen + 1`, or 0 when `NextScreen + 1` reaches `len(demoScreens) - 1`.
With a screen table of at least 2 entries, every run of update ticks from the
Reset state (one exists for every list of inputs on a rectangular map) ends in
a state with `0 ≤ NextScreen ≤ len(demoScreens) - 2`: the autopilot's target is
computed from the table entry at `NextScreen`, which is not the last one. -/
theorem nextScreen_bounds (cuddlyMap : List (List Int)) (demoScreens : List DemoScreen)
    (hlen : 2 ≤ demoScreens.length) (g0 : Game) (inps : List RawInput) :
    (∀ g : Game,
      g.advanceAutoPilot demoScreens =
        { g with autoPilot := { g.autoPilot with
            NextScreen := (g.advanceAutoPilot demoScreens).autoPilot.NextScreen } } ∧
      (g.autoPilot.NextScreen + 1 < (demoScreens.length : Int) - 1 →
        (g.advanceAutoPilot demoScreens).autoPilot.NextScreen = g.autoPilot.NextScreen + 1) ∧
      ((demoScreens.length : Int) - 1 ≤ g.autoPilot.NextScreen + 1 →
        (g.advanceAutoPilot demoScreens).autoPilot.NextScreen = 0)) ∧
    (Rectangular cuddlyMap → ∃ g, updateAll cuddlyMap demoScreens inps g0.Reset = some g) ∧
    (∀ g, updateAll cuddlyMap demoScreens inps g0.Reset = some g →
      0 ≤ g.autoPilot.NextScreen ∧
      g.autoPilot.NextScreen ≤ (demoScreens.length : Int) - 2 ∧
      ∃ d, demoScreens[g.autoPilot.NextScreen.toNat]? = some d ∧
        g.autoPilot.NextScreen.toNat + 1 < demoScreens.length ∧
        autoPilotTarget demoScreens g.autoPilot.NextScreen =
          some { X := ((d.X * tileSize + 64 : Int) : ℚ),
                 Y := ((d.Y * tileSize + 64 : Int) : ℚ) }) := by
  refine ⟨?_, ?_, ?_⟩
  · intro g
    refine ⟨rfl, ?_, ?_⟩
    · intro h
      simp only [Game.advanceAutoPilot]
      rw [if_neg (by omega)]
    · intro h
      simp only [Game.advanceAutoPilot]
      rw [if_pos (by omega)]
  · intro hrect
    exact updateAll_isSome cuddlyMap hrect demoScreens
      (by intro h; rw [h] at hlen; simp at hlen) inps g0.Reset
  · intro g hg
    have h0 : NextScreenInv demoScreens g0.Reset := by
      constructor
      · exact le_refl 0
      · show (0 : Int) ≤ (demoScreens.length : Int) - 2
        omega
    obtain ⟨h1, h2⟩ := updateAll_inv cuddlyMap demoScreens hlen inps g0.Reset g h0 hg
    refine ⟨h1, h2, ?_⟩
    obtain ⟨d, hd, -, hget⟩ := goIndex_of_lt demoScreens g.autoPilot.NextScreen h1 (by omega)
    refine ⟨d, hget, by omega, ?_⟩
    simp only [autoPilotTarget]
    rw [if_neg (by omega), hd]
    rfl

/-- Witness of C21: three ticks with no key down on the test game with the
table of two doors and the closing entry. -/
theorem nextScreen_bounds_witness :
    ∃ g, updateAll demoMap apScreens [quietInput, quietInput, quietInput] demoGame.Reset =
        some g ∧
      0 ≤ g.autoPilot.NextScreen ∧ g.autoPilot.NextScreen ≤ 1 := by
  obtain ⟨-, h1, h2⟩ := nextScreen_bounds demoMap apScreens (by decide) demoGame
    [quietInput, quietInput, quietInput]
  obtain ⟨g, hg⟩ := h1 (by decide)
  exact ⟨g, hg, (h2 g hg).1, (h2 g hg).2.1⟩

/-- C22: for a state with a position that is not negative, with
`(pX, pY) = (floor(X / 32), floor(Y / 32))`: when the load signal is up, the
loader is idle and some door's box of 4 columns by 3 rows holds `(pX, pY)`,
`handleLoad` is `startLoading` with the name of the first such door of the
table, which sets the loader to active with that name and `Timer = 120`; in
every other case `handleLoad` returns the state unchanged; so the loader
goes from idle to active exactly in the first case. -/
theorem handleLoad_spec (demoScreens : List DemoScreen) (g : Game) (load : Bool)
    (hx : 0 ≤ g.model.Position.X) (hy : 0 ≤ g.model.Position.Y) :
    ((load = true ∧ g.loading.Active = false ∧
        ∃ d ∈ demoScreens, InDoorBox d ⌊g.model.Position.X / 32⌋ ⌊g.model.Position.Y / 32⌋) →
      ∃ d, FirstDoor demoScreens ⌊g.model.Position.X / 32⌋ ⌊g.model.Position.Y / 32⌋ d ∧
        g.handleLoad demoScreens load = g.startLoading demoScreens d.Name ∧
        (g.handleLoad demoScreens load).loading =
          { Active := true, ScreenName := d.Name, Timer := 120 }) ∧
    (¬(load = true ∧ g.loading.Active = false ∧
        ∃ d ∈ demoScreens, InDoorBox d ⌊g.model.Position.X / 32⌋ ⌊g.model.Position.Y / 32⌋) →
      g.handleLoad demoScreens load = g) ∧
    ((g.loading.Active = false ∧ (g.handleLoad demoScreens load).loading.Active = true) ↔
      (load = true ∧ g.loading.Active = false ∧
        ∃ d ∈ demoScreens, InDoorBox d ⌊g.model.Position.X / 32⌋ ⌊g.model.Position.Y / 32⌋)) := by
  have ex := toInt_tdiv_tileSize g.model.Position.X hx
  have ey := toInt_tdiv_tileSize g.model.Position.Y hy
  have pos : (load = true ∧ g.loading.Active = false ∧
        ∃ d ∈ demoScreens, InDoorBox d ⌊g.model.Position.X / 32⌋ ⌊g.model.Position.Y / 32⌋) →
      ∃ d, FirstDoor demoScreens ⌊g.model.Position.X / 32⌋ ⌊g.model.Position.Y / 32⌋ d ∧
        g.handleLoad demoScreens load = g.startLoading demoScreens d.Name := by
    rintro ⟨hload, hl, d, hd, hbox⟩
    subst hload
    obtain ⟨hsome, -⟩ := handleLoad_cases demoScreens g hl
    rw [ex, ey] at hsome
    cases hf : demoScreens.find? (fun t =>
        decide (⌊g.model.Position.X / 32⌋ ≥ t.X ∧ ⌊g.model.Position.X / 32⌋ ≤ t.X + 3 ∧
          ⌊g.model.Position.Y / 32⌋ ≥ t.Y ∧ ⌊g.model.Position.Y / 32⌋ < t.Y + 3)) with
    | none =>
      rw [List.find?_eq_none] at hf
      exact absurd ((door_test_iff d _ _).mpr hbox) (hf d hd)
    | some t =>
      obtain ⟨ht, before, after, hsplit, hbefore⟩ := List.find?_eq_some.mp hf
      refine ⟨t, ⟨(door_test_iff t _ _).mp ht, before, after, hsplit, ?_⟩, hsome t hf⟩
      intro e he hbe
      have := hbefore e he
      rw [(door_test_iff e _ _).mpr hbe] at this
      exact absurd this (by decide)
  have neg : ¬(load = true ∧ g.loading.Active = false ∧
        ∃ d ∈ demoScreens, InDoorBox d ⌊g.model.Position.X / 32⌋ ⌊g.model.Position.Y / 32⌋) →
      g.handleLoad demoScreens load = g := by
    intro hn
    by_cases hload : load = true
    · by_cases hl : g.loading.Active = false
      · subst hload
        obtain ⟨-, hnone⟩ := handleLoad_cases demoScreens g hl
        rw [ex, ey] at hnone
        apply hnone
        rw [List.find?_eq_none]
        intro d hd hbox
        exact hn ⟨rfl, hl, d, hd, (door_test_iff d _ _).mp hbox⟩
      · exact handleLoad_idle demoScreens g load (Or.inr (by simpa using hl))
    · exact handleLoad_idle demoScreens g load (Or.inl (by simpa using hload))
  refine ⟨?_, neg, ?_⟩
  · intro h
    obtain ⟨d, hd, he⟩ := pos h
    exact ⟨d, hd, he, by rw [he]; rfl⟩
  · constructor
    · rintro ⟨hl, ha⟩
      by_contra hn
      rw [neg hn, hl] at ha
      exact absurd ha (by decide)
    · intro h
      obtain ⟨d, -, he⟩ := pos h
      exact ⟨h.2.1, by rw [he]; rfl⟩

/-- Witness of C22: the test game at the Reset position `(320, 450)`, tile
`(10, 14)`, with a door at `(8, 12)`. -/
theorem handleLoad_spec_witness :
    (demoGame.handleLoad [{ X := 8, Y := 12, Name := "A" }] true).loading =
      { Active := true, ScreenName := "A", Timer := 120 } := by
  obtain ⟨d, hd, -, h⟩ := (handleLoad_spec [{ X := 8, Y := 12, Name := "A" }] demoGame true
    (by with_unfolding_all decide) (by with_unfolding_all decide)).1
    ⟨rfl, rfl, { X := 8, Y := 12, Name := "A" }, List.mem_singleton.mpr rfl,
      by with_unfolding_all decide⟩
  obtain ⟨-, before, after, hsplit, -⟩ := hd
  have hmem : d ∈ [({ X := 8, Y := 12, Name := "A" } : DemoScreen)] := by
    rw [hsplit]
    exact List.mem_append_right _ (List.mem_cons_self _ _)
  rw [List.mem_singleton.mp hmem] at h
  exact h

/-- C23: after `startLoading`, on ticks with the reset key up and any other
input: each of the next 120 update ticks completes and leaves the kinematic
model, `simTime`, `carebearTime` and the countdown `ActivateIn` as
`startLoading` found them; the loader stays active through the first 119 of
them, with `Timer` counting down from 120, and the 120th clears it, with
`NowLoadScreen` false and `WaitToLoad` 80; the tick after that is the normal
step: the control step, `integrate`, the two clocks and `handleLoad`. -/
theorem loading_pause (cuddlyMap : List (List Int)) (demoScreens : List DemoScreen)
    (g0 : Game) (name : String) (inps : List RawInput)
    (hr : ∀ i ∈ inps, i.resetKey = false) (hlen : inps.length ≤ 120) :
    ∃ g, updateAll cuddlyMap demoScreens inps (g0.startLoading demoScreens name) = some g ∧
      g.model = g0.model ∧ g.simTime = g0.simTime ∧ g.carebearTime = g0.carebearTime ∧
      g.autoPilot.ActivateIn = g0.autoPilot.ActivateIn ∧
      g.loading.Timer = 120 - (inps.length : Int) ∧
      (inps.length < 120 → g.loading.Active = true) ∧
      (inps.length = 120 →
        g.loading.Active = false ∧ g.autoPilot.NowLoadScreen = false ∧
        g.autoPilot.WaitToLoad = 80 ∧
        ∀ inp : RawInput, inp.resetKey = false →
          g.Update cuddlyMap demoScreens inp =
            (g.control cuddlyMap demoScreens inp).bind fun r =>
              (integrate cuddlyMap r.1 r.2.1.left r.2.1.right r.2.1.thrust).map fun g3 =>
                Game.handleLoad demoScreens
                  { g3 with carebearTime := g3.carebearTime + 1 / 60
                            simTime := g3.simTime + 1 / 60 }
                  r.2.2) := by
  obtain ⟨s1, s2, s3, s4, s5, -, -⟩ := startLoading_loading demoScreens g0 name
  have hA : (g0.startLoading demoScreens name).loading.Active = true := by rw [s1]
  have hT : (g0.startLoading demoScreens name).loading.Timer = 120 := by rw [s1]
  by_cases hlt : inps.length < 120
  · obtain ⟨g, r1, r2, r3, r4, r5, r6, r7⟩ := loading_run cuddlyMap demoScreens inps
      (g0.startLoading demoScreens name) hr hA (by rw [hT]; omega)
    refine ⟨g, r1, by rw [r2, s2], by rw [r3, s3], by rw [r4, s4], by rw [r5, s5],
      by rw [r7, hT], fun _ => r6, fun h => ?_⟩
    omega
  · have heq : inps.length = 120 := by omega
    have hsplit : inps = inps.take 119 ++ inps.drop 119 := (List.take_append_drop _ _).symm
    have htl : (inps.take 119).length = 119 := by
      rw [List.length_take]
      omega
    obtain ⟨gm, r1, r2, r3, r4, r5, r6, r7⟩ := loading_run cuddlyMap demoScreens
      (inps.take 119) (g0.startLoading demoScreens name)
      (fun i hi => hr i (List.mem_of_mem_take hi)) hA (by rw [hT, htl]; decide)
    rw [hT, htl] at r7
    have hdl : (inps.drop 119).length = 1 := by
      rw [List.length_drop]
      omega
    obtain ⟨i, hi⟩ := List.length_eq_one.mp hdl
    have hri : i.resetKey = false :=
      hr i (List.mem_of_mem_drop (by rw [hi]; exact List.mem_singleton.mpr rfl))
    obtain ⟨e1, e2, e3, e4, e5, -, e7⟩ := updateLoading_eq gm
    obtain ⟨f1, f2, f3⟩ := e7 (by rw [r7]; decide)
    refine ⟨gm.updateLoading, ?_, by rw [e1, r2, s2], by rw [e2, r3, s3], by rw [e3, r4, s4],
      by rw [e4, r5, s5], ?_, fun h => absurd h hlt, fun _ => ⟨f1, f2, f3, ?_⟩⟩
    · rw [hsplit, updateAll_append, r1, Option.some_bind, hi]
      simp only [updateAll, update_loading cuddlyMap demoScreens gm i hri r6,
        Option.bind_eq_bind, Option.some_bind]
    · rw [e5, r7, heq]
      rfl
    · intro inp hinp
      exact update_eq cuddlyMap demoScreens gm.updateLoading inp hinp f1

/-- Witness of C23: 120 ticks with no key down after a loading started on the
test game. -/
theorem loading_pause_witness :
    ∃ g, updateAll demoMap apScreens (List.replicate 120 quietInput)
        (demoGame.startLoading apScreens "A") = some g ∧
      g.model = demoGame.model ∧ g.loading.Active = false := by
  have hlen : (List.replicate 120 quietInput).length = 120 := List.length_replicate _ _
  obtain ⟨g, h1, h2, -, -, -, -, -, h3⟩ := loading_pause demoMap apScreens demoGame "A"
    (List.replicate 120 quietInput)
    (fun i hi => by rw [List.eq_of_mem_replicate hi]; rfl) hlen.le
  exact ⟨g, h1, h2, (h3 hlen).1⟩

/-- C24, as stated, fails for `calculateFrame`: on the test game with the
`Moving` flag set (not thrusting, direction 1, `simTime` 0) it returns frame 2
of the animation `MoveRight` and leaves `CurrentFrame` at 2, from 6. -/
theorem calculateFrame_counterexample :
    movingGame.model.CurrentFrame = 6 ∧
      movingGame.calculateFrame.map (fun r => (r.1.model.CurrentFrame, r.2)) = some (2, 2) := by
  constructor
  · rfl
  · with_unfolding_all decide

/-- C24, amended: `autoPilotMovement` leaves every field of the model
unchanged; `calculateFrame` returns a value and leaves every field of the
state other than `Model.CurrentFrame` unchanged, the whole state when the
character is thrusting or not moving, and when it is moving and not thrusting
it stores the frame it returns, the current one of `MoveLeft` or `MoveRight`,
in `CurrentFrame`; an update tick without the reset key leaves the model
unchanged while the loader is active and otherwise leaves the model that
`integrate`, called on a state with the model of the tick's start, produces.
`haveLanded`, `calculatePositions` and `calculateBounce` have no assignment
to the state: they are functions of the state here. -/
theorem model_mutators (cuddlyMap : List (List Int)) (demoScreens : List DemoScreen) (g : Game) :
    (∀ (rnd : Int) (r : Game × movement),
      autoPilotMovement cuddlyMap demoScreens g rnd = some r → r.1.model = g.model) ∧
    (∃ r, g.calculateFrame = some r ∧
      r.1 = { g with model := { g.model with CurrentFrame := r.1.model.CurrentFrame } } ∧
      ((g.model.Thrusting = true ∨ g.model.Moving = false) → r.1 = g) ∧
      (g.model.Thrusting = false → g.model.Moving = true →
        r.1.model.CurrentFrame = r.2 ∧
        (if g.model.Direction < 1 then g.animations.MoveLeft.Current g.simTime
          else g.animations.MoveRight.Current g.simTime) = some r.2)) ∧
    (∀ (inp : RawInput) (g1 : Game), inp.resetKey = false →
      g.Update cuddlyMap demoScreens inp = some g1 →
      (g.loading.Active = true → g1.model = g.model) ∧
      (g.loading.Active = false →
        ∃ (gc gi : Game) (left right thrust : Bool), gc.model = g.model ∧
          integrate cuddlyMap gc left right thrust = some gi ∧ g1.model = gi.model)) := by
  refine ⟨?_, ?_, ?_⟩
  · intro rnd r h
    exact (autoPilotMovement_frame cuddlyMap demoScreens g rnd r h).2.2.1
  · obtain ⟨r, hr⟩ := calculateFrame_isSome g
    obtain ⟨h1, h2⟩ := calculateFrame_eq_some g r hr
    refine ⟨r, hr, ?_, h1, ?_⟩
    · by_cases hc : g.model.Thrusting = true ∨ g.model.Moving = false
      · rw [h1 hc]
      · have ht : g.model.Thrusting = false := by
          cases h : g.model.Thrusting
          · rfl
          · exact absurd (Or.inl h) hc
        have hm : g.model.Moving = true := by
          cases h : g.model.Moving
          · exact absurd (Or.inr h) hc
          · rfl
        rw [(h2 ht hm).1]
    · intro ht hm
      obtain ⟨e1, e2⟩ := h2 ht hm
      exact ⟨by rw [e1], e2⟩
  · intro inp g1 hr hu
    constructor
    · intro hl
      rw [update_loading cuddlyMap demoScreens g inp hr hl] at hu
      rw [← Option.some.inj hu]
      exact (updateLoading_eq g).1
    · intro hl
      rw [update_eq cuddlyMap demoScreens g inp hr hl] at hu
      cases hc : g.control cuddlyMap demoScreens inp with
      | none => simp [hc] at hu
      | some r =>
        rw [hc, Option.some_bind] at hu
        cases hi : integrate cuddlyMap r.1 r.2.1.left r.2.1.right r.2.1.thrust with
        | none => simp [hi] at hu
        | some g3 =>
          rw [hi] at hu
          simp only [Option.map_some', Option.some.injEq] at hu
          refine ⟨r.1, g3, r.2.1.left, r.2.1.right, r.2.1.thrust,
            control_model cuddlyMap demoScreens g inp r hc, hi, ?_⟩
          rw [← hu, handleLoad_model]

/-- Witness of C24 (amended): a tick with no key down on the test game. -/
theorem model_mutators_witness :
    ∃ g1 gc gi : Game, demoGame.Update demoMap apScreens quietInput = some g1 ∧
      gc.model = demoGame.model ∧ integrate demoMap gc false false false = some gi ∧
      g1.model = gi.model := by
  obtain ⟨g1, hg1⟩ := update_isSome demoMap (by decide) apScreens (by decide) demoGame quietInput
  obtain ⟨gc, gi, left, right, thrust, h1, h2, h3⟩ :=
    ((model_mutators demoMap apScreens demoGame).2.2 quietInput g1 rfl hg1).2 rfl
  have hraw := control_raw demoMap apScreens demoGame quietInput rfl (by decide)
  obtain ⟨g2, hg2⟩ := integrate_isSome demoMap (by decide)
    { demoGame with autoPilot :=
        { demoGame.autoPilot with ActivateIn := demoGame.autoPilot.ActivateIn - 1 } }
    false false false
  refine ⟨g1, { demoGame with autoPilot :=
      { demoGame.autoPilot with ActivateIn := demoGame.autoPilot.ActivateIn - 1 } }, g2, hg1,
    rfl, hg2, ?_⟩
  rw [update_eq demoMap apScreens demoGame quietInput rfl rfl, hraw, Option.some_bind] at hg1
  simp only at hg1
  have hq : integrate demoMap
      { demoGame with autoPilot :=
          { demoGame.autoPilot with ActivateIn := demoGame.autoPilot.ActivateIn - 1 } }
      quietInput.left quietInput.right quietInput.thrust = some g2 := hg2
  rw [hq] at hg1
  simp only [Option.map_some', Option.some.injEq] at hg1
  rw [← hg1, handleLoad_model]

/-- C25: with a width table that is not empty, `BuildScrollMap` returns a
value on every text, and on the runes of two texts `a` and `b` the result for
`a ++ b` is the result for `a` followed by the result for `b`; a line feed or
carriage return gives the empty sequence; any other character `c`, with
`p = code(c) - 32` (0 when that is outside the table), gives the run
`[3p, 3p + 1, ..., 3p + width[p] - 1]`; so the length of the result is the sum
of the lengths of the runs of the characters that are not newlines, which is
the sum of their widths when no width is negative. -/
theorem buildScrollMap_runs (w : List Int) (hne : w ≠ []) (a b : List Char) :
    (∃ ra rb, BuildScrollMap w a = some ra ∧ BuildScrollMap w b = some rb ∧
      BuildScrollMap w (a ++ b) = some (ra ++ rb)) ∧
    (∀ c, IsNewline c → BuildScrollMap w [c] = some []) ∧
    (∀ c, ¬IsNewline c →
      ∃ width, w[(glyphIndex w c).toNat]? = some width ∧
        (glyphIndex w c = (c.toNat : Int) - 32 ∨ glyphIndex w c = 0) ∧
        BuildScrollMap w [c] =
          some ((List.range width.toNat).map fun (j : Nat) => 3 * glyphIndex w c + (j : Int))) ∧
    (∃ ra, BuildScrollMap w a = some ra ∧
      ra.length =
        ((a.filter fun c => !decide (IsNewline c)).map fun c => (glyphWidth w c).toNat).sum ∧
      ((∀ x ∈ w, 0 ≤ x) →
        (ra.length : Int) =
          ((a.filter fun c => !decide (IsNewline c)).map fun c => glyphWidth w c).sum)) := by
  have hlen : 0 < w.length := List.length_pos.mpr hne
  refine ⟨?_, ?_, ?_, ?_⟩
  · exact ⟨_, _, buildScrollMap_eq w hne a, buildScrollMap_eq w hne b, by
      rw [buildScrollMap_eq w hne, List.flatMap_append]⟩
  · intro c hc
    rw [buildScrollMap_eq w hne]
    simp [glyphRun, hc]
  · intro c hc
    have hidx : 0 ≤ glyphIndex w c ∧ glyphIndex w c < (w.length : Int) := by
      unfold glyphIndex
      split_ifs with h
      · exact ⟨le_refl 0, by omega⟩
      · omega
    obtain ⟨v, -, -, hget⟩ := goIndex_of_lt w (glyphIndex w c) hidx.1 hidx.2
    refine ⟨v, hget, ?_, ?_⟩
    · unfold glyphIndex
      split_ifs
      · exact Or.inr rfl
      · exact Or.inl rfl
    · rw [buildScrollMap_eq w hne]
      simp only [List.flatMap_cons, List.flatMap_nil, List.append_nil, glyphRun, if_neg hc,
        glyphWidth, List.getD_eq_getElem?_getD, hget, Option.getD_some]
  · refine ⟨_, buildScrollMap_eq w hne a, ?_⟩
    have hsum : ∀ l : List Char, (l.flatMap (glyphRun w)).length =
        ((l.filter fun c => !decide (IsNewline c)).map fun c => (glyphWidth w c).toNat).sum := by
      intro l
      induction l with
      | nil => rfl
      | cons c rest ih =>
        rw [List.flatMap_cons, List.length_append, ih, length_glyphRun]
        by_cases hc : IsNewline c
        · simp [List.filter_cons, hc]
        · simp [List.filter_cons, hc]
    refine ⟨hsum a, ?_⟩
    intro hpos
    rw [hsum a]
    have hw : ∀ c, 0 ≤ glyphWidth w c := by
      intro c
      unfold glyphWidth
      rw [List.getD_eq_getElem?_getD]
      cases hg : w[(glyphIndex w c).toNat]? with
      | none => simp
      | some v =>
        simp only [Option.getD_some]
        exact hpos v (List.mem_iff_getElem?.mpr ⟨_, hg⟩)
    generalize (a.filter fun c => !decide (IsNewline c)) = l
    induction l with
    | nil => rfl
    | cons c rest ih =>
      simp only [List.map_cons, List.sum_cons, Nat.cast_add, ih]
      rw [Int.toNat_of_nonneg (hw c)]

/-- Witness of C25: the text `a!` followed by a line feed and a double quote,
on a table of three widths. -/
theorem buildScrollMap_runs_witness :
    BuildScrollMap demoWidths [Char.ofNat 97, Char.ofNat 33, Char.ofNat 10, Char.ofNat 34] =
      some [0, 3, 4, 6, 7, 8] := by
  obtain ⟨ra, rb, h1, h2, h3⟩ := (buildScrollMap_runs demoWidths (by decide)
    [Char.ofNat 97, Char.ofNat 33] [Char.ofNat 10, Char.ofNat 34]).1
  have e1 : BuildScrollMap demoWidths [Char.ofNat 97, Char.ofNat 33] = some [0, 3, 4] := by
    decide
  have e2 : BuildScrollMap demoWidths [Char.ofNat 10, Char.ofNat 34] = some [6, 7, 8] := by
    decide
  rw [e1] at h1
  rw [e2] at h2
  rw [← Option.some.inj h1, ← Option.some.inj h2] at h3
  exact h3

/-- C26: in exact arithmetic, with `cycle = animationDuration +
2 * scrollDuration = 10` and `animationCount * cycle = 70`, at every elapsed
time `t ≥ 0` the index `animation` of `SineSprites.Draw` is
`floor((t mod 70) / 10)`; it lies in 0..6 and `sineSpritePoint` calls the
function of that number; it is `floor(t / 10) mod 7`, so it is the same at
all times of one cycle of 10 seconds, and at `t + 10` it is the index at `t`
plus one, modulo 7. -/
theorem animation_cycle (t : ℚ) (ht : 0 ≤ t) :
    animationDuration + scrollDuration * 2 = 10 ∧
    ((animationCount : Int) : ℚ) * (animationDuration + scrollDuration * 2) = 70 ∧
    SineSprites.animation t = ⌊fmod t 70 / 10⌋ ∧
    0 ≤ SineSprites.animation t ∧ SineSprites.animation t ≤ 6 ∧
    ((sineSpritePoint (SineSprites.animation t) : Nat) : Int) = SineSprites.animation t ∧
    SineSprites.animation t = ⌊t / 10⌋ % 7 ∧
    (∀ s : ℚ, 0 ≤ s → ⌊s / 10⌋ = ⌊t / 10⌋ →
      SineSprites.animation s = SineSprites.animation t) ∧
    SineSprites.animation (t + 10) = (SineSprites.animation t + 1) % 7 := by
  obtain ⟨h1, h2, h3, h4⟩ := animation_eq t ht
  have hcycle : animationDuration + scrollDuration * 2 = 10 := by
    unfold animationDuration scrollDuration
    norm_num
  refine ⟨hcycle, ?_, h1, by rw [h1]; exact h2, by rw [h1]; exact h3, ?_, by rw [h1, h4], ?_, ?_⟩
  · rw [hcycle]
    unfold animationCount
    norm_num
  · rw [h1]
    generalize ⌊fmod t 70 / 10⌋ = k at h2 h3
    unfold sineSpritePoint
    split_ifs <;> push_cast <;> omega
  · intro s hs hst
    obtain ⟨g1, -, -, g4⟩ := animation_eq s hs
    rw [g1, g4, hst, h1, h4]
  · obtain ⟨g1, -, -, g4⟩ := animation_eq (t + 10) (by linarith)
    have e : (t + 10) / 10 = t / 10 + ((1 : Int) : ℚ) := by
      push_cast
      ring
    rw [g1, g4, e, Int.floor_add_int, h1, h4]
    omega

/-- Witness of C26: the index 25 seconds in. -/
theorem animation_cycle_witness :
    SineSprites.animation 25 = ⌊fmod 25 70 / 10⌋ ∧ SineSprites.animation 25 = ⌊(25 : ℚ) / 10⌋ % 7 :=
  ⟨(animation_cycle 25 (by norm_num)).2.2.1, (animation_cycle 25 (by norm_num)).2.2.2.2.2.2.1⟩

/-- C27: for a state with integer position, `calculatePositions` returns a
value; on each axis the screen position and the camera offset add up to the
position; when the map is at least as large as the view (`WidthPx ≥ 768`,
`HeightPx - 28 ≥ 400`) the camera offset lies in
`[0, WidthPx - 768] × [0, HeightPx - 400]`, the clamp of `TileMap.Draw`
returns it unchanged, and the level drawn by `drawScene` on a rectangular
non-empty map with positive tile size places every cell at its pixel origin
minus the camera offset, as the character is placed at its position minus
the camera offset. -/
theorem camera_offset (g : Game) (x y : Int) (hx : g.model.Position.X = (x : ℚ))
    (hy : g.model.Position.Y = (y : ℚ)) :
    ∃ (mapX mapY : Int) (dudeX dudeY bounce : ℚ),
      g.calculatePositions = some (mapX, mapY, dudeX, dudeY, bounce) ∧
      dudeX + (mapX : ℚ) = g.model.Position.X ∧ dudeY + (mapY : ℚ) = g.model.Position.Y ∧
      (768 ≤ g.mapLevel.WidthPx → 400 ≤ g.mapLevel.HeightPx - 28 →
        0 ≤ mapX ∧ mapX ≤ g.mapLevel.WidthPx - 768 ∧
        0 ≤ mapY ∧ mapY ≤ g.mapLevel.HeightPx - 400 ∧
        g.mapLevel.clip mapX mapY gameWidth gameHeight = (mapX, mapY) ∧
        (Rectangular g.mapLevel.Data → g.mapLevel.Data ≠ [] →
          0 < g.mapLevel.Tiles.TileW → 0 < g.mapLevel.Tiles.TileH →
          ∃ blits, g.drawLevel = some blits ∧
            ∀ b ∈ blits, b.x + mapX = b.mapX * g.mapLevel.Tiles.TileW ∧
              b.y + mapY = b.mapY * g.mapLevel.Tiles.TileH)) := by
  obtain ⟨bounce, hb⟩ := calculateBounce_isSome g
  have hpx : toInt (mathRound g.model.Position.X) = x := by
    rw [hx, mathRound_intCast, toInt_intCast]
  have hpy : toInt (mathRound g.model.Position.Y) = y := by
    rw [hy, mathRound_intCast, toInt_intCast]
  have hcalc : g.calculatePositions =
      some ((cameraAxis x g.mapLevel.WidthPx gameWidth).2,
        (cameraAxis y (g.mapLevel.HeightPx - (tileSize - 4)) gameHeight).2,
        (((cameraAxis x g.mapLevel.WidthPx gameWidth).1 : Int) : ℚ),
        (((cameraAxis y (g.mapLevel.HeightPx - (tileSize - 4)) gameHeight).1 : Int) : ℚ),
        bounce) := by
    simp only [Game.calculatePositions, hpx, hpy, hb, Option.bind_eq_bind, Option.some_bind,
      Option.pure_def]
  obtain ⟨sx, rx⟩ := cameraAxis_spec x g.mapLevel.WidthPx gameWidth (Or.inl rfl)
  obtain ⟨sy, ry⟩ := cameraAxis_spec y (g.mapLevel.HeightPx - (tileSize - 4)) gameHeight
    (Or.inr rfl)
  have hts : tileSize - 4 = 28 := by decide
  have hgw : gameWidth = 768 := rfl
  have hgh : gameHeight = 400 := rfl
  refine ⟨_, _, _, _, _, hcalc, ?_, ?_, ?_⟩
  · rw [hx]
    exact_mod_cast sx
  · rw [hy]
    exact_mod_cast sy
  · intro hw hh
    obtain ⟨rx1, rx2⟩ := rx (by rw [hgw]; exact hw)
    obtain ⟨ry1, ry2⟩ := ry (by rw [hgh, hts]; exact hh)
    have hclip : g.mapLevel.clip (cameraAxis x g.mapLevel.WidthPx gameWidth).2
        (cameraAxis y (g.mapLevel.HeightPx - (tileSize - 4)) gameHeight).2 gameWidth
        gameHeight =
        ((cameraAxis x g.mapLevel.WidthPx gameWidth).2,
          (cameraAxis y (g.mapLevel.HeightPx - (tileSize - 4)) gameHeight).2) :=
      clip_id g.mapLevel _ _ _ _ rx1 rx2 ry1 (by omega)
    refine ⟨rx1, by omega, ry1, by omega, hclip, ?_⟩
    intro hrect hne htw hth
    obtain ⟨blits, hd, hpos⟩ := draw_positions g.mapLevel hrect hne htw hth _ _ 0 0 _ _ _ _ hclip
    refine ⟨blits, ?_, ?_⟩
    · simp only [Game.drawLevel, hcalc, Option.bind_eq_bind, Option.some_bind]
      exact hd
    · intro b hb
      obtain ⟨p1, p2⟩ := hpos b hb
      constructor <;> omega

/-- Witness of C27: the game on a level of 1024 by 640 pixels at the Reset
position `(320, 450)`. -/
theorem camera_offset_witness :
    ∃ (mapX mapY : Int) (dudeX dudeY bounce : ℚ),
      wideGame.calculatePositions = some (mapX, mapY, dudeX, dudeY, bounce) ∧
      dudeX + (mapX : ℚ) = 320 ∧ dudeY + (mapY : ℚ) = 450 ∧
      wideGame.mapLevel.clip mapX mapY gameWidth gameHeight = (mapX, mapY) := by
  obtain ⟨mapX, mapY, dudeX, dudeY, bounce, h1, h2, h3, h4⟩ :=
    camera_offset wideGame 320 450 (by with_unfolding_all decide) (by with_unfolding_all decide)
  obtain ⟨-, -, -, -, h5, -⟩ := h4 (by decide) (by decide)
  have e1 : wideGame.model.Position.X = 320 := rfl
  have e2 : wideGame.model.Position.Y = 450 := rfl
  exact ⟨mapX, mapY, dudeX, dudeY, bounce, h1, by rw [h2, e1], by rw [h3, e2], h5⟩

end CuddlyMenu
